import Mathlib

/-!
# Antrea agent: Service proxy sync engine and NetworkPolicy priority assigner

Shallow embedding of `pkg/agent/proxy/proxier.go` and of the priority assigner
exercised by `pkg/agent/controller/networkpolicy/priority_test.go`.

Go maps are functions into `Option`; a `range` over a map receives the order in
which the runtime visits the keys as a list.  Calls to the OpenFlow client are
answered by an arbitrary history-dependent oracle and recorded in a log.
-/

namespace Antrea

/-! ## Service proxy: data model -/

/-- The switch protocol enum `binding.Protocol`, restricted to the values the proxier uses. -/
inductive BindingProtocol where
  | TCP
  | UDP
  | SCTP
deriving DecidableEq, Repr

/-- The identity `k8sproxy.ServicePortName`; `Protocol` is the `corev1.Protocol` string. -/
structure ServicePortName where
  Namespace : String
  Name : String
  Port : String
  Protocol : String
deriving DecidableEq, Repr

/-- A `k8sproxy.Endpoint`: the "IP:port" string it was built from and the locality flag. -/
structure Endpoint where
  endpoint : String
  IsLocal : Bool
deriving DecidableEq, Repr

/-- The method `Endpoint.String()`. -/
def Endpoint.String (e : Endpoint) : String := e.endpoint

/-- The value `types.ServiceInfo` restricted to the accessors that `proxier.go` calls. -/
structure ServiceInfo where
  ClusterIP : String
  Port : Int
  Protocol : String
  OFProtocol : BindingProtocol
  StickyMaxAgeSeconds : Int
  LoadBalancerIPStrings : List String
deriving DecidableEq, Repr

/-- Modelled from the spec: `ServiceInfo.String()` is declared outside `proxier.go`; the canonical
form is `<ClusterIP>:<Port>/<Proto>`. -/
def ServiceInfo.String (si : ServiceInfo) : String :=
  si.ClusterIP ++ ":" ++ toString si.Port ++ "/" ++ si.Protocol

/-- The Go conversion `uint16(x)` of an `int`. -/
def uint16 (x : Int) : Nat := (x % 65536).toNat

/-- The function `net.ParseIP`; addresses are kept in their textual form. -/
def ParseIP (s : String) : String := s

/-- The calls that the proxier issues to `openflow.Client`. -/
inductive OFCall where
  | InstallServiceFlows (groupID : Nat) (ip : String) (port : Nat) (protocol : BindingProtocol)
      (affinityTimeout : Nat)
  | InstallLoadBalancerServiceFlows (groupID : Nat) (ip : String) (port : Nat)
      (protocol : BindingProtocol) (affinityTimeout : Nat)
  | UninstallServiceFlows (ip : String) (port : Nat) (protocol : BindingProtocol)
  | InstallEndpointFlows (protocol : BindingProtocol) (endpoints : List Endpoint)
  | UninstallEndpointFlows (protocol : BindingProtocol) (endpoint : Endpoint)
  | InstallServiceGroup (groupID : Nat) (withSessionAffinity : Bool) (endpoints : List Endpoint)
  | UninstallServiceGroup (groupID : Nat)
deriving DecidableEq, Repr

/-- One logged call: the service whose loop iteration issued it, the call, and whether the
client returned a nil error. -/
structure OFEvent where
  svc : ServicePortName
  call : OFCall
  ok : Bool
deriving DecidableEq, Repr

/-- The collaborator `openflow.Client`: given the calls answered so far and the next call, it
says whether the call succeeds. -/
abbrev OFClient := List (OFCall × Bool) → OFCall → Bool

/-- Modelled from the spec: `types.GroupCounter` is declared outside `proxier.go`; it allocates a
stable group identifier per ServicePortName lazily on first use and keeps released identifiers
for reuse. -/
structure GroupCounter where
  groupIDCounter : Nat
  recycled : List Nat
  groupMap : ServicePortName → Option Nat

/-- Modelled from the spec: `GroupCounter.Get` returns the identifier of the service, allocating
one (a recycled identifier first, a fresh one otherwise) when the service has none. -/
def GroupCounter.Get (g : GroupCounter) (svcPortName : ServicePortName) : Nat × GroupCounter :=
  match g.groupMap svcPortName with
  | some id => (id, g)
  | none =>
    match g.recycled with
    | id :: rest =>
      (id, { g with recycled := rest, groupMap := Function.update g.groupMap svcPortName (some id) })
    | [] =>
      (g.groupIDCounter + 1,
        { g with groupIDCounter := g.groupIDCounter + 1,
                 groupMap := Function.update g.groupMap svcPortName (some (g.groupIDCounter + 1)) })

/-- Modelled from the spec: `GroupCounter.Recycle` releases the identifier of the service. -/
def GroupCounter.Recycle (g : GroupCounter) (svcPortName : ServicePortName) : GroupCounter :=
  match g.groupMap svcPortName with
  | some id =>
    { g with recycled := id :: g.recycled, groupMap := Function.update g.groupMap svcPortName none }
  | none => g

/-- The fields of `proxier` that the sync path reads and writes, and the log of the calls made
to `ofClient`.  In `endpointInstalledMap` the outer `Option` says whether the key is present and
the inner one whether the stored map is non-nil. -/
structure Proxier where
  serviceMap : ServicePortName → Option ServiceInfo
  serviceInstalledMap : ServicePortName → Option ServiceInfo
  endpointsMap : ServicePortName → Option (List Endpoint)
  endpointInstalledMap : ServicePortName → Option (Option (Finset String))
  groupCounter : GroupCounter
  serviceStringMap : String → Option ServicePortName
  ofLog : List OFEvent

/-- Issue one call to `ofClient` while processing `svcPortName`. -/
def Proxier.ofCall (c : OFClient) (p : Proxier) (svcPortName : ServicePortName) (call : OFCall) :
    Bool × Proxier :=
  let ok := c (p.ofLog.map (fun e => (e.call, e.ok))) call
  (ok, { p with ofLog := p.ofLog ++ [{ svc := svcPortName, call := call, ok := ok }] })

/-- The method `addServiceByIP`. -/
def Proxier.addServiceByIP (p : Proxier) (serviceStr : String) (servicePortName : ServicePortName) :
    Proxier :=
  { p with serviceStringMap := Function.update p.serviceStringMap serviceStr (some servicePortName) }

/-- The method `deleteServiceByIP`. -/
def Proxier.deleteServiceByIP (p : Proxier) (serviceStr : String) : Proxier :=
  { p with serviceStringMap := Function.update p.serviceStringMap serviceStr none }

/-- The method `GetServiceByIP`. -/
def Proxier.GetServiceByIP (p : Proxier) (serviceStr : String) : Option ServicePortName :=
  p.serviceStringMap serviceStr

/-! ## removeStaleServices -/

/-- The loop of `removeStaleServices` over `svcInfo.LoadBalancerIPStrings()`: a failed call only
continues this inner loop. -/
def uninstallIngressFlows (c : OFClient) (svcPortName : ServicePortName) (svcInfo : ServiceInfo) :
    Proxier → List String → Proxier
  | p, [] => p
  | p, ingress :: rest =>
    if ingress ≠ "" then
      uninstallIngressFlows c svcPortName svcInfo
        (p.ofCall c svcPortName
          (.UninstallServiceFlows (ParseIP ingress) (uint16 svcInfo.Port) svcInfo.OFProtocol)).2 rest
    else uninstallIngressFlows c svcPortName svcInfo p rest

/-- The loop of `removeStaleServices` over `p.endpointsMap[svcPortName]`: a failed call only
continues this inner loop. -/
def uninstallServiceEndpoints (c : OFClient) (svcPortName : ServicePortName)
    (svcInfo : ServiceInfo) : Proxier → List Endpoint → Proxier
  | p, [] => p
  | p, endpoint :: rest =>
    uninstallServiceEndpoints c svcPortName svcInfo
      (p.ofCall c svcPortName (.UninstallEndpointFlows svcInfo.OFProtocol endpoint)).2 rest

/-- The tail of the body of `removeStaleServices`, from the lookup of the group identifier on. -/
def removeServiceGroup (c : OFClient) (p : Proxier) (svcPortName : ServicePortName)
    (svcInfo : ServiceInfo) : Proxier :=
  let got := p.groupCounter.Get svcPortName
  let p1 := { p with groupCounter := got.2 }
  let r := p1.ofCall c svcPortName (.UninstallServiceGroup got.1)
  if r.1 then
    let p2 := { r.2 with serviceInstalledMap := Function.update r.2.serviceInstalledMap svcPortName none }
    let p3 := p2.deleteServiceByIP svcInfo.String
    { p3 with groupCounter := p3.groupCounter.Recycle svcPortName }
  else r.2

/-- One iteration of the loop of `removeStaleServices`. -/
def removeStaleService (c : OFClient) (p : Proxier) (svcPortName : ServicePortName) : Proxier :=
  match p.serviceInstalledMap svcPortName with
  | none => p
  | some svcInfo =>
    if (p.serviceMap svcPortName).isSome then p
    else
      let r := p.ofCall c svcPortName
        (.UninstallServiceFlows svcInfo.ClusterIP (uint16 svcInfo.Port) svcInfo.OFProtocol)
      if r.1 then
        let p1 := uninstallIngressFlows c svcPortName svcInfo r.2 svcInfo.LoadBalancerIPStrings
        let p2 := uninstallServiceEndpoints c svcPortName svcInfo p1
          ((p1.endpointsMap svcPortName).getD [])
        removeServiceGroup c p2 svcPortName svcInfo
      else r.2

/-- The method `removeStaleServices`; `order` is the order in which `range` visits the keys of
`serviceInstalledMap`. -/
def removeStaleServices (c : OFClient) (p : Proxier) (order : List ServicePortName) : Proxier :=
  order.foldl (removeStaleService c) p

/-! ## removeStaleEndpoints -/

/-- The protocol conversion at the head of the loop of `removeStaleEndpoints`. -/
def bindingProtocolOf (svcPortName : ServicePortName) : BindingProtocol :=
  if svcPortName.Protocol = "UDP" then .UDP
  else if svcPortName.Protocol = "SCTP" then .SCTP
  else .TCP

/-- One iteration of the inner loop of `removeStaleEndpoints`. -/
def removeStaleEndpoint (c : OFClient) (svcPortName : ServicePortName) (p : Proxier)
    (endpoint : Endpoint) : Proxier :=
  let r := p.ofCall c svcPortName (.UninstallEndpointFlows (bindingProtocolOf svcPortName) endpoint)
  if r.1 then
    match r.2.endpointInstalledMap svcPortName with
    | none => r.2
    | some none =>
      { r.2 with endpointInstalledMap := Function.update r.2.endpointInstalledMap svcPortName none }
    | some (some m) =>
      if (m.erase endpoint.String).card = 0 then
        { r.2 with endpointInstalledMap := Function.update r.2.endpointInstalledMap svcPortName none }
      else
        { r.2 with endpointInstalledMap :=
            Function.update r.2.endpointInstalledMap svcPortName (some (some (m.erase endpoint.String))) }
  else r.2

/-- The method `removeStaleEndpoints`; the argument lists the stale endpoints of each service in
the order in which the two `range` loops visit them. -/
def removeStaleEndpoints (c : OFClient) (p : Proxier)
    (staleEndpoints : List (ServicePortName × List Endpoint)) : Proxier :=
  staleEndpoints.foldl (fun q kv => kv.2.foldl (removeStaleEndpoint c kv.1) q) p

/-! ## installServices -/

/-- The outcome of a function that may hit a Go run-time panic, with the state reached. -/
inductive Run where
  | returned (p : Proxier)
  | panicked (p : Proxier)

/-- The state in which a run ended. -/
def Run.state : Run → Proxier
  | .returned p => p
  | .panicked p => p

/-- The loop of `installServices` over the endpoints of a service: `installed` is the map held in
`endpointInstalled` (`none` for a nil map); the result is `none` when the loop assigns to an
entry of a nil map, and otherwise the map, `needUpdate` and `endpointUpdateList`. -/
def scanEndpoints : List Endpoint → Option (Finset String) → Bool → List Endpoint →
    Option (Option (Finset String) × Bool × List Endpoint)
  | [], installed, needUpdate, acc => some (installed, needUpdate, acc)
  | _ :: _, none, _, _ => none
  | endpoint :: rest, some m, needUpdate, acc =>
    if endpoint.String ∈ m then scanEndpoints rest (some m) needUpdate (acc ++ [endpoint])
    else scanEndpoints rest (some (insert endpoint.String m)) true (acc ++ [endpoint])

/-- The loop of `installServices` over `svcInfo.LoadBalancerIPStrings()`: a failed call only
continues this inner loop.  The method `installLoadBalancerServiceFlows` is declared outside
`proxier.go`; it is taken to be the client call `InstallLoadBalancerServiceFlows` of the
specification. -/
def installIngressFlows (c : OFClient) (svcPortName : ServicePortName) (groupID : Nat)
    (svcInfo : ServiceInfo) : Proxier → List String → Proxier
  | p, [] => p
  | p, ingress :: rest =>
    if ingress ≠ "" then
      installIngressFlows c svcPortName groupID svcInfo
        (p.ofCall c svcPortName
          (.InstallLoadBalancerServiceFlows groupID (ParseIP ingress) (uint16 svcInfo.Port)
            svcInfo.OFProtocol (uint16 svcInfo.StickyMaxAgeSeconds))).2 rest
    else installIngressFlows c svcPortName groupID svcInfo p rest

/-- The part of the body of `installServices` after `needUpdate` was found true. -/
def programService (c : OFClient) (p : Proxier) (svcPortName : ServicePortName)
    (svcInfo : ServiceInfo) (groupID : Nat) (endpointUpdateList : List Endpoint) : Proxier :=
  let r1 := p.ofCall c svcPortName (.InstallEndpointFlows svcInfo.OFProtocol endpointUpdateList)
  if r1.1 then
    let r2 := r1.2.ofCall c svcPortName
      (.InstallServiceGroup groupID (decide (svcInfo.StickyMaxAgeSeconds ≠ 0)) endpointUpdateList)
    if r2.1 then
      let r3 := r2.2.ofCall c svcPortName
        (.InstallServiceFlows groupID svcInfo.ClusterIP (uint16 svcInfo.Port) svcInfo.OFProtocol
          (uint16 svcInfo.StickyMaxAgeSeconds))
      if r3.1 then
        let p4 := installIngressFlows c svcPortName groupID svcInfo r3.2 svcInfo.LoadBalancerIPStrings
        let p5 := { p4 with
          serviceInstalledMap := Function.update p4.serviceInstalledMap svcPortName (some svcInfo) }
        p5.addServiceByIP svcInfo.String svcPortName
      else r3.2
    else
      { r2.2 with
        endpointInstalledMap := Function.update r2.2.endpointInstalledMap svcPortName (some none) }
  else r1.2

/-- The value of `needUpdate` before the loop over the endpoints. -/
def serviceChanged (equal : ServiceInfo → ServiceInfo → Bool) (p : Proxier)
    (svcPortName : ServicePortName) (svcInfo : ServiceInfo) : Bool :=
  match p.serviceInstalledMap svcPortName with
  | none => true
  | some installedSvcPort => !(equal installedSvcPort svcInfo)

/-- One iteration of the loop of `installServices`; `equal` is `ServiceInfo.Equal`. -/
def installService (c : OFClient) (equal : ServiceInfo → ServiceInfo → Bool) (p : Proxier)
    (svcPortName : ServicePortName) : Run :=
  match p.serviceMap svcPortName with
  | none => .returned p
  | some svcInfo =>
    let got := p.groupCounter.Get svcPortName
    let p1 := { p with groupCounter := got.2 }
    match p1.endpointsMap svcPortName with
    | none => .returned p1
    | some endpoints =>
      if endpoints.length = 0 then .returned p1
      else
        let p2 : Proxier :=
          match p1.endpointInstalledMap svcPortName with
          | none =>
            { p1 with endpointInstalledMap :=
                Function.update p1.endpointInstalledMap svcPortName (some (some ∅)) }
          | some _ => p1
        match scanEndpoints endpoints ((p2.endpointInstalledMap svcPortName).getD none)
            (serviceChanged equal p2 svcPortName svcInfo) [] with
        | none => .panicked p2
        | some (endpointInstalled, needUpdate, endpointUpdateList) =>
          let p3 : Proxier := { p2 with
            endpointInstalledMap :=
              Function.update p2.endpointInstalledMap svcPortName (some endpointInstalled) }
          if needUpdate then
            .returned (programService c p3 svcPortName svcInfo got.1 endpointUpdateList)
          else .returned p3

/-- The method `installServices`; `order` is the order in which `range` visits the keys of
`serviceMap`. -/
def installServices (c : OFClient) (equal : ServiceInfo → ServiceInfo → Bool) :
    Proxier → List ServicePortName → Run
  | p, [] => .returned p
  | p, svcPortName :: rest =>
    match installService c equal p svcPortName with
    | .returned p1 => installServices c equal p1 rest
    | .panicked p1 => .panicked p1

/-! ## Reading the log -/

/-- The events that a run appended to the log of the state it started from. -/
def newEvents (p q : Proxier) : List OFEvent := q.ofLog.drop p.ofLog.length

/-- The events of a log that were issued while processing `svc`. -/
def eventsFor (svc : ServicePortName) (l : List OFEvent) : List OFEvent :=
  l.filter (fun e => decide (e.svc = svc))

/-- Recognises `InstallEndpointFlows`. -/
def OFCall.isInstallEndpointFlows : OFCall → Bool
  | .InstallEndpointFlows _ _ => true
  | _ => false

/-- Recognises `InstallServiceGroup`. -/
def OFCall.isInstallServiceGroup : OFCall → Bool
  | .InstallServiceGroup _ _ _ => true
  | _ => false

/-- Recognises `InstallServiceFlows`. -/
def OFCall.isInstallServiceFlows : OFCall → Bool
  | .InstallServiceFlows _ _ _ _ _ => true
  | _ => false

/-- Recognises `InstallLoadBalancerServiceFlows`. -/
def OFCall.isInstallLoadBalancerServiceFlows : OFCall → Bool
  | .InstallLoadBalancerServiceFlows _ _ _ _ _ => true
  | _ => false

/-- A call of the given kind was issued for `svc` and succeeded. -/
def succeededFor (l : List OFEvent) (svc : ServicePortName) (kind : OFCall → Bool) : Prop :=
  ∃ e ∈ l, e.svc = svc ∧ e.ok = true ∧ kind e.call = true

/-- A call of the given kind was issued for `svc` and failed. -/
def failedFor (l : List OFEvent) (svc : ServicePortName) (kind : OFCall → Bool) : Prop :=
  ∃ e ∈ l, e.svc = svc ∧ e.ok = false ∧ kind e.call = true

/-- The three calls `InstallEndpointFlows`, `InstallServiceGroup` and `InstallServiceFlows` were
issued for `svc` and all succeeded. -/
def programmedFor (l : List OFEvent) (svc : ServicePortName) : Prop :=
  succeededFor l svc OFCall.isInstallEndpointFlows ∧
  succeededFor l svc OFCall.isInstallServiceGroup ∧
  succeededFor l svc OFCall.isInstallServiceFlows

/-- The endpoint is recorded in `endpointInstalledMap[svc]`. -/
def endpointRecorded (p : Proxier) (svc : ServicePortName) (e : Endpoint) : Prop :=
  ∃ m, p.endpointInstalledMap svc = some (some m) ∧ e.String ∈ m

/-- The condition `needUpdate` of `installServices`, read on the state before the run. -/
def needsUpdate (equal : ServiceInfo → ServiceInfo → Bool) (p : Proxier) (svc : ServicePortName)
    (svcInfo : ServiceInfo) (endpoints : List Endpoint) : Prop :=
  serviceChanged equal p svc svcInfo = true ∨ ∃ e ∈ endpoints, ¬ endpointRecorded p svc e

/-- The event logged by the call `InstallEndpointFlows` of `installServices`. -/
def installEndpointFlowsEvent (k : ServicePortName) (si : ServiceInfo) (eps : List Endpoint)
    (ok : Bool) : OFEvent :=
  { svc := k, call := .InstallEndpointFlows si.OFProtocol eps, ok := ok }

/-- The event logged by the call `InstallServiceGroup` of `installServices`. -/
def installServiceGroupEvent (k : ServicePortName) (si : ServiceInfo) (g : Nat)
    (eps : List Endpoint) (ok : Bool) : OFEvent :=
  { svc := k, call := .InstallServiceGroup g (decide (si.StickyMaxAgeSeconds ≠ 0)) eps, ok := ok }

/-- The event logged by the call `InstallServiceFlows` of `installServices`. -/
def installServiceFlowsEvent (k : ServicePortName) (si : ServiceInfo) (g : Nat) (ok : Bool) :
    OFEvent :=
  { svc := k
    call := .InstallServiceFlows g si.ClusterIP (uint16 si.Port) si.OFProtocol
      (uint16 si.StickyMaxAgeSeconds)
    ok := ok }

/-- The state with events appended to the log. -/
def Proxier.logged (p : Proxier) (l : List OFEvent) : Proxier := { p with ofLog := p.ofLog ++ l }

/-- The state with the entry of `k` in `endpointInstalledMap` replaced. -/
def Proxier.withEndpointInstalled (p : Proxier) (k : ServicePortName)
    (v : Option (Option (Finset String))) : Proxier :=
  { p with endpointInstalledMap := Function.update p.endpointInstalledMap k v }

/-- The state after the bookkeeping at the end of the body of `installServices`. -/
def Proxier.withInstalled (p : Proxier) (k : ServicePortName) (si : ServiceInfo) : Proxier :=
  { p with serviceInstalledMap := Function.update p.serviceInstalledMap k (some si)
           serviceStringMap := Function.update p.serviceStringMap si.String (some k) }

/-- The state with the group counter replaced. -/
def Proxier.withGroupCounter (p : Proxier) (g : GroupCounter) : Proxier :=
  { p with groupCounter := g }

/-- What a run of `installServices` that only visits services in `ks` leaves untouched. -/
structure InstallFrame (ks : ServicePortName → Prop) (p q : Proxier) : Prop where
  serviceMap : q.serviceMap = p.serviceMap
  endpointsMap : q.endpointsMap = p.endpointsMap
  installed : ∀ j, ¬ ks j → q.serviceInstalledMap j = p.serviceInstalledMap j
  endpointInstalled : ∀ j, ¬ ks j → q.endpointInstalledMap j = p.endpointInstalledMap j
  strings : ∀ s, (∀ w, ks w → ∀ wi, p.serviceMap w = some wi → wi.String ≠ s) →
    q.serviceStringMap s = p.serviceStringMap s
  log : ∃ new, q.ofLog = p.ofLog ++ new ∧ ∀ e ∈ new, ks e.svc

/-! ## Sample data for the service proxy -/

/-- Sample service port name `ns/a:http`. -/
def svcA : ServicePortName := ⟨"ns", "a", "http", "TCP"⟩

/-- Sample service port name `ns/b:http`. -/
def svcB : ServicePortName := ⟨"ns", "b", "http", "TCP"⟩

/-- Sample service on 10.0.0.1:80/TCP without load-balancer ingress. -/
def infoPlain : ServiceInfo := ⟨"10.0.0.1", 80, "TCP", .TCP, 0, []⟩

/-- Sample service on 10.0.0.1:80/TCP with one load-balancer ingress address. -/
def infoLB : ServiceInfo := ⟨"10.0.0.1", 80, "TCP", .TCP, 0, ["192.0.2.1"]⟩

/-- Sample endpoints. -/
def ep0 : Endpoint := ⟨"10.1.0.10:8080", false⟩

/-- Sample endpoint. -/
def ep1 : Endpoint := ⟨"10.1.0.11:8080", false⟩

/-- Sample endpoint. -/
def ep2 : Endpoint := ⟨"10.1.0.12:8080", false⟩

/-- The comparison of `ServiceInfo` values field by field, as a sample for `ServiceInfo.Equal`. -/
def equalAll (a b : ServiceInfo) : Bool := decide (a = b)

/-- A group counter that has allocated nothing. -/
def GroupCounter.init : GroupCounter := ⟨0, [], fun _ => none⟩

/-- Two services that share ClusterIP:Port/Proto: `svcA` is installed with `ep0` recorded and
gains `ep1`; `svcB` is new. -/
def collidingState : Proxier :=
  { serviceMap := fun k => if k = svcA ∨ k = svcB then some infoPlain else none
    serviceInstalledMap := fun k => if k = svcA then some infoPlain else none
    endpointsMap := fun k =>
      if k = svcA then some [ep0, ep1] else if k = svcB then some [ep2] else none
    endpointInstalledMap := fun k => if k = svcA then some (some {ep0.String}) else none
    groupCounter := ⟨1, [], fun k => if k = svcA then some 1 else none⟩
    serviceStringMap := fun s => if s = "10.0.0.1:80/TCP" then some svcA else none
    ofLog := [] }

/-- A client on which installing the endpoint flows of `[ep0, ep1]` fails and every other call
succeeds. -/
def failEndpointsClient : OFClient :=
  fun _ call => decide (call ≠ .InstallEndpointFlows .TCP [ep0, ep1])

/-- A client on which every call succeeds. -/
def okClient : OFClient := fun _ _ => true

/-- A stale service: `svcA` is installed with one load-balancer ingress address, holds group 1, has
two endpoints left in `endpointsMap`, and is no longer in `serviceMap`. -/
def staleState : Proxier :=
  { serviceMap := fun _ => none
    serviceInstalledMap := fun k => if k = svcA then some infoLB else none
    endpointsMap := fun k => if k = svcA then some [ep0, ep1] else none
    endpointInstalledMap := fun k =>
      if k = svcA then some (some {ep0.String, ep1.String}) else none
    groupCounter := ⟨1, [], fun k => if k = svcA then some 1 else none⟩
    serviceStringMap := fun s => if s = "10.0.0.1:80/TCP" then some svcA else none
    ofLog := [] }

/-- A client on which uninstalling the flows of endpoint `ep0` fails and every other call
succeeds. -/
def failUninstallEndpointClient : OFClient :=
  fun _ call => decide (call ≠ .UninstallEndpointFlows .TCP ep0)

/-- A client on which uninstalling the service flows of the ingress address fails and every other
call succeeds. -/
def failUninstallIngressClient : OFClient :=
  fun _ call => decide (call ≠ .UninstallServiceFlows "192.0.2.1" 80 .TCP)

/-- A new service `svcB` with one endpoint and nothing installed. -/
def freshState : Proxier :=
  { serviceMap := fun k => if k = svcB then some infoPlain else none
    serviceInstalledMap := fun _ => none
    endpointsMap := fun k => if k = svcB then some [ep2] else none
    endpointInstalledMap := fun _ => none
    groupCounter := GroupCounter.init
    serviceStringMap := fun _ => none
    ofLog := [] }

/-- An installed service `svcA` with `ep0` programmed that gains the endpoint `ep1`. -/
def grownState : Proxier :=
  { serviceMap := fun k => if k = svcA then some infoPlain else none
    serviceInstalledMap := fun k => if k = svcA then some infoPlain else none
    endpointsMap := fun k => if k = svcA then some [ep0, ep1] else none
    endpointInstalledMap := fun k => if k = svcA then some (some {ep0.String}) else none
    groupCounter := ⟨1, [], fun k => if k = svcA then some 1 else none⟩
    serviceStringMap := fun s => if s = "10.0.0.1:80/TCP" then some svcA else none
    ofLog := [] }

/-! ## NetworkPolicy priority assigner

The implementation of the assigner is not among the sources; only its test file is.  The
definitions below are modelled from the specification and are checked against the cases of
`priority_test.go`. -/

/-- Modelled from the spec: the logical priority `types.Priority`, declared outside the sources
and built by the tests from its three fields; the policy priority is a rational. -/
structure Priority where
  TierPriority : Int
  PolicyPriority : ℚ
  RulePriority : Int
deriving DecidableEq

/-- Modelled from the spec: the lexicographic order on
`(TierPriority, PolicyPriority, RulePriority)`, compared left to right. -/
def Priority.lexLt (p q : Priority) : Prop :=
  p.TierPriority < q.TierPriority ∨
    (p.TierPriority = q.TierPriority ∧
      (p.PolicyPriority < q.PolicyPriority ∨
        (p.PolicyPriority = q.PolicyPriority ∧ p.RulePriority < q.RulePriority)))

instance Priority.decidableLexLt (p q : Priority) : Decidable (p.lexLt q) := by
  unfold Priority.lexLt
  exact inferInstance

/-- Modelled from the spec: the parameters fixed when an assigner is built, none of which is
declared in the sources: the constants `PolicyBottomPriority` and `PolicyTopPriority`, the tier
flag and the function that proposes the initial numeric priority. -/
structure AssignerConfig where
  PolicyBottomPriority : Nat
  PolicyTopPriority : Nat
  isSingleTier : Bool
  initialOFPriorityFunc : Priority → Bool → Nat

/-- Modelled from the spec: the number of assignable numeric priorities,
`PolicyTopPriority - PolicyBottomPriority + 1`. -/
def AssignerConfig.capacity (cfg : AssignerConfig) : Nat :=
  cfg.PolicyTopPriority - cfg.PolicyBottomPriority + 1

/-- Modelled from the spec: the state of `priorityAssigner`, whose declaration is not among the
sources: the two inverse maps and the ascending list of the numeric priorities in use. -/
structure priorityAssigner where
  priorityMap : Priority → Option Nat
  ofPriorityMap : Nat → Option Priority
  sortedOFPriorities : List Nat

/-- Modelled from the spec: `newPriorityAssigner` starts with nothing assigned. -/
def newPriorityAssigner : priorityAssigner :=
  { priorityMap := fun _ => none, ofPriorityMap := fun _ => none, sortedOFPriorities := [] }

/-- Modelled from the spec: `updatePriorityAssignment` (body not among the sources) records the
pair and inserts the numeric priority into `sortedOFPriorities` at the correct position. -/
def priorityAssigner.updatePriorityAssignment (pa : priorityAssigner) (ofPriority : Nat)
    (p : Priority) : priorityAssigner :=
  { priorityMap := Function.update pa.priorityMap p (some ofPriority)
    ofPriorityMap := Function.update pa.ofPriorityMap ofPriority (some p)
    sortedOFPriorities :=
      if (pa.ofPriorityMap ofPriority).isSome then pa.sortedOFPriorities
      else pa.sortedOFPriorities.orderedInsert (· ≤ ·) ofPriority }

/-- Modelled from the spec: `Release` (body not among the sources) removes the mapping of a
numeric priority from the three components. -/
def priorityAssigner.Release (pa : priorityAssigner) (ofPriority : Nat) : priorityAssigner :=
  match pa.ofPriorityMap ofPriority with
  | none => pa
  | some p =>
    { priorityMap := Function.update pa.priorityMap p none
      ofPriorityMap := Function.update pa.ofPriorityMap ofPriority none
      sortedOFPriorities := pa.sortedOFPriorities.erase ofPriority }

/-- Modelled from the spec: the numeric priority holds a logical priority that must stay above
`p` on the switch.  The tests fix the direction: the lexicographically smaller priority gets the
greater numeric priority (`p110` at 10000, `p1120` at 9999). -/
def priorityAssigner.holdsHigher (pa : priorityAssigner) (p : Priority) (n : Nat) : Bool :=
  match pa.ofPriorityMap n with
  | some q => decide (q.lexLt p)
  | none => false

/-- Modelled from the spec: the numeric priority holds a logical priority that must stay below
`p` on the switch, one that is lexicographically greater than `p`. -/
def priorityAssigner.holdsLower (pa : priorityAssigner) (p : Priority) (n : Nat) : Bool :=
  match pa.ofPriorityMap n with
  | some q => decide (p.lexLt q)
  | none => false

/-- Modelled from the spec: `getInsertionPoint` (body not among the sources).  The seed is kept
when it is free and lies between the two neighbours of `p`; otherwise the walk over
`sortedOFPriorities` finds the neighbours `lo` and `hi` and returns a free numeric between them
(next to the neighbour on the side of the seed), one above the maximum when `p` ranks above all
(at most `PolicyTopPriority + 1`), one below the minimum when `p` ranks below all and there is
room above `PolicyBottomPriority` (the minimum itself, as occupied, when there is none: the case
"sift-up-at-lower-bound" of the tests passes `PolicyBottomPriority` for it), and `hi` as occupied
when there is no free numeric between the neighbours (the cases "find-insertion-up" and
"find-insertion-down" of the tests both expect `hi`). -/
def priorityAssigner.getInsertionPoint (cfg : AssignerConfig) (pa : priorityAssigner)
    (p : Priority) : Nat × Bool :=
  let seed := cfg.initialOFPriorityFunc p cfg.isSingleTier
  let hi := pa.sortedOFPriorities.find? (pa.holdsHigher p)
  let lo := pa.sortedOFPriorities.reverse.find? (pa.holdsLower p)
  if (pa.ofPriorityMap seed).isNone ∧ (∀ l ∈ lo, l < seed) ∧ (∀ h ∈ hi, seed < h) then
    (seed, false)
  else
    match lo, hi with
    | none, none => (seed, (pa.ofPriorityMap seed).isSome)
    | some l, none => (min (l + 1) (cfg.PolicyTopPriority + 1), false)
    | none, some h => if cfg.PolicyBottomPriority < h then (h - 1, false) else (h, true)
    | some l, some h =>
      if seed ≤ l then (if l + 1 < h then (l + 1, false) else (h, true))
      else (if l + 1 < h then (h - 1, false) else (h, true))

/-- Modelled from the spec: the nearest gap upwards, the first free numeric priority among
`n, n + 1, ...`, looking at `fuel` of them. -/
def priorityAssigner.firstFreeUp (pa : priorityAssigner) : Nat → Nat → Option Nat
  | _, 0 => none
  | n, fuel + 1 =>
    if (pa.ofPriorityMap n).isNone then some n else pa.firstFreeUp (n + 1) fuel

/-- Modelled from the spec: the nearest gap downwards, the first free numeric priority among
`n, n - 1, ...`, looking at `fuel` of them. -/
def priorityAssigner.firstFreeDown (pa : priorityAssigner) : Nat → Nat → Option Nat
  | _, 0 => none
  | n, fuel + 1 =>
    if (pa.ofPriorityMap n).isNone then some n else pa.firstFreeDown (n - 1) fuel

/-- Modelled from the spec: move the entry at the numeric priority `src`, if any, to `dst`,
with the two primitives `Release` and `updatePriorityAssignment`. -/
def priorityAssigner.moveEntry (pa : priorityAssigner) (src dst : Nat) : priorityAssigner :=
  match pa.ofPriorityMap src with
  | none => pa
  | some q => (pa.Release src).updatePriorityAssignment dst q

/-- Modelled from the spec: move the `k` entries at `a, ..., a + k - 1` up by one, the topmost
first. -/
def priorityAssigner.shiftUp (pa : priorityAssigner) (a : Nat) : Nat → priorityAssigner
  | 0 => pa
  | k + 1 => (pa.moveEntry (a + k) (a + k + 1)).shiftUp a k

/-- Modelled from the spec: move the `k` entries at `b, ..., b + k - 1` down by one, the lowest
first. -/
def priorityAssigner.shiftDown (pa : priorityAssigner) : Nat → Nat → priorityAssigner
  | _, 0 => pa
  | b, k + 1 => (pa.moveEntry b (b - 1)).shiftDown (b + 1) k

/-- Modelled from the spec: the error of the assigner. -/
inductive AssignError where
  | OutOfSpace
deriving DecidableEq, Repr

/-- Modelled from the spec: what a successful assignment returns: the numeric priority of `p`,
the re-assignments of other entries (old numeric, new numeric), the revert function, and the
assigner afterwards. -/
structure Assignment where
  ofPriority : Nat
  updates : List (Nat × Nat)
  revert : priorityAssigner → priorityAssigner
  assigner : priorityAssigner

/-- Modelled from the spec: sift-up at `target` with the first gap at `gap`: the entries at
`target, ..., gap - 1` move up by one and `p` takes `target`.  The revert function undoes the
placement and the moves (design note on revert closures, undo log). -/
def priorityAssigner.siftUp (pa : priorityAssigner) (target gap : Nat) (p : Priority) :
    Assignment :=
  { ofPriority := target
    updates := (List.range' target (gap - target)).map (fun a => (a, a + 1))
    revert := fun s => (s.Release target).shiftDown (target + 1) (gap - target)
    assigner := (pa.shiftUp target (gap - target)).updatePriorityAssignment target p }

/-- Modelled from the spec: sift-down below `target` with the first gap at `gap`: the entries at
`gap + 1, ..., target - 1` move down by one and `p` takes `target - 1`; the entry at `target`
stays, as the case "sift-based-on-cost" of the tests expects (`p1130` aimed at 9999 takes 9998
and only the entry at 9998 moves). -/
def priorityAssigner.siftDown (pa : priorityAssigner) (target gap : Nat) (p : Priority) :
    Assignment :=
  { ofPriority := target - 1
    updates := (List.range' (gap + 1) (target - 1 - gap)).map (fun a => (a, a - 1))
    revert := fun s => (s.Release (target - 1)).shiftUp gap (target - 1 - gap)
    assigner :=
      (pa.shiftDown (gap + 1) (target - 1 - gap)).updatePriorityAssignment (target - 1) p }

/-- Modelled from the spec: `reassignPriorities` (body not among the sources).  Sift-up is
possible when `target` is not below the range and a gap exists up to `PolicyTopPriority`;
sift-down when `target - 1` is not above the range and a gap exists down to
`PolicyBottomPriority`.  The direction that moves strictly fewer entries is taken, the other
direction when one is impossible, and `OutOfSpace` when both are.  On a tie sift-down is taken:
the reading made here of "away from the boundary that would saturate first", which no case of
the tests decides. -/
def priorityAssigner.reassignPriorities (cfg : AssignerConfig) (pa : priorityAssigner)
    (target : Nat) (p : Priority) : Except AssignError Assignment :=
  let up : Option Nat :=
    if cfg.PolicyBottomPriority ≤ target then
      pa.firstFreeUp target (cfg.PolicyTopPriority + 1 - target)
    else none
  let down : Option Nat :=
    if target ≤ cfg.PolicyTopPriority + 1 then
      pa.firstFreeDown (target - 1) (target - cfg.PolicyBottomPriority)
    else none
  match up, down with
  | none, none => .error .OutOfSpace
  | some gu, none => .ok (pa.siftUp target gu p)
  | none, some gd => .ok (pa.siftDown target gd p)
  | some gu, some gd =>
    if gu - target < target - 1 - gd then .ok (pa.siftUp target gu p)
    else .ok (pa.siftDown target gd p)

/-- Modelled from the spec: `GetOFPriority` (body not among the sources).  A priority that is
already assigned keeps its numeric priority; otherwise the insertion point is taken directly
when it is free and within the range, and handed to `reassignPriorities` when it is occupied or
outside the range. -/
def priorityAssigner.GetOFPriority (cfg : AssignerConfig) (pa : priorityAssigner)
    (p : Priority) : Except AssignError Assignment :=
  match pa.priorityMap p with
  | some n => .ok { ofPriority := n, updates := [], revert := fun s => s, assigner := pa }
  | none =>
    let ip := pa.getInsertionPoint cfg p
    if ip.2 = false ∧ cfg.PolicyBottomPriority ≤ ip.1 ∧ ip.1 ≤ cfg.PolicyTopPriority then
      .ok { ofPriority := ip.1, updates := [], revert := fun s => s.Release ip.1,
            assigner := pa.updatePriorityAssignment ip.1 p }
    else pa.reassignPriorities cfg ip.1 p

/-- Modelled from the spec: `RegisterPriorities` (body not among the sources) assigns every
priority of the batch; an error leaves the assigner as it was before the call. -/
def priorityAssigner.RegisterPriorities (cfg : AssignerConfig) :
    priorityAssigner → List Priority → Except AssignError priorityAssigner
  | pa, [] => .ok pa
  | pa, p :: rest =>
    match pa.GetOFPriority cfg p with
    | .error e => .error e
    | .ok r => r.assigner.RegisterPriorities cfg rest

/-! ## Sample data for the priority assigner: the priorities of `priority_test.go` -/

/-- The priority `p110` of the tests. -/
def p110 : Priority := ⟨1, 1, 0⟩
/-- The priority `p1120` of the tests. -/
def p1120 : Priority := ⟨1, 1.2, 0⟩
/-- The priority `p1121` of the tests. -/
def p1121 : Priority := ⟨1, 1.2, 1⟩
/-- The priority `p1130` of the tests. -/
def p1130 : Priority := ⟨1, 1.3, 0⟩
/-- The priority `p1131` of the tests. -/
def p1131 : Priority := ⟨1, 1.3, 1⟩
/-- The priority `p1140` of the tests. -/
def p1140 : Priority := ⟨1, 1.4, 0⟩
/-- The priority `p1141` of the tests. -/
def p1141 : Priority := ⟨1, 1.4, 1⟩
/-- The priority `p1160` of the tests. -/
def p1160 : Priority := ⟨1, 1.6, 0⟩
/-- The priority `p1161` of the tests. -/
def p1161 : Priority := ⟨1, 1.6, 1⟩
/-- The priority `p190` of the tests. -/
def p190 : Priority := ⟨1, 9, 0⟩
/-- The priority `p191` of the tests. -/
def p191 : Priority := ⟨1, 9, 1⟩
/-- The priority `p192` of the tests. -/
def p192 : Priority := ⟨1, 9, 2⟩
/-- The priority `p193` of the tests. -/
def p193 : Priority := ⟨1, 9, 3⟩

/-- A configuration with sample bounds 100 and 65000 whose seed function is constant, as in the
tests that fix `initialOFPriority`. -/
def seedConfig (seed : Nat) : AssignerConfig :=
  { PolicyBottomPriority := 100, PolicyTopPriority := 65000, isSingleTier := true,
    initialOFPriorityFunc := fun _ _ => seed }

/-- The assigner obtained by the calls `updatePriorityAssignment` of a test set-up. -/
def assignerOf (l : List (Nat × Priority)) : priorityAssigner :=
  l.foldl (fun pa e => pa.updatePriorityAssignment e.1 e.2) newPriorityAssigner

/-- The numeric priority and the updates of an assignment, when it succeeded. -/
def assignedAndUpdates (r : Except AssignError Assignment) : Option (Nat × List (Nat × Nat)) :=
  r.toOption.map (fun a => (a.ofPriority, a.updates))

/-- The assigner after an assignment; the assigner as it was when the assignment failed. -/
def assignerAfter (pa : priorityAssigner) (r : Except AssignError Assignment) : priorityAssigner :=
  match r with
  | .ok a => a.assigner
  | .error _ => pa

/-- The assigner after an assignment and the call of its revert function. -/
def assignerReverted (pa : priorityAssigner) (r : Except AssignError Assignment) :
    priorityAssigner :=
  match r with
  | .ok a => a.revert a.assigner
  | .error _ => pa

/-- The entries of an assigner at the given numeric priorities, with its sorted list. -/
def snapshotAt (pa : priorityAssigner) (ns : List Nat) : List (Option Priority) × List Nat :=
  (ns.map pa.ofPriorityMap, pa.sortedOFPriorities)

/-! ## Invariants of the priority assigner -/

/-- Invariant I1 with the sortedness of P3: the two maps are inverse of each other and
`sortedOFPriorities` lists the numeric priorities in use in strictly ascending order. -/
structure priorityAssigner.WellFormed (pa : priorityAssigner) : Prop where
  inverse : ∀ p n, pa.priorityMap p = some n ↔ pa.ofPriorityMap n = some p
  sorted : pa.sortedOFPriorities.Sorted (· < ·)
  mem : ∀ n, n ∈ pa.sortedOFPriorities ↔ (pa.ofPriorityMap n).isSome

/-- Order preservation as the assigner realises it: a greater numeric priority holds a
lexicographically smaller logical priority. -/
def priorityAssigner.Ordered (pa : priorityAssigner) : Prop :=
  ∀ a b q r, pa.ofPriorityMap a = some q → pa.ofPriorityMap b = some r → a < b → r.lexLt q

/-- Invariant I3: every numeric priority in use lies in the assignable range. -/
def priorityAssigner.InRange (cfg : AssignerConfig) (pa : priorityAssigner) : Prop :=
  ∀ n, (pa.ofPriorityMap n).isSome → cfg.PolicyBottomPriority ≤ n ∧ n ≤ cfg.PolicyTopPriority

/-- What the walk of `getInsertionPoint` finds: `hi` is the lowest numeric priority whose entry
must stay above `p`, `lo` the highest one whose entry must stay below `p`. -/
structure Neighbours (pa : priorityAssigner) (p : Priority) (lo hi : Option Nat) : Prop where
  hi_some : ∀ h, hi = some h → (∃ q, pa.ofPriorityMap h = some q ∧ q.lexLt p) ∧
    ∀ m q, pa.ofPriorityMap m = some q → m < h → p.lexLt q
  hi_none : hi = none → ∀ m q, pa.ofPriorityMap m = some q → p.lexLt q
  lo_some : ∀ l, lo = some l → (∃ q, pa.ofPriorityMap l = some q ∧ p.lexLt q) ∧
    ∀ m q, pa.ofPriorityMap m = some q → l < m → q.lexLt p
  lo_none : lo = none → ∀ m q, pa.ofPriorityMap m = some q → q.lexLt p

/-- The numeric priority `t` separates the entries that must stay above `p` (at `t` and above)
from those that must stay below `p` (below `t`). -/
def priorityAssigner.Separates (pa : priorityAssigner) (p : Priority) (t : Nat) : Prop :=
  (∀ n q, pa.ofPriorityMap n = some q → t ≤ n → q.lexLt p) ∧
  (∀ n q, pa.ofPriorityMap n = some q → n < t → p.lexLt q)

/-- What a successful assignment of a new priority `p` does to the assigner. -/
structure Inserted (cfg : AssignerConfig) (pa : priorityAssigner) (p : Priority)
    (pa' : priorityAssigner) : Prop where
  wellFormed : pa'.WellFormed
  ordered : pa'.Ordered
  inRange : pa'.InRange cfg
  length : pa'.sortedOFPriorities.length = pa.sortedOFPriorities.length + 1
  unassigned : ∀ q, pa'.priorityMap q = none ↔ pa.priorityMap q = none ∧ q ≠ p

/-- The seed function proposes numeric priorities of the assignable range only. -/
def AssignerConfig.SeedInRange (cfg : AssignerConfig) : Prop :=
  ∀ p s, cfg.PolicyBottomPriority ≤ cfg.initialOFPriorityFunc p s ∧
    cfg.initialOFPriorityFunc p s ≤ cfg.PolicyTopPriority

/-- The assigner states that the public operations reach from the empty assigner. -/
inductive Reachable (cfg : AssignerConfig) : priorityAssigner → Prop where
  | init : Reachable cfg newPriorityAssigner
  | registerPriorities {pa pa' : priorityAssigner} (batch : List Priority) :
      Reachable cfg pa → pa.RegisterPriorities cfg batch = .ok pa' → Reachable cfg pa'
  | getOFPriority {pa : priorityAssigner} (p : Priority) (r : Assignment) :
      Reachable cfg pa → pa.GetOFPriority cfg p = .ok r → Reachable cfg r.assigner
  | release {pa : priorityAssigner} (n : Nat) : Reachable cfg pa → Reachable cfg (pa.Release n)

/-- The assigner obtained from the empty one by `RegisterPriorities` on a batch (the empty
assigner when the registration fails). -/
def registered (cfg : AssignerConfig) (batch : List Priority) : priorityAssigner :=
  match newPriorityAssigner.RegisterPriorities cfg batch with
  | .ok pa => pa
  | .error _ => newPriorityAssigner

/-- Order preservation I2 in the words of the specification: the logical order and the numeric
order of any two assigned priorities agree. -/
def priorityAssigner.OrderPreservedAsStated (pa : priorityAssigner) : Prop :=
  ∀ p q a b, pa.priorityMap p = some a → pa.priorityMap q = some b → (p.lexLt q ↔ a < b)

/-- A configuration with room for three numeric priorities, 100 to 102, and the seed 101. -/
def smallConfig : AssignerConfig :=
  { PolicyBottomPriority := 100, PolicyTopPriority := 102, isSingleTier := true,
    initialOFPriorityFunc := fun _ _ => 101 }

/-! ## syncProxyRules -/

/-- Modelled from the spec: the two change trackers are declared outside `proxier.go`; they are
taken as arbitrary state types with the operations `Synced` and `Update`.  `Update` of the
Endpoints tracker returns the new tracker, the updated `endpointsMap` and the stale endpoints;
`Update` of the Service tracker returns the new tracker and the updated `serviceMap`. -/
structure ChangeTrackers (τE τS : Type) where
  endpointsSynced : τE → Bool
  serviceSynced : τS → Bool
  endpointsUpdate : τE → (ServicePortName → Option (List Endpoint)) →
    τE × (ServicePortName → Option (List Endpoint)) × List (ServicePortName × List Endpoint)
  serviceUpdate : τS → (ServicePortName → Option ServiceInfo) →
    τS × (ServicePortName → Option ServiceInfo)

/-- The proxier together with its two change trackers. -/
structure SyncState (τE τS : Type) where
  proxier : Proxier
  endpointsChanges : τE
  serviceChanges : τS

/-- The outcome of `syncProxyRules`: the state reached and whether the run ended in a panic. -/
structure SyncResult (τE τS : Type) where
  state : SyncState τE τS
  panicked : Bool

/-- The method `isInitialized`. -/
def isInitialized {τE τS : Type} (ops : ChangeTrackers τE τS) (s : SyncState τE τS) : Bool :=
  ops.endpointsSynced s.endpointsChanges && ops.serviceSynced s.serviceChanges

/-- The method `syncProxyRules`; `rangeInstalled` and `rangeServices` give the order in which
`range` visits the keys of `serviceInstalledMap` and of `serviceMap`. -/
def syncProxyRules {τE τS : Type} (ops : ChangeTrackers τE τS) (c : OFClient)
    (equal : ServiceInfo → ServiceInfo → Bool)
    (rangeInstalled rangeServices : Proxier → List ServicePortName) (s : SyncState τE τS) :
    SyncResult τE τS :=
  if !isInitialized ops s then { state := s, panicked := false }
  else
    let eu := ops.endpointsUpdate s.endpointsChanges s.proxier.endpointsMap
    let su := ops.serviceUpdate s.serviceChanges s.proxier.serviceMap
    let p1 : Proxier := { s.proxier with endpointsMap := eu.2.1, serviceMap := su.2 }
    let p2 := removeStaleEndpoints c p1 eu.2.2
    let p3 := removeStaleServices c p2 (rangeInstalled p2)
    match installServices c equal p3 (rangeServices p3) with
    | .returned p4 =>
      { state := { proxier := p4, endpointsChanges := eu.1, serviceChanges := su.1 },
        panicked := false }
    | .panicked p4 =>
      { state := { proxier := p4, endpointsChanges := eu.1, serviceChanges := su.1 },
        panicked := true }

/-- Sample trackers: the tracker state is its `synced` flag and `Update` changes nothing. -/
def flagTrackers : ChangeTrackers Bool Bool :=
  { endpointsSynced := fun b => b
    serviceSynced := fun b => b
    endpointsUpdate := fun b m => (b, m, [])
    serviceUpdate := fun b m => (b, m) }

/-- What a run of `removeStaleServices` that only visits services in `ks` leaves untouched; the
reverse index only loses entries. -/
structure RemoveFrame (ks : ServicePortName → Prop) (p q : Proxier) : Prop where
  serviceMap : q.serviceMap = p.serviceMap
  endpointsMap : q.endpointsMap = p.endpointsMap
  installed : ∀ j, ¬ ks j → q.serviceInstalledMap j = p.serviceInstalledMap j
  strings : ∀ s, p.serviceStringMap s = none → q.serviceStringMap s = none
  groups : ∀ j, ¬ ks j → q.groupCounter.groupMap j = p.groupCounter.groupMap j
  log : ∃ new, q.ofLog = p.ofLog ++ new ∧ ∀ e ∈ new, ks e.svc

/-- The state after the bookkeeping at the end of the body of `removeStaleServices`. -/
def Proxier.withRemoved (p : Proxier) (k : ServicePortName) (si : ServiceInfo) : Proxier :=
  { p with serviceInstalledMap := Function.update p.serviceInstalledMap k none
           serviceStringMap := Function.update p.serviceStringMap si.String none
           groupCounter := p.groupCounter.Recycle k }

/-- The events of the successful calls with which `removeStaleServices` removes a service. -/
def removalEvents (k : ServicePortName) (si : ServiceInfo) (ingresses : List String)
    (eps : List Endpoint) (g : Nat) : List OFEvent :=
  [{ svc := k, call := .UninstallServiceFlows si.ClusterIP (uint16 si.Port) si.OFProtocol,
     ok := true }] ++
  (ingresses.filter (fun i => decide (i ≠ ""))).map (fun i =>
    { svc := k, call := .UninstallServiceFlows (ParseIP i) (uint16 si.Port) si.OFProtocol,
      ok := true }) ++
  eps.map (fun e => { svc := k, call := .UninstallEndpointFlows si.OFProtocol e, ok := true }) ++
  [{ svc := k, call := .UninstallServiceGroup g, ok := true }]

/-- A proxier state whose trackers are synced and report nothing to update. -/
def syncedFresh : SyncState Bool Bool :=
  { proxier := freshState, endpointsChanges := true, serviceChanges := true }

/-- Two services that share ClusterIP:Port/Proto: `svcA` is installed with its only endpoint
`ep0` recorded and holds the reverse-index entry; `svcB` is new. -/
def settledCollidingState : Proxier :=
  { serviceMap := fun k => if k = svcA ∨ k = svcB then some infoPlain else none
    serviceInstalledMap := fun k => if k = svcA then some infoPlain else none
    endpointsMap := fun k =>
      if k = svcA then some [ep0] else if k = svcB then some [ep2] else none
    endpointInstalledMap := fun k => if k = svcA then some (some {ep0.String}) else none
    groupCounter := ⟨1, [], fun k => if k = svcA then some 1 else none⟩
    serviceStringMap := fun s => if s = "10.0.0.1:80/TCP" then some svcA else none
    ofLog := [] }

/-- Sample service on 10.0.0.2:80/TCP without load-balancer ingress. -/
def infoOther : ServiceInfo := ⟨"10.0.0.2", 80, "TCP", .TCP, 0, []⟩

/-- An installed service `svcA` whose only endpoint `ep0` is recorded, next to a new service
`svcB` on another ClusterIP with one endpoint. -/
def mixedState : Proxier :=
  { serviceMap := fun k =>
      if k = svcA then some infoPlain else if k = svcB then some infoOther else none
    serviceInstalledMap := fun k => if k = svcA then some infoPlain else none
    endpointsMap := fun k =>
      if k = svcA then some [ep0] else if k = svcB then some [ep2] else none
    endpointInstalledMap := fun k => if k = svcA then some (some {ep0.String}) else none
    groupCounter := ⟨1, [], fun k => if k = svcA then some 1 else none⟩
    serviceStringMap := fun s => if s = "10.0.0.1:80/TCP" then some svcA else none
    ofLog := [] }

/-! ## Reading `endpointInstalledMap` -/

/-- The set held by an entry of `endpointInstalledMap`, empty when the key is absent or the map is
nil. -/
def entrySet : Option (Option (Finset String)) → Finset String
  | some (some m) => m
  | _ => ∅

/-- The set `endpointInstalledMap[svc]`. -/
def recordedSet (p : Proxier) (svc : ServicePortName) : Finset String :=
  entrySet (p.endpointInstalledMap svc)

/-- The endpoints for which a call `UninstallEndpointFlows` issued for `svc` succeeded, in the
order of the log. -/
def uninstalledEndpoints (l : List OFEvent) (svc : ServicePortName) : List Endpoint :=
  l.filterMap (fun e =>
    match e.call with
    | .UninstallEndpointFlows _ endpoint =>
      if e.svc = svc ∧ e.ok = true then some endpoint else none
    | _ => none)

/-- The identity strings of a list of endpoints. -/
def endpointStrings (l : List Endpoint) : Finset String := (l.map Endpoint.String).toFinset

/-- The identity strings of the endpoints for which a call `UninstallEndpointFlows` issued for
`svc` succeeded. -/
def uninstalledStrings (l : List OFEvent) (svc : ServicePortName) : Finset String :=
  endpointStrings (uninstalledEndpoints l svc)

/-- The entry of `endpointInstalledMap` after the iterations of `removeStaleEndpoints` that
succeeded for the endpoints `done`: untouched when there is none, and otherwise the set without
their strings, the key being deleted when that set is empty. -/
def erasedEntry (v : Option (Option (Finset String))) (done : List Endpoint) :
    Option (Option (Finset String)) :=
  if done = [] then v
  else if entrySet v \ endpointStrings done = ∅ then none
  else some (some (entrySet v \ endpointStrings done))

/-- Stale endpoints of two services: `svcA` has `ep0`, `ep1` and `ep2` recorded and loses `ep0`
and `ep1`; `svcB` has `ep2` recorded and loses it. -/
def staleEndpointsState : Proxier :=
  { serviceMap := fun k => if k = svcA ∨ k = svcB then some infoPlain else none
    serviceInstalledMap := fun k => if k = svcA ∨ k = svcB then some infoPlain else none
    endpointsMap := fun k => if k = svcA then some [ep2] else none
    endpointInstalledMap := fun k =>
      if k = svcA then some (some {ep0.String, ep1.String, ep2.String})
      else if k = svcB then some (some {ep2.String}) else none
    groupCounter := ⟨2, [], fun k => if k = svcA then some 1 else if k = svcB then some 2 else none⟩
    serviceStringMap := fun s => if s = "10.0.0.1:80/TCP" then some svcA else none
    ofLog := [] }

/-- The event logged by the call `UninstallEndpointFlows` of `removeStaleEndpoints`. -/
def uninstallEndpointFlowsEvent (k : ServicePortName) (e : Endpoint) (ok : Bool) : OFEvent :=
  { svc := k, call := .UninstallEndpointFlows (bindingProtocolOf k) e, ok := ok }

/-- The stale endpoints of `staleEndpointsState`. -/
def staleEndpointsArg : List (ServicePortName × List Endpoint) :=
  [(svcA, [ep0, ep1]), (svcB, [ep2])]

/-- Whether a run ended in a Go run-time panic. -/
def Run.isPanicked : Run → Bool
  | .returned _ => false
  | .panicked _ => true

/-- A client on which installing the group of `[ep2]` under the identifier 1 fails and every other
call succeeds. -/
def failGroupClient : OFClient :=
  fun _ call => decide (call ≠ .InstallServiceGroup 1 false [ep2])

/-! # Theorems -/

/-! ## installServices: normal forms of the loop body -/

theorem ofCall_snd (c : OFClient) (p : Proxier) (k : ServicePortName) (call : OFCall) :
    (p.ofCall c k call).2 =
      { p with ofLog := p.ofLog ++ [{ svc := k, call := call, ok := (p.ofCall c k call).1 }] } := rfl

theorem scanEndpoints_some (eps : List Endpoint) (m : Finset String) (nu : Bool)
    (acc : List Endpoint) :
    scanEndpoints eps (some m) nu acc =
      some (some (m ∪ (eps.map Endpoint.String).toFinset),
        nu || eps.any (fun e => decide (e.String ∉ m)), acc ++ eps) := by
  induction eps generalizing m nu acc with
  | nil => simp [scanEndpoints]
  | cons e rest ih =>
    by_cases he : e.String ∈ m
    · simp only [scanEndpoints, he, if_true, ih]
      simp [he, Finset.insert_eq_of_mem]
    · simp only [scanEndpoints, he, if_false, ih]
      simp [he]

/-- The installation of ingress flows only appends events to the log. -/
theorem installIngressFlows_eq (c : OFClient) (k : ServicePortName) (g : Nat) (si : ServiceInfo)
    (p : Proxier) (l : List String) :
    ∃ lb : List OFEvent,
      (∀ e ∈ lb, e.svc = k ∧ e.call.isInstallLoadBalancerServiceFlows = true) ∧
      installIngressFlows c k g si p l = { p with ofLog := p.ofLog ++ lb } := by
  induction l generalizing p with
  | nil => exact ⟨[], by simp, by simp [installIngressFlows]⟩
  | cons a rest ih =>
    by_cases ha : a = ""
    · simpa [installIngressFlows, ha] using ih p
    · obtain ⟨lb, hlb, heq⟩ := ih (p.ofCall c k
        (.InstallLoadBalancerServiceFlows g (ParseIP a) (uint16 si.Port) si.OFProtocol
          (uint16 si.StickyMaxAgeSeconds))).2
      refine ⟨⟨k, .InstallLoadBalancerServiceFlows g (ParseIP a) (uint16 si.Port) si.OFProtocol
          (uint16 si.StickyMaxAgeSeconds), (p.ofCall c k
        (.InstallLoadBalancerServiceFlows g (ParseIP a) (uint16 si.Port) si.OFProtocol
          (uint16 si.StickyMaxAgeSeconds))).1⟩ :: lb, ?_, ?_⟩
      · intro e he
        rcases List.mem_cons.1 he with rfl | h
        · simp [OFCall.isInstallLoadBalancerServiceFlows]
        · exact hlb e h
      · simp only [installIngressFlows, ha, ne_eq, not_false_eq_true, if_true]
        rw [heq, ofCall_snd]
        simp only [List.append_assoc, List.singleton_append]

theorem logged_logged (p : Proxier) (l1 l2 : List OFEvent) :
    (p.logged l1).logged l2 = p.logged (l1 ++ l2) := by
  simp [Proxier.logged]

/-- The four ways in which the programming of a service can end. -/
theorem programService_cases (c : OFClient) (p : Proxier) (k : ServicePortName)
    (si : ServiceInfo) (g : Nat) (eps : List Endpoint) :
    programService c p k si g eps = p.logged [installEndpointFlowsEvent k si eps false] ∨
    programService c p k si g eps =
      (p.logged [installEndpointFlowsEvent k si eps true,
        installServiceGroupEvent k si g eps false]).withEndpointInstalled k (some none) ∨
    programService c p k si g eps =
      p.logged [installEndpointFlowsEvent k si eps true, installServiceGroupEvent k si g eps true,
        installServiceFlowsEvent k si g false] ∨
    ∃ lb : List OFEvent,
      (∀ e ∈ lb, e.svc = k ∧ e.call.isInstallLoadBalancerServiceFlows = true) ∧
      programService c p k si g eps =
        (p.logged ([installEndpointFlowsEvent k si eps true,
          installServiceGroupEvent k si g eps true,
          installServiceFlowsEvent k si g true] ++ lb)).withInstalled k si := by
  unfold programService
  obtain ⟨b1, hb1⟩ : ∃ b, p.ofCall c k (.InstallEndpointFlows si.OFProtocol eps) =
      (b, p.logged [installEndpointFlowsEvent k si eps b]) := ⟨_, rfl⟩
  simp only [hb1]
  cases b1
  · left; simp
  right
  obtain ⟨b2, hb2⟩ : ∃ b, (p.logged [installEndpointFlowsEvent k si eps true]).ofCall c k
      (.InstallServiceGroup g (decide (si.StickyMaxAgeSeconds ≠ 0)) eps) =
      (b, (p.logged [installEndpointFlowsEvent k si eps true]).logged
        [installServiceGroupEvent k si g eps b]) := ⟨_, rfl⟩
  simp only [hb2, if_true, logged_logged, List.singleton_append]
  cases b2
  · left; simp [Proxier.withEndpointInstalled]
  right
  obtain ⟨b3, hb3⟩ : ∃ b, (p.logged [installEndpointFlowsEvent k si eps true,
        installServiceGroupEvent k si g eps true]).ofCall c k
      (.InstallServiceFlows g si.ClusterIP (uint16 si.Port) si.OFProtocol
          (uint16 si.StickyMaxAgeSeconds)) =
      (b, (p.logged [installEndpointFlowsEvent k si eps true,
        installServiceGroupEvent k si g eps true]).logged [installServiceFlowsEvent k si g b]) :=
    ⟨_, rfl⟩
  simp only [hb3, if_true, logged_logged, List.cons_append, List.nil_append]
  cases b3
  · left; simp
  right
  obtain ⟨lb, hlb, heq⟩ := installIngressFlows_eq c k g si
    (p.logged [installEndpointFlowsEvent k si eps true,
        installServiceGroupEvent k si g eps true, installServiceFlowsEvent k si g true])
    si.LoadBalancerIPStrings
  refine ⟨lb, hlb, ?_⟩
  simp only [if_true]
  rw [heq]
  simp [Proxier.logged, Proxier.withInstalled, Proxier.addServiceByIP]

theorem serviceChanged_congr (equal : ServiceInfo → ServiceInfo → Bool) (p q : Proxier)
    (k : ServicePortName) (si : ServiceInfo)
    (h : q.serviceInstalledMap k = p.serviceInstalledMap k) :
    serviceChanged equal q k si = serviceChanged equal p k si := by
  simp [serviceChanged, h]

theorem needsUpdate_congr (equal : ServiceInfo → ServiceInfo → Bool) (p q : Proxier)
    (k : ServicePortName) (si : ServiceInfo) (eps : List Endpoint)
    (h1 : q.serviceInstalledMap k = p.serviceInstalledMap k)
    (h2 : q.endpointInstalledMap k = p.endpointInstalledMap k) :
    needsUpdate equal q k si eps ↔ needsUpdate equal p k si eps := by
  simp [needsUpdate, endpointRecorded, serviceChanged_congr equal p q k si h1, h2]

/-- The value of `needUpdate` after the loop over the endpoints, for a non-nil map. -/
theorem needUpdate_flag_iff (equal : ServiceInfo → ServiceInfo → Bool) (p : Proxier)
    (k : ServicePortName) (si : ServiceInfo) (eps : List Endpoint) (m : Finset String)
    (hm : p.endpointInstalledMap k = some (some m)) :
    (serviceChanged equal p k si || eps.any (fun e => decide (e.String ∉ m))) = true ↔
      needsUpdate equal p k si eps := by
  simp [needsUpdate, endpointRecorded, hm]

/-- The ways in which one iteration of the loop of `installServices` can end. -/
theorem installService_cases (c : OFClient) (equal : ServiceInfo → ServiceInfo → Bool)
    (p : Proxier) (k : ServicePortName) (si : ServiceInfo) (h : p.serviceMap k = some si) :
    ((p.endpointsMap k = none ∨ p.endpointsMap k = some []) ∧
      installService c equal p k = .returned (p.withGroupCounter (p.groupCounter.Get k).2)) ∨
    (∃ eps, p.endpointsMap k = some eps ∧ eps ≠ [] ∧ p.endpointInstalledMap k = some none ∧
      installService c equal p k = .panicked (p.withGroupCounter (p.groupCounter.Get k).2)) ∨
    (∃ eps m, p.endpointsMap k = some eps ∧ eps ≠ [] ∧
      p.endpointInstalledMap k = some (some m) ∧ ¬ needsUpdate equal p k si eps ∧
      installService c equal p k = .returned (p.withGroupCounter (p.groupCounter.Get k).2)) ∨
    (∃ eps m, p.endpointsMap k = some eps ∧ eps ≠ [] ∧
      (p.endpointInstalledMap k = none ∧ m = ∅ ∨ p.endpointInstalledMap k = some (some m)) ∧
      needsUpdate equal p k si eps ∧
      installService c equal p k = .returned
        (programService c
          ((p.withGroupCounter (p.groupCounter.Get k).2).withEndpointInstalled k
            (some (some (m ∪ (eps.map Endpoint.String).toFinset))))
          k si (p.groupCounter.Get k).1 eps)) := by
  unfold installService
  simp only [h]
  cases hE : p.endpointsMap k with
  | none => left; exact ⟨Or.inl rfl, rfl⟩
  | some eps =>
    by_cases hnil : eps = []
    · left; subst hnil; exact ⟨Or.inr rfl, by simp [Proxier.withGroupCounter]⟩
    right
    have hlen : ¬ eps.length = 0 := by simpa using hnil
    simp only [hlen, if_false]
    cases hI : p.endpointInstalledMap k with
    | none =>
      right; right
      refine ⟨eps, ∅, rfl, hnil, Or.inl ⟨rfl, rfl⟩, ?_, ?_⟩
      · right
        obtain ⟨e, he⟩ := List.exists_mem_of_ne_nil eps hnil
        exact ⟨e, he, by simp [endpointRecorded, hI]⟩
      · obtain ⟨e, he⟩ := List.exists_mem_of_ne_nil eps hnil
        have hany : (eps.any fun e => decide (e.String ∉ (∅ : Finset String))) = true := by
          simp [List.any_eq_true]; exact ⟨e, he⟩
        simp only [hI, Function.update_same, Option.getD_some, scanEndpoints_some, hany,
          Bool.or_true, if_true, List.nil_append, Function.update_idem]
        simp [Proxier.withGroupCounter, Proxier.withEndpointInstalled]
    | some v =>
      cases v with
      | none =>
        left
        refine ⟨eps, rfl, hnil, rfl, ?_⟩
        cases eps with
        | nil => exact absurd rfl hnil
        | cons e rest => simp [hI, scanEndpoints, Proxier.withGroupCounter]
      | some m =>
        right
        by_cases hN : needsUpdate equal p k si eps
        · right
          refine ⟨eps, m, rfl, hnil, Or.inr rfl, hN, ?_⟩
          have hflag := (needUpdate_flag_iff equal p k si eps m hI).2 hN
          simp only [hI, Option.getD_some, scanEndpoints_some, List.nil_append]
          have hsc : serviceChanged equal
              { p with groupCounter := (p.groupCounter.Get k).2 } k si =
              serviceChanged equal p k si := serviceChanged_congr equal p _ k si rfl
          simp only [hsc, hflag, if_true]
          rfl
        · left
          refine ⟨eps, m, rfl, hnil, rfl, hN, ?_⟩
          have hflag : (serviceChanged equal p k si ||
              eps.any (fun e => decide (e.String ∉ m))) = false := by
            rw [← Bool.not_eq_true, needUpdate_flag_iff equal p k si eps m hI]; exact hN
          have hsc : serviceChanged equal
              { p with groupCounter := (p.groupCounter.Get k).2 } k si =
              serviceChanged equal p k si := serviceChanged_congr equal p _ k si rfl
          have hsub : m ∪ (eps.map Endpoint.String).toFinset = m := by
            apply Finset.union_eq_left.2
            intro s hs
            simp only [List.mem_toFinset, List.mem_map] at hs
            obtain ⟨e, he, rfl⟩ := hs
            by_contra hne
            exact hN (Or.inr ⟨e, he, by simp [endpointRecorded, hI, hne]⟩)
          simp only [hI, Option.getD_some, scanEndpoints_some, List.nil_append, hsc, hflag,
            hsub]
          simp [Proxier.withGroupCounter, ← hI]

/-! ## installServices: what an iteration leaves untouched -/

theorem InstallFrame.refl (ks : ServicePortName → Prop) (p : Proxier) : InstallFrame ks p p :=
  ⟨rfl, rfl, fun _ _ => rfl, fun _ _ => rfl, fun _ _ => rfl, ⟨[], by simp, by simp⟩⟩

theorem InstallFrame.trans {ks : ServicePortName → Prop} {p q r : Proxier}
    (h1 : InstallFrame ks p q) (h2 : InstallFrame ks q r) : InstallFrame ks p r := by
  obtain ⟨n1, hn1, ht1⟩ := h1.log
  obtain ⟨n2, hn2, ht2⟩ := h2.log
  refine ⟨h2.serviceMap.trans h1.serviceMap, h2.endpointsMap.trans h1.endpointsMap,
    fun j hj => (h2.installed j hj).trans (h1.installed j hj),
    fun j hj => (h2.endpointInstalled j hj).trans (h1.endpointInstalled j hj),
    fun s hs => ?_, ⟨n1 ++ n2, by rw [hn2, hn1, List.append_assoc], ?_⟩⟩
  · rw [h2.strings s (fun w hw wi hwi => hs w hw wi (by rw [← h1.serviceMap]; exact hwi)),
      h1.strings s hs]
  · intro e he
    rcases List.mem_append.1 he with h | h
    · exact ht1 e h
    · exact ht2 e h

theorem InstallFrame.withGroupCounter (ks : ServicePortName → Prop) (p : Proxier)
    (g : GroupCounter) : InstallFrame ks p (p.withGroupCounter g) :=
  ⟨rfl, rfl, fun _ _ => rfl, fun _ _ => rfl, fun _ _ => rfl, ⟨[], by simp [Proxier.withGroupCounter], by simp⟩⟩

theorem InstallFrame.withEndpointInstalled (ks : ServicePortName → Prop) (p : Proxier)
    (k : ServicePortName) (hk : ks k) (v : Option (Option (Finset String))) :
    InstallFrame ks p (p.withEndpointInstalled k v) := by
  refine ⟨rfl, rfl, fun _ _ => rfl, fun j hj => ?_, fun _ _ => rfl,
    ⟨[], by simp [Proxier.withEndpointInstalled], by simp⟩⟩
  have : j ≠ k := fun h => hj (h ▸ hk)
  simp [Proxier.withEndpointInstalled, Function.update_noteq this]

theorem InstallFrame.logged (ks : ServicePortName → Prop) (p : Proxier) (l : List OFEvent)
    (hl : ∀ e ∈ l, ks e.svc) : InstallFrame ks p (p.logged l) :=
  ⟨rfl, rfl, fun _ _ => rfl, fun _ _ => rfl, fun _ _ => rfl, ⟨l, rfl, hl⟩⟩

theorem InstallFrame.withInstalled (ks : ServicePortName → Prop) (p : Proxier)
    (k : ServicePortName) (hk : ks k) (si : ServiceInfo) (hsi : p.serviceMap k = some si) :
    InstallFrame ks p (p.withInstalled k si) := by
  refine ⟨rfl, rfl, fun j hj => ?_, fun _ _ => rfl, fun s hs => ?_,
    ⟨[], by simp [Proxier.withInstalled], by simp⟩⟩
  · have : j ≠ k := fun h => hj (h ▸ hk)
    simp [Proxier.withInstalled, Function.update_noteq this]
  · have : s ≠ si.String := fun h => hs k hk si hsi h.symm
    simp [Proxier.withInstalled, Function.update_noteq this]

theorem programService_frame (c : OFClient) (ks : ServicePortName → Prop) (p : Proxier)
    (k : ServicePortName) (hk : ks k) (si : ServiceInfo) (hsi : p.serviceMap k = some si)
    (g : Nat) (eps : List Endpoint) : InstallFrame ks p (programService c p k si g eps) := by
  rcases programService_cases c p k si g eps with h | h | h | ⟨lb, hlb, h⟩ <;> rw [h]
  · exact InstallFrame.logged ks p _ (by simp [installEndpointFlowsEvent, hk])
  · exact (InstallFrame.logged ks p _
      (by simp [installEndpointFlowsEvent, installServiceGroupEvent, hk])).trans
      (InstallFrame.withEndpointInstalled ks _ k hk _)
  · exact InstallFrame.logged ks p _
      (by simp [installEndpointFlowsEvent, installServiceGroupEvent, installServiceFlowsEvent, hk])
  · refine (InstallFrame.logged ks p _ ?_).trans (InstallFrame.withInstalled ks _ k hk si hsi)
    intro e he
    simp only [List.cons_append, List.nil_append, List.mem_cons] at he
    rcases he with rfl | rfl | rfl | he
    · exact hk
    · exact hk
    · exact hk
    · rw [(hlb e he).1]; exact hk

theorem installService_frame (c : OFClient) (equal : ServiceInfo → ServiceInfo → Bool)
    (ks : ServicePortName → Prop) (p : Proxier) (k : ServicePortName) (hk : ks k) :
    InstallFrame ks p (installService c equal p k).state := by
  cases hsi : p.serviceMap k with
  | none => simp only [installService, hsi, Run.state]; exact InstallFrame.refl ks p
  | some si =>
    rcases installService_cases c equal p k si hsi with ⟨-, h⟩ | ⟨eps, -, -, -, h⟩ |
      ⟨eps, m, -, -, -, -, h⟩ | ⟨eps, m, -, -, -, -, h⟩ <;> rw [h] <;> simp only [Run.state]
    · exact InstallFrame.withGroupCounter ks p _
    · exact InstallFrame.withGroupCounter ks p _
    · exact InstallFrame.withGroupCounter ks p _
    · exact ((InstallFrame.withGroupCounter ks p _).trans
        (InstallFrame.withEndpointInstalled ks _ k hk _)).trans
        (programService_frame c ks _ k hk si (by exact hsi) _ eps)

theorem installServices_frame (c : OFClient) (equal : ServiceInfo → ServiceInfo → Bool)
    (ks : ServicePortName → Prop) (order : List ServicePortName) (p : Proxier)
    (hks : ∀ k ∈ order, ks k) : InstallFrame ks p (installServices c equal p order).state := by
  induction order generalizing p with
  | nil => exact InstallFrame.refl ks p
  | cons k rest ih =>
    have hstep := installService_frame c equal ks p k (hks k (List.mem_cons_self _ _))
    simp only [installServices]
    cases hr : installService c equal p k with
    | returned p1 =>
      rw [hr] at hstep
      exact hstep.trans (ih p1 (fun j hj => hks j (List.mem_cons_of_mem _ hj)))
    | panicked p1 =>
      rw [hr] at hstep
      exact hstep

theorem installServices_append (c : OFClient) (equal : ServiceInfo → ServiceInfo → Bool)
    (l1 l2 : List ServicePortName) (p : Proxier) :
    installServices c equal p (l1 ++ l2) =
      match installServices c equal p l1 with
      | .returned q => installServices c equal q l2
      | .panicked q => .panicked q := by
  induction l1 generalizing p with
  | nil => simp [installServices]
  | cons k rest ih =>
    simp only [List.cons_append, installServices]
    cases installService c equal p k with
    | returned p1 => exact ih p1
    | panicked p1 => rfl

/-- A run of `installServices` over an order without repetition either stops before it reaches
`svc`, or reaches it in a state `p0` and leaves what the iteration of `svc` did untouched. -/
theorem installServices_local (c : OFClient) (equal : ServiceInfo → ServiceInfo → Bool)
    (order : List ServicePortName) (p : Proxier) (svc : ServicePortName)
    (hnd : order.Nodup) (hmem : svc ∈ order) :
    InstallFrame (fun j => j ∈ order ∧ j ≠ svc) p (installServices c equal p order).state ∨
    ∃ p0, InstallFrame (fun j => j ∈ order ∧ j ≠ svc) p p0 ∧
      InstallFrame (fun j => j ∈ order ∧ j ≠ svc) (installService c equal p0 svc).state
        (installServices c equal p order).state := by
  obtain ⟨pre, post, rfl⟩ := List.append_of_mem hmem
  have hpre : svc ∉ pre := fun h => by
    have := (List.nodup_append.1 hnd).2.2
    exact this h (List.mem_cons_self _ _)
  have hpost : svc ∉ post := by
    have := (List.nodup_append.1 hnd).2.1
    exact (List.nodup_cons.1 this).1
  have hPre : ∀ k ∈ pre, (fun j => j ∈ pre ++ svc :: post ∧ j ≠ svc) k := fun k hk =>
    ⟨List.mem_append_left _ hk, fun h => hpre (h ▸ hk)⟩
  have hPost : ∀ k ∈ post, (fun j => j ∈ pre ++ svc :: post ∧ j ≠ svc) k := fun k hk =>
    ⟨List.mem_append_right _ (List.mem_cons_of_mem _ hk), fun h => hpost (h ▸ hk)⟩
  have h1 := installServices_frame c equal _ pre p hPre
  rw [installServices_append]
  cases hr : installServices c equal p pre with
  | panicked q => left; rw [hr] at h1; exact h1
  | returned q =>
    right
    rw [hr] at h1
    refine ⟨q, h1, ?_⟩
    simp only [installServices]
    cases hs : installService c equal q svc with
    | panicked q1 => exact InstallFrame.refl _ _
    | returned q1 => exact installServices_frame c equal _ post q1 hPost

/-! ## installServices: recording a service -/

theorem newEvents_of_append {p q : Proxier} {l : List OFEvent} (h : q.ofLog = p.ofLog ++ l) :
    newEvents p q = l := by
  simp [newEvents, h]

theorem succeededFor_append_iff (a b d : List OFEvent) (svc : ServicePortName)
    (kind : OFCall → Bool) (ha : ∀ e ∈ a, e.svc ≠ svc) (hd : ∀ e ∈ d, e.svc ≠ svc) :
    succeededFor (a ++ (b ++ d)) svc kind ↔ succeededFor b svc kind := by
  constructor
  · rintro ⟨e, he, hs, hok⟩
    rcases List.mem_append.1 he with h | h
    · exact absurd hs (ha e h)
    · rcases List.mem_append.1 h with h | h
      · exact ⟨e, h, hs, hok⟩
      · exact absurd hs (hd e h)
  · rintro ⟨e, he, hs, hok⟩
    exact ⟨e, List.mem_append_right _ (List.mem_append_left _ he), hs, hok⟩

theorem programmedFor_append_iff (a b d : List OFEvent) (svc : ServicePortName)
    (ha : ∀ e ∈ a, e.svc ≠ svc) (hd : ∀ e ∈ d, e.svc ≠ svc) :
    programmedFor (a ++ (b ++ d)) svc ↔ programmedFor b svc := by
  simp only [programmedFor, succeededFor_append_iff a b d svc _ ha hd]

theorem not_succeededFor_of_no_event (a : List OFEvent) (svc : ServicePortName)
    (kind : OFCall → Bool) (ha : ∀ e ∈ a, e.svc ≠ svc) : ¬ succeededFor a svc kind := by
  rintro ⟨e, he, hs, -⟩
  exact ha e he hs

/-- What the iteration of `installServices` for `k` does to the two indexes of installed
services, read off the events it logged. -/
theorem installService_records (c : OFClient) (equal : ServiceInfo → ServiceInfo → Bool)
    (p : Proxier) (k : ServicePortName) (si : ServiceInfo) (h : p.serviceMap k = some si) :
    ∃ own, (installService c equal p k).state.ofLog = p.ofLog ++ own ∧
      (programmedFor own k →
        (∃ eps, p.endpointsMap k = some eps ∧ eps ≠ [] ∧ needsUpdate equal p k si eps) ∧
        (installService c equal p k).state.serviceInstalledMap k = some si ∧
        (installService c equal p k).state.serviceStringMap si.String = some k) ∧
      (¬ programmedFor own k →
        (installService c equal p k).state.serviceInstalledMap = p.serviceInstalledMap ∧
        (installService c equal p k).state.serviceStringMap = p.serviceStringMap) := by
  have hno : ¬ programmedFor [] k := fun hp => by
    obtain ⟨e, he, -⟩ := hp.1
    simp at he
  rcases installService_cases c equal p k si h with ⟨-, hr⟩ | ⟨eps, -, -, -, hr⟩ |
      ⟨eps, m, -, -, -, -, hr⟩ | ⟨eps, m, hE, hne, -, hN, hr⟩
  · exact ⟨[], by simp [hr, Run.state, Proxier.withGroupCounter],
      fun hp => absurd hp hno, fun _ => by simp [hr, Run.state, Proxier.withGroupCounter]⟩
  · exact ⟨[], by simp [hr, Run.state, Proxier.withGroupCounter],
      fun hp => absurd hp hno, fun _ => by simp [hr, Run.state, Proxier.withGroupCounter]⟩
  · exact ⟨[], by simp [hr, Run.state, Proxier.withGroupCounter],
      fun hp => absurd hp hno, fun _ => by simp [hr, Run.state, Proxier.withGroupCounter]⟩
  · rw [hr]
    simp only [Run.state]
    rcases programService_cases c
      ((p.withGroupCounter (p.groupCounter.Get k).2).withEndpointInstalled k
        (some (some (m ∪ (eps.map Endpoint.String).toFinset)))) k si (p.groupCounter.Get k).1 eps
      with hq | hq | hq | ⟨lb, hlb, hq⟩ <;> rw [hq]
    · refine ⟨_, rfl, fun hp => ?_, fun _ => ⟨rfl, rfl⟩⟩
      obtain ⟨e, he, -, hok, -⟩ := hp.1
      simp only [List.mem_singleton] at he
      subst he
      simp [installEndpointFlowsEvent] at hok
    · refine ⟨_, rfl, fun hp => ?_, fun _ => ⟨rfl, rfl⟩⟩
      obtain ⟨e, he, -, hok, hkind⟩ := hp.2.1
      simp only [List.mem_cons, List.mem_singleton, List.not_mem_nil, or_false] at he
      rcases he with rfl | rfl
      · simp [installEndpointFlowsEvent, OFCall.isInstallServiceGroup] at hkind
      · simp [installServiceGroupEvent] at hok
    · refine ⟨_, rfl, fun hp => ?_, fun _ => ⟨rfl, rfl⟩⟩
      obtain ⟨e, he, -, hok, hkind⟩ := hp.2.2
      simp only [List.mem_cons, List.mem_singleton, List.not_mem_nil, or_false] at he
      rcases he with rfl | rfl | rfl
      · simp [installEndpointFlowsEvent, OFCall.isInstallServiceFlows] at hkind
      · simp [installServiceGroupEvent, OFCall.isInstallServiceFlows] at hkind
      · simp [installServiceFlowsEvent] at hok
    · refine ⟨_, rfl, fun _ => ⟨⟨eps, hE, hne, hN⟩, ?_, ?_⟩, fun hnp => absurd ?_ hnp⟩
      · simp [Proxier.withInstalled]
      · simp [Proxier.withInstalled]
      · refine ⟨⟨installEndpointFlowsEvent k si eps true, by simp, rfl, rfl, rfl⟩,
          ⟨installServiceGroupEvent k si (p.groupCounter.Get k).1 eps true, by simp,
            rfl, rfl, rfl⟩,
          ⟨installServiceFlowsEvent k si (p.groupCounter.Get k).1 true, by simp, rfl, rfl, rfl⟩⟩

/-- C1 (as stated, refuted): with two services sharing ClusterIP:Port/Proto, `InstallEndpointFlows`
fails for `svcA`, yet the reverse-index entry of `svcA` is not what it was before the run: the
other service overwrote it. -/
theorem installServices_reverse_index_overwritten :
    failedFor (newEvents collidingState
        (installServices failEndpointsClient equalAll collidingState [svcA, svcB]).state)
      svcA OFCall.isInstallEndpointFlows ∧
    collidingState.serviceStringMap infoPlain.String = some svcA ∧
    (installServices failEndpointsClient equalAll collidingState [svcA, svcB]).state.serviceStringMap
      infoPlain.String = some svcB := by
  refine ⟨⟨installEndpointFlowsEvent svcA infoPlain [ep0, ep1] false, ?_, ?_, ?_, ?_⟩, ?_, ?_⟩ <;>
    decide

/-- C1 (amended): a run of `installServices` over the keys of `serviceMap` records a service `svc`
in `serviceInstalledMap` and under `svcInfo.String()` in the reverse index exactly when the calls
`InstallEndpointFlows`, `InstallServiceGroup` and `InstallServiceFlows` were issued for it and all
succeeded, which only happens for a service with an endpoint that needs an update; otherwise its
entry of `serviceInstalledMap` is what it was before the run.  The reverse-index entry at
`svcInfo.String()` is the one of `svc` (respectively unchanged) provided no other visited service
has the same string. -/
theorem installServices_records_service (c : OFClient)
    (equal : ServiceInfo → ServiceInfo → Bool) (p : Proxier) (order : List ServicePortName)
    (svc : ServicePortName) (svcInfo : ServiceInfo)
    (hnd : order.Nodup) (hmem : svc ∈ order) (hsvc : p.serviceMap svc = some svcInfo) :
    (programmedFor (newEvents p (installServices c equal p order).state) svc →
      (∃ eps, p.endpointsMap svc = some eps ∧ eps ≠ [] ∧ needsUpdate equal p svc svcInfo eps) ∧
      (installServices c equal p order).state.serviceInstalledMap svc = some svcInfo ∧
      ((∀ w ∈ order, w ≠ svc → ∀ wi, p.serviceMap w = some wi → wi.String ≠ svcInfo.String) →
        (installServices c equal p order).state.serviceStringMap svcInfo.String = some svc)) ∧
    (¬ programmedFor (newEvents p (installServices c equal p order).state) svc →
      (installServices c equal p order).state.serviceInstalledMap svc =
        p.serviceInstalledMap svc ∧
      ((∀ w ∈ order, w ≠ svc → ∀ wi, p.serviceMap w = some wi → wi.String ≠ svcInfo.String) →
        (installServices c equal p order).state.serviceStringMap svcInfo.String =
          p.serviceStringMap svcInfo.String)) := by
  have hself : ¬ (fun j => j ∈ order ∧ j ≠ svc) svc := fun h => h.2 rfl
  rcases installServices_local c equal order p svc hnd hmem with hF | ⟨p0, hF1, hF2⟩
  · obtain ⟨new, hnew, htag⟩ := hF.log
    have hnp : ¬ programmedFor (newEvents p (installServices c equal p order).state) svc := by
      rw [newEvents_of_append hnew]
      exact fun hp => not_succeededFor_of_no_event new svc _ (fun e he => (htag e he).2) hp.1
    refine ⟨fun hp => absurd hp hnp, fun _ => ⟨hF.installed svc hself, fun hcol => ?_⟩⟩
    exact hF.strings _ (fun w hw wi hwi => hcol w hw.1 hw.2 wi hwi)
  · have hsvc0 : p0.serviceMap svc = some svcInfo := by rw [hF1.serviceMap]; exact hsvc
    obtain ⟨own, hown, hyes, hnot⟩ := installService_records c equal p0 svc svcInfo hsvc0
    have hstep := installService_frame c equal (fun _ => True) p0 svc trivial
    obtain ⟨n1, hn1, ht1⟩ := hF1.log
    obtain ⟨n2, hn2, ht2⟩ := hF2.log
    have hlog : (installServices c equal p order).state.ofLog = p.ofLog ++ (n1 ++ (own ++ n2)) := by
      rw [hn2, hown, hn1]; simp
    have hiff : programmedFor (newEvents p (installServices c equal p order).state) svc ↔
        programmedFor own svc := by
      rw [newEvents_of_append hlog]
      exact programmedFor_append_iff n1 own n2 svc (fun e he => (ht1 e he).2)
        (fun e he => (ht2 e he).2)
    have hcol2 : (∀ w ∈ order, w ≠ svc → ∀ wi, p.serviceMap w = some wi →
        wi.String ≠ svcInfo.String) →
        ∀ (q : Proxier), q.serviceMap = p.serviceMap →
        ∀ w, (fun j => j ∈ order ∧ j ≠ svc) w → ∀ wi, q.serviceMap w = some wi →
          wi.String ≠ svcInfo.String :=
      fun hcol q hq w hw wi hwi => hcol w hw.1 hw.2 wi (by rw [← hq]; exact hwi)
    rw [hiff]
    refine ⟨fun hp => ?_, fun hnp => ?_⟩
    · obtain ⟨⟨eps, hE, hne, hN⟩, hI, hS⟩ := hyes hp
      refine ⟨⟨eps, by rw [← hF1.endpointsMap]; exact hE, hne, ?_⟩, ?_, fun hcol => ?_⟩
      · exact (needsUpdate_congr equal p p0 svc svcInfo eps (hF1.installed svc hself)
          (hF1.endpointInstalled svc hself)).1 hN
      · rw [hF2.installed svc hself]; exact hI
      · rw [hF2.strings _ (hcol2 hcol _ (hstep.serviceMap.trans hF1.serviceMap))]; exact hS
    · obtain ⟨hI, hS⟩ := hnot hnp
      refine ⟨?_, fun hcol => ?_⟩
      · rw [hF2.installed svc hself, hI]; exact hF1.installed svc hself
      · rw [hF2.strings _ (hcol2 hcol _ (hstep.serviceMap.trans hF1.serviceMap)), hS]
        exact hF1.strings _ (hcol2 hcol p rfl)

/-- C1 (amended), witness: the theorem applied to a run over one new service whose calls all
succeed. -/
theorem installServices_records_service_witness :
    [svcB].Nodup ∧ svcB ∈ [svcB] ∧ collidingState.serviceMap svcB = some infoPlain ∧
    (programmedFor (newEvents collidingState
        (installServices okClient equalAll collidingState [svcB]).state) svcB →
      (installServices okClient equalAll collidingState [svcB]).state.serviceInstalledMap svcB =
        some infoPlain) :=
  ⟨by decide, by decide, by decide, fun hp =>
    ((installServices_records_service okClient equalAll collidingState [svcB] svcB infoPlain
      (by decide) (by decide) (by decide)).1 hp).2.1⟩

/-! ## removeStaleServices and installServices at failing calls -/

/-- C2 (code at the failing input): `UninstallEndpointFlows` fails for an endpoint of the stale
service `svcA`, and `removeStaleServices` still removes the service from `serviceInstalledMap`,
deletes its reverse-index entry and recycles its group identifier. -/
theorem removeStaleServices_endpoint_failure_not_skipped :
    failedFor (newEvents staleState
        (removeStaleServices failUninstallEndpointClient staleState [svcA]))
      svcA (fun call => decide (call = .UninstallEndpointFlows .TCP ep0)) ∧
    staleState.serviceInstalledMap svcA = some infoLB ∧
    staleState.serviceMap svcA = none ∧
    (removeStaleServices failUninstallEndpointClient staleState [svcA]).serviceInstalledMap svcA
      = none ∧
    (removeStaleServices failUninstallEndpointClient staleState [svcA]).serviceStringMap
      infoLB.String = none ∧
    (removeStaleServices failUninstallEndpointClient staleState [svcA]).groupCounter.groupMap svcA
      = none ∧
    (removeStaleServices failUninstallEndpointClient staleState [svcA]).groupCounter.recycled
      = [1] := by
  refine ⟨⟨⟨svcA, .UninstallEndpointFlows .TCP ep0, false⟩, ?_, ?_, ?_, ?_⟩, ?_, ?_, ?_, ?_, ?_, ?_⟩ <;>
    decide

/-- The same happens when `UninstallServiceFlows` fails for the load-balancer ingress address. -/
theorem removeStaleServices_ingress_failure_not_skipped :
    failedFor (newEvents staleState
        (removeStaleServices failUninstallIngressClient staleState [svcA]))
      svcA (fun call => decide (call = .UninstallServiceFlows "192.0.2.1" 80 .TCP)) ∧
    (removeStaleServices failUninstallIngressClient staleState [svcA]).serviceInstalledMap svcA
      = none ∧
    (removeStaleServices failUninstallIngressClient staleState [svcA]).serviceStringMap
      infoLB.String = none ∧
    (removeStaleServices failUninstallIngressClient staleState [svcA]).groupCounter.recycled
      = [1] := by
  refine ⟨⟨⟨svcA, .UninstallServiceFlows "192.0.2.1" 80 .TCP, false⟩, ?_, ?_, ?_, ?_⟩, ?_, ?_, ?_⟩ <;>
    decide

/-- C3 (code at the failing input): `InstallEndpointFlows` fails for `svcA`, which gained `ep1`,
and `endpointInstalledMap[svcA]` is not reset: it lists `ep1`, whose flows the switch never
acknowledged; the next run, on which every call would succeed, issues no call for `svcA`. -/
theorem installServices_endpoint_failure_not_reset :
    (newEvents grownState (installServices failEndpointsClient equalAll grownState [svcA]).state
      = [installEndpointFlowsEvent svcA infoPlain [ep0, ep1] false]) ∧
    endpointRecorded (installServices failEndpointsClient equalAll grownState [svcA]).state
      svcA ep1 ∧
    newEvents (installServices failEndpointsClient equalAll grownState [svcA]).state
      (installServices okClient equalAll
        (installServices failEndpointsClient equalAll grownState [svcA]).state [svcA]).state
      = [] := by
  refine ⟨by decide, ⟨_, rfl, by decide⟩, by decide⟩

/-! ## Priority assigner: the cases of `priority_test.go` -/

/-- The case "in-order" of `TestUpdatePriorityAssignment`. -/
theorem test_updatePriorityAssignment_sorted :
    (assignerOf [(10000, p110), (9999, p1120), (9998, p1121)]).sortedOFPriorities
        = [9998, 9999, 10000] ∧
    (assignerOf [(9998, p1121), (9999, p1120), (10000, p110)]).sortedOFPriorities
        = [9998, 9999, 10000] := by
  constructor <;> decide!

/-- The cases of `TestGetInsertionPoint`. -/
theorem test_getInsertionPoint :
    (assignerOf []).getInsertionPoint (seedConfig 10000) p110 = (10000, false) ∧
    (assignerOf [(10000, p110)]).getInsertionPoint (seedConfig 10000) p1120 = (9999, false) ∧
    (assignerOf [(10000, p1120)]).getInsertionPoint (seedConfig 10000) p110 = (10001, false) ∧
    (assignerOf [(10000, p1120), (9999, p1121), (9998, p1130), (9997, p1131)]).getInsertionPoint
      (seedConfig 9998) p110 = (10001, false) ∧
    (assignerOf [(10000, p1120), (9999, p1121), (9998, p1130)]).getInsertionPoint
      (seedConfig 10000) p1131 = (9997, false) ∧
    (assignerOf [(10000, p110), (9999, p1120), (9998, p1130), (9997, p1131)]).getInsertionPoint
      (seedConfig 9997) p1121 = (9999, true) ∧
    (assignerOf [(10000, p110), (9999, p1120), (9998, p1130), (9997, p1131)]).getInsertionPoint
      (seedConfig 10000) p1121 = (9999, true) ∧
    (assignerOf [(65000, p1120), (64999, p1121), (64998, p1130)]).getInsertionPoint
      (seedConfig 64998) p110 = (65001, false) := by
  refine ⟨?_, ?_, ?_, ?_, ?_, ?_, ?_, ?_⟩ <;> decide!

/-- The case "sift-down-at-upper-bound" of `TestReassignPriorities`. -/
theorem test_reassign_sift_down_at_upper_bound :
    assignedAndUpdates ((assignerOf [(65000, p191), (64999, p193)]).reassignPriorities
        (seedConfig 0) 65001 p190) = some (65000, [(64999, 64998), (65000, 64999)]) ∧
    assignedAndUpdates ((assignerAfter newPriorityAssigner
        ((assignerOf [(65000, p191), (64999, p193)]).reassignPriorities
          (seedConfig 0) 65001 p190)).reassignPriorities (seedConfig 0) 64999 p192)
      = some (64998, [(64998, 64997)]) := by
  constructor <;> decide!

/-- The case "sift-up-at-lower-bound" of `TestReassignPriorities`. -/
theorem test_reassign_sift_up_at_lower_bound :
    assignedAndUpdates ((assignerOf [(100, p1130), (101, p1120)]).reassignPriorities
        (seedConfig 0) 101 p1121) = some (101, [(101, 102)]) ∧
    assignedAndUpdates ((assignerAfter newPriorityAssigner
        ((assignerOf [(100, p1130), (101, p1120)]).reassignPriorities
          (seedConfig 0) 101 p1121)).reassignPriorities (seedConfig 0) 100 p1131)
      = some (100, [(100, 101), (101, 102), (102, 103)]) := by
  constructor <;> decide!

/-- The case "sift-based-on-cost" of `TestReassignPriorities`. -/
theorem test_reassign_sift_based_on_cost :
    assignedAndUpdates ((assignerOf [(10000, p110), (9999, p1121), (9998, p1131)]).reassignPriorities
        (seedConfig 0) 9999 p1130) = some (9998, [(9998, 9997)]) ∧
    assignedAndUpdates ((assignerAfter newPriorityAssigner
        ((assignerOf [(10000, p110), (9999, p1121), (9998, p1131)]).reassignPriorities
          (seedConfig 0) 9999 p1130)).reassignPriorities (seedConfig 0) 10000 p1120)
      = some (10000, [(10000, 10001)]) := by
  constructor <;> decide!

/-- The cases of `TestRevertUpdates`, read at the numeric priorities 9990 to 10002. -/
theorem test_revert_updates :
    snapshotAt (assignerReverted (assignerOf [(9999, p1120), (9998, p1130)])
        ((assignerOf [(9999, p1120), (9998, p1130)]).GetOFPriority (seedConfig 9999) p1121))
        (List.range' 9990 13)
      = snapshotAt (assignerOf [(9999, p1120), (9998, p1130)]) (List.range' 9990 13) ∧
    snapshotAt (assignerReverted
        (assignerOf [(9999, p1120), (9998, p1121), (9997, p1130), (9996, p1140), (9995, p1141),
          (9994, p1160), (9993, p1161)])
        ((assignerOf [(9999, p1120), (9998, p1121), (9997, p1130), (9996, p1140), (9995, p1141),
          (9994, p1160), (9993, p1161)]).GetOFPriority (seedConfig 9997) p1131))
        (List.range' 9990 13)
      = snapshotAt (assignerOf [(9999, p1120), (9998, p1121), (9997, p1130), (9996, p1140),
          (9995, p1141), (9994, p1160), (9993, p1161)]) (List.range' 9990 13) ∧
    snapshotAt (assignerReverted (assignerOf [(10000, p1120), (9999, p1130)])
        ((assignerOf [(10000, p1120), (9999, p1130)]).GetOFPriority (seedConfig 9999) p1121))
        (List.range' 9990 13)
      = snapshotAt (assignerOf [(10000, p1120), (9999, p1130)]) (List.range' 9990 13) ∧
    snapshotAt (assignerReverted
        (assignerOf [(10000, p1120), (9999, p1121), (9998, p1130), (9997, p1140), (9996, p1141),
          (9995, p1160)])
        ((assignerOf [(10000, p1120), (9999, p1121), (9998, p1130), (9997, p1140), (9996, p1141),
          (9995, p1160)]).GetOFPriority (seedConfig 9998) p1131))
        (List.range' 9990 13)
      = snapshotAt (assignerOf [(10000, p1120), (9999, p1121), (9998, p1130), (9997, p1140),
          (9996, p1141), (9995, p1160)]) (List.range' 9990 13) := by
  refine ⟨?_, ?_, ?_, ?_⟩ <;> decide!

/-! ## Priority assigner: the lexicographic order -/

theorem Priority.lexLt_irrefl (p : Priority) : ¬ p.lexLt p := by
  simp [Priority.lexLt]

theorem Priority.lexLt_trans {p q r : Priority} (h1 : p.lexLt q) (h2 : q.lexLt r) :
    p.lexLt r := by
  unfold Priority.lexLt at *
  rcases h1 with h1 | ⟨e1, h1 | ⟨e1', h1⟩⟩ <;> rcases h2 with h2 | ⟨e2, h2 | ⟨e2', h2⟩⟩
  · exact Or.inl (lt_trans h1 h2)
  · exact Or.inl (e2 ▸ h1)
  · exact Or.inl (e2 ▸ h1)
  · exact Or.inl (e1 ▸ h2)
  · exact Or.inr ⟨e1.trans e2, Or.inl (lt_trans h1 h2)⟩
  · exact Or.inr ⟨e1.trans e2, Or.inl (e2' ▸ h1)⟩
  · exact Or.inl (e1 ▸ h2)
  · exact Or.inr ⟨e1.trans e2, Or.inl (e1' ▸ h2)⟩
  · exact Or.inr ⟨e1.trans e2, Or.inr ⟨e1'.trans e2', lt_trans h1 h2⟩⟩

theorem Priority.lexLt_total (p q : Priority) : p.lexLt q ∨ p = q ∨ q.lexLt p := by
  obtain ⟨a, b, c⟩ := p
  obtain ⟨a', b', c'⟩ := q
  simp only [Priority.lexLt, Priority.mk.injEq]
  rcases lt_trichotomy a a' with h | h | h
  · exact Or.inl (Or.inl h)
  · rcases lt_trichotomy b b' with h' | h' | h'
    · exact Or.inl (Or.inr ⟨h, Or.inl h'⟩)
    · rcases lt_trichotomy c c' with h'' | h'' | h''
      · exact Or.inl (Or.inr ⟨h, Or.inr ⟨h', h''⟩⟩)
      · exact Or.inr (Or.inl ⟨h, h', h''⟩)
      · exact Or.inr (Or.inr (Or.inr ⟨h.symm, Or.inr ⟨h'.symm, h''⟩⟩))
    · exact Or.inr (Or.inr (Or.inr ⟨h.symm, Or.inl h'⟩))
  · exact Or.inr (Or.inr (Or.inl h))

theorem Priority.lexLt_asymm {p q : Priority} (h : p.lexLt q) : ¬ q.lexLt p :=
  fun h' => Priority.lexLt_irrefl p (Priority.lexLt_trans h h')

/-! ## Priority assigner: the primitives keep the maps consistent -/

theorem WellFormed_new : newPriorityAssigner.WellFormed :=
  ⟨fun _ _ => by simp [newPriorityAssigner], by simp [newPriorityAssigner],
    fun _ => by simp [newPriorityAssigner]⟩

theorem sorted_eq_of_mem_iff {l1 l2 : List Nat} (h1 : l1.Sorted (· < ·)) (h2 : l2.Sorted (· < ·))
    (h : ∀ n, n ∈ l1 ↔ n ∈ l2) : l1 = l2 :=
  List.eq_of_perm_of_sorted ((List.perm_ext_iff_of_nodup h1.nodup h2.nodup).2 h) h1 h2

theorem sorted_lt_orderedInsert {l : List Nat} {n : Nat} (h : l.Sorted (· < ·)) (hn : n ∉ l) :
    (l.orderedInsert (· ≤ ·) n).Sorted (· < ·) := by
  have h1 : (l.orderedInsert (· ≤ ·) n).Sorted (· ≤ ·) := h.le_of_lt.orderedInsert n l
  have h2 : (l.orderedInsert (· ≤ ·) n).Nodup :=
    (List.perm_orderedInsert (· ≤ ·) n l).nodup_iff.2 (List.nodup_cons.2 ⟨hn, h.nodup⟩)
  exact h1.lt_of_le h2

/-- A consistent assigner is determined by its map from numeric to logical priorities. -/
theorem priorityAssigner.WellFormed.eq_of_ofPriorityMap {a b : priorityAssigner} (ha : a.WellFormed)
    (hb : b.WellFormed) (h : ∀ n, a.ofPriorityMap n = b.ofPriorityMap n) : a = b := by
  have hom : a.ofPriorityMap = b.ofPriorityMap := funext h
  have hpm : a.priorityMap = b.priorityMap := by
    funext p
    apply Option.ext
    intro n
    simp only [Option.mem_def]
    rw [ha.inverse, hb.inverse, hom]
  have hs : a.sortedOFPriorities = b.sortedOFPriorities :=
    sorted_eq_of_mem_iff ha.sorted hb.sorted (fun n => by rw [ha.mem, hb.mem, hom])
  cases a; cases b; simp_all

theorem updatePriorityAssignment_ofPriorityMap (pa : priorityAssigner) (n : Nat) (p : Priority) :
    (pa.updatePriorityAssignment n p).ofPriorityMap = Function.update pa.ofPriorityMap n (some p) :=
  rfl

theorem priorityAssigner.WellFormed.updatePriorityAssignment {pa : priorityAssigner} (h : pa.WellFormed)
    {n : Nat} {p : Priority} (hn : pa.ofPriorityMap n = none) (hp : pa.priorityMap p = none) :
    (pa.updatePriorityAssignment n p).WellFormed := by
  refine ⟨fun q m => ?_, ?_, fun m => ?_⟩
  · simp only [priorityAssigner.updatePriorityAssignment]
    by_cases hq : q = p
    · subst hq
      by_cases hm : m = n
      · subst hm; simp
      · simp only [Function.update_same, Function.update_noteq hm]
        constructor
        · intro h'; exact absurd (Option.some.inj h').symm hm
        · intro h'; rw [← h.inverse] at h'; rw [hp] at h'; simp at h'
    · simp only [Function.update_noteq hq]
      by_cases hm : m = n
      · subst hm
        simp only [Function.update_same]
        constructor
        · intro h'; rw [h.inverse] at h'; rw [hn] at h'; simp at h'
        · intro h'; exact absurd (Option.some.inj h').symm hq
      · simp only [Function.update_noteq hm]; exact h.inverse q m
  · simp only [priorityAssigner.updatePriorityAssignment, hn, Option.isSome_none,
      Bool.false_eq_true, if_false]
    have hmem : n ∉ pa.sortedOFPriorities := by rw [h.mem, hn]; simp
    exact sorted_lt_orderedInsert h.sorted hmem
  · simp only [priorityAssigner.updatePriorityAssignment, hn, Option.isSome_none,
      Bool.false_eq_true, if_false, List.mem_orderedInsert]
    by_cases hm : m = n
    · subst hm; simp
    · simp [Function.update_noteq hm, hm, h.mem]

theorem Release_ofPriorityMap (pa : priorityAssigner) (n : Nat) :
    (pa.Release n).ofPriorityMap = Function.update pa.ofPriorityMap n none := by
  unfold priorityAssigner.Release
  cases h : pa.ofPriorityMap n with
  | none =>
    funext m
    by_cases hm : m = n
    · subst hm; simp [h]
    · simp [Function.update_noteq hm]
  | some p => rfl

theorem priorityAssigner.WellFormed.Release {pa : priorityAssigner} (h : pa.WellFormed) (n : Nat) :
    (pa.Release n).WellFormed := by
  unfold priorityAssigner.Release
  cases hn : pa.ofPriorityMap n with
  | none => exact h
  | some p =>
    refine ⟨fun q m => ?_, ?_, fun m => ?_⟩
    · simp only
      by_cases hq : q = p
      · subst hq
        simp only [Function.update_same]
        by_cases hm : m = n
        · subst hm; simp
        · simp only [Function.update_noteq hm]
          constructor
          · intro h'; simp at h'
          · intro h'
            have h1 := (h.inverse q m).2 h'
            have h2 := (h.inverse q n).2 hn
            rw [h1] at h2
            exact absurd (Option.some.inj h2) hm
      · simp only [Function.update_noteq hq]
        by_cases hm : m = n
        · subst hm
          simp only [Function.update_same]
          constructor
          · intro h'; rw [h.inverse, hn] at h'; exact absurd (Option.some.inj h').symm hq
          · intro h'; simp at h'
        · simp only [Function.update_noteq hm]; exact h.inverse q m
    · simp only
      exact h.sorted.sublist (List.erase_sublist n _)
    · simp only
      rw [h.sorted.nodup.mem_erase_iff]
      by_cases hm : m = n
      · subst hm; simp
      · simp [Function.update_noteq hm, hm, h.mem]

/-! ## Priority assigner: moving runs of entries -/

theorem moveEntry_spec {pa : priorityAssigner} (h : pa.WellFormed) {s d : Nat} {q : Priority}
    (hs : pa.ofPriorityMap s = some q) (hd : pa.ofPriorityMap d = none) :
    (pa.moveEntry s d).WellFormed ∧
    (pa.moveEntry s d).ofPriorityMap =
      Function.update (Function.update pa.ofPriorityMap s none) d (some q) := by
  have hsd : d ≠ s := fun e => by rw [e, hs] at hd; simp at hd
  have hpm : (pa.Release s).priorityMap q = none := by
    simp [priorityAssigner.Release, hs]
  have hom : (pa.Release s).ofPriorityMap d = none := by
    rw [Release_ofPriorityMap, Function.update_noteq hsd]; exact hd
  refine ⟨?_, ?_⟩
  · simp only [priorityAssigner.moveEntry, hs]
    exact (h.Release s).updatePriorityAssignment hom hpm
  · simp only [priorityAssigner.moveEntry, hs, updatePriorityAssignment_ofPriorityMap,
      Release_ofPriorityMap]

/-- Moving the occupied run `a, ..., a + k - 1` up by one into the free numeric `a + k`. -/
theorem shiftUp_spec (k : Nat) : ∀ {pa : priorityAssigner} (a : Nat), pa.WellFormed →
    (∀ i, i < k → (pa.ofPriorityMap (a + i)).isSome) → pa.ofPriorityMap (a + k) = none →
    (pa.shiftUp a k).WellFormed ∧
    ∀ n, (pa.shiftUp a k).ofPriorityMap n =
      if a < n ∧ n ≤ a + k then pa.ofPriorityMap (n - 1)
      else if n = a then none else pa.ofPriorityMap n := by
  induction k with
  | zero =>
    intro pa a h _ hfree
    refine ⟨h, fun n => ?_⟩
    simp only [priorityAssigner.shiftUp]
    by_cases hn : n = a
    · subst hn; simp at hfree; simp [hfree]
    · have : ¬ (a < n ∧ n ≤ a + 0) := by omega
      rw [if_neg this, if_neg hn]
  | succ k ih =>
    intro pa a h hocc hfree
    obtain ⟨q, hq⟩ := Option.isSome_iff_exists.1 (hocc k (Nat.lt_succ_self k))
    have hfree' : pa.ofPriorityMap (a + k + 1) = none := hfree
    obtain ⟨hwf, hom⟩ := moveEntry_spec h hq hfree'
    have hocc1 : ∀ i, i < k → ((pa.moveEntry (a + k) (a + k + 1)).ofPriorityMap (a + i)).isSome := by
      intro i hi
      rw [hom, Function.update_noteq (by omega), Function.update_noteq (by omega)]
      exact hocc i (by omega)
    have hfree1 : (pa.moveEntry (a + k) (a + k + 1)).ofPriorityMap (a + k) = none := by
      rw [hom, Function.update_noteq (by omega), Function.update_same]
    obtain ⟨hwf2, hcl⟩ := ih a hwf hocc1 hfree1
    refine ⟨hwf2, fun n => ?_⟩
    simp only [priorityAssigner.shiftUp]
    rw [hcl n, hom]
    by_cases h1 : a < n ∧ n ≤ a + k
    · have h2 : a < n ∧ n ≤ a + (k + 1) := by omega
      rw [if_pos h1, if_pos h2, Function.update_noteq (by omega), Function.update_noteq (by omega)]
    · rw [if_neg h1]
      by_cases h3 : n = a
      · subst h3
        have h2 : ¬ (n < n ∧ n ≤ n + (k + 1)) := by omega
        rw [if_pos rfl, if_neg h2, if_pos rfl]
      · rw [if_neg h3]
        by_cases h4 : n = a + k + 1
        · subst h4
          have h2 : a < a + k + 1 ∧ a + k + 1 ≤ a + (k + 1) := by omega
          rw [Function.update_same, if_pos h2]
          simpa using hq.symm
        · have h2 : ¬ (a < n ∧ n ≤ a + (k + 1)) := by omega
          rw [if_neg h2, if_neg h3, Function.update_noteq h4, Function.update_noteq (by omega)]

/-- Moving the occupied run `b, ..., b + k - 1` down by one into the free numeric `b - 1`. -/
theorem shiftDown_spec (k : Nat) : ∀ {pa : priorityAssigner} (b : Nat), pa.WellFormed →
    1 ≤ b → (∀ i, i < k → (pa.ofPriorityMap (b + i)).isSome) → pa.ofPriorityMap (b - 1) = none →
    (pa.shiftDown b k).WellFormed ∧
    ∀ n, (pa.shiftDown b k).ofPriorityMap n =
      if b ≤ n + 1 ∧ n + 1 < b + k then pa.ofPriorityMap (n + 1)
      else if n + 1 = b + k then none else pa.ofPriorityMap n := by
  induction k with
  | zero =>
    intro pa b h hb _ hfree
    refine ⟨h, fun n => ?_⟩
    simp only [priorityAssigner.shiftDown]
    by_cases hn : n + 1 = b
    · have : n = b - 1 := by omega
      subst this
      have h2 : ¬ (b ≤ b - 1 + 1 ∧ b - 1 + 1 < b + 0) := by omega
      rw [if_neg h2, if_pos (by omega)]; exact hfree
    · have h2 : ¬ (b ≤ n + 1 ∧ n + 1 < b + 0) := by omega
      rw [if_neg h2, if_neg (by omega)]
  | succ k ih =>
    intro pa b h hb hocc hfree
    obtain ⟨q, hq⟩ := Option.isSome_iff_exists.1 (hocc 0 (Nat.succ_pos k))
    have hq' : pa.ofPriorityMap b = some q := hq
    obtain ⟨hwf, hom⟩ := moveEntry_spec h hq' hfree
    have hocc1 : ∀ i, i < k → ((pa.moveEntry b (b - 1)).ofPriorityMap (b + 1 + i)).isSome := by
      intro i hi
      rw [hom, Function.update_noteq (by omega), Function.update_noteq (by omega)]
      have := hocc (i + 1) (by omega)
      rwa [show b + (i + 1) = b + 1 + i by omega] at this
    have hfree1 : (pa.moveEntry b (b - 1)).ofPriorityMap (b + 1 - 1) = none := by
      rw [hom, show b + 1 - 1 = b by omega, Function.update_noteq (by omega),
        Function.update_same]
    obtain ⟨hwf2, hcl⟩ := ih (b + 1) hwf (by omega) hocc1 hfree1
    refine ⟨hwf2, fun n => ?_⟩
    simp only [priorityAssigner.shiftDown]
    rw [hcl n, hom]
    by_cases h1 : b + 1 ≤ n + 1 ∧ n + 1 < b + 1 + k
    · have h2 : b ≤ n + 1 ∧ n + 1 < b + (k + 1) := by omega
      rw [if_pos h1, if_pos h2, Function.update_noteq (by omega), Function.update_noteq (by omega)]
    · rw [if_neg h1]
      by_cases h3 : n + 1 = b + 1 + k
      · have h2 : ¬ (b ≤ n + 1 ∧ n + 1 < b + (k + 1)) := by omega
        rw [if_pos h3, if_neg h2, if_pos (by omega)]
      · rw [if_neg h3]
        by_cases h4 : n = b - 1
        · subst h4
          have h2 : b ≤ b - 1 + 1 ∧ b - 1 + 1 < b + (k + 1) := by omega
          rw [Function.update_same, if_pos h2, show b - 1 + 1 = b by omega]
          exact hq.symm
        · have h2 : ¬ (b ≤ n + 1 ∧ n + 1 < b + (k + 1)) := by omega
          rw [if_neg h2, if_neg (by omega), Function.update_noteq h4,
            Function.update_noteq (by omega)]

/-! ## Priority assigner: the search for a gap -/

theorem firstFreeUp_some {pa : priorityAssigner} : ∀ {fuel n g : Nat},
    pa.firstFreeUp n fuel = some g →
    n ≤ g ∧ g < n + fuel ∧ pa.ofPriorityMap g = none ∧
      ∀ m, n ≤ m → m < g → (pa.ofPriorityMap m).isSome
  | 0, n, g, h => by simp [priorityAssigner.firstFreeUp] at h
  | fuel + 1, n, g, h => by
    unfold priorityAssigner.firstFreeUp at h
    by_cases hn : (pa.ofPriorityMap n).isNone
    · rw [if_pos hn] at h
      cases h
      exact ⟨le_refl _, by omega, by simpa using hn, fun m h1 h2 => by omega⟩
    · rw [if_neg hn] at h
      obtain ⟨h1, h2, h3, h4⟩ := firstFreeUp_some h
      refine ⟨by omega, by omega, h3, fun m hm1 hm2 => ?_⟩
      by_cases hmn : m = n
      · subst hmn; simpa [Option.isNone_iff_eq_none, Option.isSome_iff_ne_none] using hn
      · exact h4 m (by omega) hm2

theorem firstFreeUp_none {pa : priorityAssigner} : ∀ {fuel n : Nat},
    pa.firstFreeUp n fuel = none → ∀ m, n ≤ m → m < n + fuel → (pa.ofPriorityMap m).isSome
  | 0, n, _, m, h1, h2 => by omega
  | fuel + 1, n, h, m, h1, h2 => by
    unfold priorityAssigner.firstFreeUp at h
    by_cases hn : (pa.ofPriorityMap n).isNone
    · rw [if_pos hn] at h; cases h
    · rw [if_neg hn] at h
      by_cases hmn : m = n
      · subst hmn; simpa [Option.isNone_iff_eq_none, Option.isSome_iff_ne_none] using hn
      · exact firstFreeUp_none h m (by omega) (by omega)

theorem firstFreeDown_some {pa : priorityAssigner} : ∀ {fuel n g : Nat},
    pa.firstFreeDown n fuel = some g →
    g ≤ n ∧ n < g + fuel ∧ pa.ofPriorityMap g = none ∧
      ∀ m, g < m → m ≤ n → (pa.ofPriorityMap m).isSome
  | 0, n, g, h => by simp [priorityAssigner.firstFreeDown] at h
  | fuel + 1, n, g, h => by
    unfold priorityAssigner.firstFreeDown at h
    by_cases hn : (pa.ofPriorityMap n).isNone
    · rw [if_pos hn] at h
      cases h
      exact ⟨le_refl _, by omega, by simpa using hn, fun m h1 h2 => by omega⟩
    · rw [if_neg hn] at h
      obtain ⟨h1, h2, h3, h4⟩ := firstFreeDown_some h
      refine ⟨by omega, by omega, h3, fun m hm1 hm2 => ?_⟩
      by_cases hmn : m = n
      · subst hmn; simpa [Option.isNone_iff_eq_none, Option.isSome_iff_ne_none] using hn
      · exact h4 m hm1 (by omega)

theorem firstFreeDown_none {pa : priorityAssigner} : ∀ {fuel n : Nat},
    pa.firstFreeDown n fuel = none → ∀ m, m ≤ n → n < m + fuel → (pa.ofPriorityMap m).isSome
  | 0, n, _, m, h1, h2 => by omega
  | fuel + 1, n, h, m, h1, h2 => by
    unfold priorityAssigner.firstFreeDown at h
    by_cases hn : (pa.ofPriorityMap n).isNone
    · rw [if_pos hn] at h; cases h
    · rw [if_neg hn] at h
      by_cases hmn : m = n
      · subst hmn; simpa [Option.isNone_iff_eq_none, Option.isSome_iff_ne_none] using hn
      · exact firstFreeDown_none h m (by omega) (by omega)

/-! ## Priority assigner: the two sifts -/

theorem WellFormed_priorityMap_none_iff {pa : priorityAssigner} (h : pa.WellFormed)
    (p : Priority) : pa.priorityMap p = none ↔ ∀ n, pa.ofPriorityMap n ≠ some p := by
  constructor
  · intro hp n hn
    rw [← h.inverse, hp] at hn
    simp at hn
  · intro hall
    cases hp : pa.priorityMap p with
    | none => rfl
    | some n => exact absurd ((h.inverse p n).1 hp) (hall n)

/-- The effect of sift-up: the run `target, ..., gap - 1` moves up by one and `p` takes
`target`. -/
theorem siftUp_spec {pa : priorityAssigner} (h : pa.WellFormed) {t g : Nat} {p : Priority}
    (hp : pa.priorityMap p = none) (htg : t ≤ g) (hfree : pa.ofPriorityMap g = none)
    (hocc : ∀ m, t ≤ m → m < g → (pa.ofPriorityMap m).isSome) :
    (pa.siftUp t g p).assigner.WellFormed ∧
    ∀ n, (pa.siftUp t g p).assigner.ofPriorityMap n =
      if n = t then some p
      else if t < n ∧ n ≤ g then pa.ofPriorityMap (n - 1) else pa.ofPriorityMap n := by
  have hk : t + (g - t) = g := by omega
  obtain ⟨hwf, hcl⟩ := shiftUp_spec (g - t) t h (fun i hi => hocc (t + i) (by omega) (by omega))
    (by rw [hk]; exact hfree)
  have hnp := (WellFormed_priorityMap_none_iff h p).1 hp
  have hfree1 : (pa.shiftUp t (g - t)).ofPriorityMap t = none := by
    rw [hcl t, if_neg (by omega), if_pos rfl]
  have hp1 : (pa.shiftUp t (g - t)).priorityMap p = none := by
    rw [WellFormed_priorityMap_none_iff hwf]
    intro n
    rw [hcl n]
    split_ifs
    · exact hnp _
    · simp
    · exact hnp _
  refine ⟨hwf.updatePriorityAssignment hfree1 hp1, fun n => ?_⟩
  simp only [priorityAssigner.siftUp, updatePriorityAssignment_ofPriorityMap]
  by_cases hn : n = t
  · subst hn; simp
  · rw [Function.update_noteq hn, hcl n, if_neg hn, if_neg hn, hk]

/-- The effect of sift-down: the run `gap + 1, ..., target - 1` moves down by one and `p` takes
`target - 1`. -/
theorem siftDown_spec {pa : priorityAssigner} (h : pa.WellFormed) {t g : Nat} {p : Priority}
    (hp : pa.priorityMap p = none) (htg : g + 1 ≤ t) (hfree : pa.ofPriorityMap g = none)
    (hocc : ∀ m, g < m → m + 1 ≤ t → (pa.ofPriorityMap m).isSome) :
    (pa.siftDown t g p).assigner.WellFormed ∧
    ∀ n, (pa.siftDown t g p).assigner.ofPriorityMap n =
      if n + 1 = t then some p
      else if g ≤ n ∧ n + 1 < t then pa.ofPriorityMap (n + 1) else pa.ofPriorityMap n := by
  obtain ⟨hwf, hcl⟩ := shiftDown_spec (t - 1 - g) (g + 1) h (by omega)
    (fun i hi => hocc (g + 1 + i) (by omega) (by omega))
    (by rw [show g + 1 - 1 = g by omega]; exact hfree)
  have hnp := (WellFormed_priorityMap_none_iff h p).1 hp
  have hfree1 : (pa.shiftDown (g + 1) (t - 1 - g)).ofPriorityMap (t - 1) = none := by
    rw [hcl (t - 1), if_neg (by omega), if_pos (by omega)]
  have hp1 : (pa.shiftDown (g + 1) (t - 1 - g)).priorityMap p = none := by
    rw [WellFormed_priorityMap_none_iff hwf]
    intro n
    rw [hcl n]
    split_ifs
    · exact hnp _
    · simp
    · exact hnp _
  refine ⟨hwf.updatePriorityAssignment hfree1 hp1, fun n => ?_⟩
  simp only [priorityAssigner.siftDown, updatePriorityAssignment_ofPriorityMap]
  by_cases hn : n + 1 = t
  · have : n = t - 1 := by omega
    subst this; simp [hn]
  · rw [Function.update_noteq (by omega), hcl n, if_neg hn]
    by_cases h1 : g ≤ n ∧ n + 1 < t
    · rw [if_pos h1, if_pos (by omega)]
    · rw [if_neg h1, if_neg (by omega), if_neg (by omega)]

/-- Reverting a sift-up restores the assigner. -/
theorem siftUp_revert {pa : priorityAssigner} (h : pa.WellFormed) {t g : Nat} {p : Priority}
    (hp : pa.priorityMap p = none) (htg : t ≤ g) (hfree : pa.ofPriorityMap g = none)
    (hocc : ∀ m, t ≤ m → m < g → (pa.ofPriorityMap m).isSome) :
    (pa.siftUp t g p).revert (pa.siftUp t g p).assigner = pa := by
  obtain ⟨hwf, hcl⟩ := siftUp_spec h hp htg hfree hocc
  have hR : ∀ n, ((pa.siftUp t g p).assigner.Release t).ofPriorityMap n =
      if n = t then none
      else if t < n ∧ n ≤ g then pa.ofPriorityMap (n - 1) else pa.ofPriorityMap n := by
    intro n
    rw [Release_ofPriorityMap]
    by_cases hn : n = t
    · subst hn; simp
    · rw [Function.update_noteq hn, hcl n, if_neg hn, if_neg hn]
  obtain ⟨hwf2, hcl2⟩ := shiftDown_spec (g - t) (t + 1) (hwf.Release t) (by omega)
    (fun i hi => by
      rw [hR, if_neg (by omega), if_pos (by omega)]
      exact hocc (t + 1 + i - 1) (by omega) (by omega))
    (by rw [hR, if_pos (by omega)])
  apply priorityAssigner.WellFormed.eq_of_ofPriorityMap hwf2 h
  intro n
  rw [hcl2 n]
  by_cases h1 : t + 1 ≤ n + 1 ∧ n + 1 < t + 1 + (g - t)
  · rw [if_pos h1, hR, if_neg (by omega), if_pos (by omega)]
    simp
  · rw [if_neg h1]
    by_cases h2 : n + 1 = t + 1 + (g - t)
    · rw [if_pos h2]
      have : n = g := by omega
      rw [this, hfree]
    · rw [if_neg h2, hR]
      by_cases h3 : n = t
      · omega
      · rw [if_neg h3, if_neg (by omega)]

/-- Reverting a sift-down restores the assigner. -/
theorem siftDown_revert {pa : priorityAssigner} (h : pa.WellFormed) {t g : Nat} {p : Priority}
    (hp : pa.priorityMap p = none) (htg : g + 1 ≤ t) (hfree : pa.ofPriorityMap g = none)
    (hocc : ∀ m, g < m → m + 1 ≤ t → (pa.ofPriorityMap m).isSome) :
    (pa.siftDown t g p).revert (pa.siftDown t g p).assigner = pa := by
  obtain ⟨hwf, hcl⟩ := siftDown_spec h hp htg hfree hocc
  have hR : ∀ n, ((pa.siftDown t g p).assigner.Release (t - 1)).ofPriorityMap n =
      if n + 1 = t then none
      else if g ≤ n ∧ n + 1 < t then pa.ofPriorityMap (n + 1) else pa.ofPriorityMap n := by
    intro n
    rw [Release_ofPriorityMap]
    by_cases hn : n + 1 = t
    · have : n = t - 1 := by omega
      subst this; simp [hn]
    · rw [Function.update_noteq (by omega), hcl n, if_neg hn, if_neg hn]
  obtain ⟨hwf2, hcl2⟩ := shiftUp_spec (t - 1 - g) g (hwf.Release (t - 1))
    (fun i hi => by
      rw [hR, if_neg (by omega), if_pos (by omega)]
      exact hocc (g + i + 1) (by omega) (by omega))
    (by rw [hR, if_pos (by omega)])
  apply priorityAssigner.WellFormed.eq_of_ofPriorityMap hwf2 h
  intro n
  rw [hcl2 n]
  by_cases h1 : g < n ∧ n ≤ g + (t - 1 - g)
  · rw [if_pos h1, hR, if_neg (by omega), if_pos (by omega)]
    rw [show n - 1 + 1 = n by omega]
  · rw [if_neg h1]
    by_cases h2 : n = g
    · rw [if_pos h2, h2, hfree]
    · rw [if_neg h2, hR, if_neg (by omega), if_neg (by omega)]

/-! ## Priority assigner: the outcomes of `reassignPriorities` -/

/-- The three outcomes of `reassignPriorities`: no gap on either side, a sift-up into the first
gap above, or a sift-down into the first gap below. -/
theorem reassignPriorities_cases (cfg : AssignerConfig) (pa : priorityAssigner) (t : Nat)
    (p : Priority) :
    (pa.reassignPriorities cfg t p = .error .OutOfSpace ∧
      (cfg.PolicyBottomPriority ≤ t → ∀ m, t ≤ m → m ≤ cfg.PolicyTopPriority →
        (pa.ofPriorityMap m).isSome) ∧
      (t ≤ cfg.PolicyTopPriority + 1 → ∀ m, cfg.PolicyBottomPriority ≤ m → m + 1 ≤ t →
        (pa.ofPriorityMap m).isSome)) ∨
    (∃ g, pa.reassignPriorities cfg t p = .ok (pa.siftUp t g p) ∧
      cfg.PolicyBottomPriority ≤ t ∧ t ≤ g ∧ g ≤ cfg.PolicyTopPriority ∧
      pa.ofPriorityMap g = none ∧ ∀ m, t ≤ m → m < g → (pa.ofPriorityMap m).isSome) ∨
    (∃ g, pa.reassignPriorities cfg t p = .ok (pa.siftDown t g p) ∧
      t ≤ cfg.PolicyTopPriority + 1 ∧ g + 1 ≤ t ∧ cfg.PolicyBottomPriority ≤ g ∧
      pa.ofPriorityMap g = none ∧ ∀ m, g < m → m + 1 ≤ t → (pa.ofPriorityMap m).isSome) := by
  have hup : ∀ g, (if cfg.PolicyBottomPriority ≤ t then
        pa.firstFreeUp t (cfg.PolicyTopPriority + 1 - t) else none) = some g →
      cfg.PolicyBottomPriority ≤ t ∧ t ≤ g ∧ g ≤ cfg.PolicyTopPriority ∧
      pa.ofPriorityMap g = none ∧ ∀ m, t ≤ m → m < g → (pa.ofPriorityMap m).isSome := by
    intro g hg
    by_cases hb : cfg.PolicyBottomPriority ≤ t
    · rw [if_pos hb] at hg
      obtain ⟨h1, h2, h3, h4⟩ := firstFreeUp_some hg
      exact ⟨hb, h1, by omega, h3, h4⟩
    · rw [if_neg hb] at hg; cases hg
  have hdown : ∀ g, (if t ≤ cfg.PolicyTopPriority + 1 then
        pa.firstFreeDown (t - 1) (t - cfg.PolicyBottomPriority) else none) = some g →
      t ≤ cfg.PolicyTopPriority + 1 ∧ g + 1 ≤ t ∧ cfg.PolicyBottomPriority ≤ g ∧
      pa.ofPriorityMap g = none ∧ ∀ m, g < m → m + 1 ≤ t → (pa.ofPriorityMap m).isSome := by
    intro g hg
    by_cases hb : t ≤ cfg.PolicyTopPriority + 1
    · rw [if_pos hb] at hg
      obtain ⟨h1, h2, h3, h4⟩ := firstFreeDown_some hg
      exact ⟨hb, by omega, by omega, h3, fun m hm1 hm2 => h4 m hm1 (by omega)⟩
    · rw [if_neg hb] at hg; cases hg
  unfold priorityAssigner.reassignPriorities
  cases hu : (if cfg.PolicyBottomPriority ≤ t then
      pa.firstFreeUp t (cfg.PolicyTopPriority + 1 - t) else none) with
  | none =>
    cases hd : (if t ≤ cfg.PolicyTopPriority + 1 then
        pa.firstFreeDown (t - 1) (t - cfg.PolicyBottomPriority) else none) with
    | none =>
      left
      refine ⟨rfl, fun hb m h1 h2 => ?_, fun hb m h1 h2 => ?_⟩
      · rw [if_pos hb] at hu
        exact firstFreeUp_none hu m h1 (by omega)
      · rw [if_pos hb] at hd
        exact firstFreeDown_none hd m (by omega) (by omega)
    | some gd => right; right; exact ⟨gd, rfl, hdown gd hd⟩
  | some gu =>
    cases hd : (if t ≤ cfg.PolicyTopPriority + 1 then
        pa.firstFreeDown (t - 1) (t - cfg.PolicyBottomPriority) else none) with
    | none => right; left; exact ⟨gu, rfl, hup gu hu⟩
    | some gd =>
      by_cases hc : gu - t < t - 1 - gd
      · right; left; exact ⟨gu, by simp only [if_pos hc], hup gu hu⟩
      · right; right; exact ⟨gd, by simp only [if_neg hc], hdown gd hd⟩

theorem lookup_range_map (f : Nat → Nat) (k : Nat) : ∀ (s x : Nat),
    ((List.range' s k).map (fun a => (a, f a))).lookup x =
      if s ≤ x ∧ x < s + k then some (f x) else none := by
  induction k with
  | zero =>
    intro s x
    have : ¬ (s ≤ x ∧ x < s + 0) := by omega
    rw [if_neg this]; rfl
  | succ k ih =>
    intro s x
    simp only [List.range'_succ, List.map_cons, List.lookup_cons]
    by_cases hx : x = s
    · subst hx; simp
    · have hbeq : (x == s) = false := by simpa using hx
      rw [hbeq, ih (s + 1) x]
      by_cases h1 : s + 1 ≤ x ∧ x < s + 1 + k
      · rw [if_pos h1, if_pos (by omega)]
      · rw [if_neg h1, if_neg (by omega)]

/-! ## Priority assigner: the update plan of `reassignPriorities` -/

theorem WellFormed_foldl_update (l : List (Nat × Priority)) : ∀ (pa : priorityAssigner),
    pa.WellFormed → (∀ e ∈ l, pa.ofPriorityMap e.1 = none ∧ pa.priorityMap e.2 = none) →
    (l.map Prod.fst).Nodup → (l.map Prod.snd).Nodup →
    (l.foldl (fun pa e => pa.updatePriorityAssignment e.1 e.2) pa).WellFormed := by
  induction l with
  | nil => intro pa h _ _ _; exact h
  | cons e rest ih =>
    intro pa h hfree h1 h2
    simp only [List.foldl_cons]
    simp only [List.map_cons, List.nodup_cons, List.mem_map, not_exists, not_and] at h1 h2
    obtain ⟨hn, hp⟩ := hfree e (List.mem_cons_self _ _)
    refine ih _ (h.updatePriorityAssignment hn hp) (fun e' he' => ?_) h1.2 h2.2
    obtain ⟨hn', hp'⟩ := hfree e' (List.mem_cons_of_mem _ he')
    have hne1 : e'.1 ≠ e.1 := fun heq => h1.1 e' he' heq
    have hne2 : e'.2 ≠ e.2 := fun heq => h2.1 e' he' heq
    simp only [priorityAssigner.updatePriorityAssignment]
    rw [Function.update_noteq hne1, Function.update_noteq hne2]
    exact ⟨hn', hp'⟩

/-- A test set-up with distinct numeric and distinct logical priorities is consistent. -/
theorem WellFormed_assignerOf (l : List (Nat × Priority)) (h1 : (l.map Prod.fst).Nodup)
    (h2 : (l.map Prod.snd).Nodup) : (assignerOf l).WellFormed :=
  WellFormed_foldl_update l _ WellFormed_new (fun _ _ => ⟨rfl, rfl⟩) h1 h2

/-- C7: when `reassignPriorities target p` succeeds on a consistent assigner in which `p` is not
assigned, `p` holds the returned numeric priority afterwards and `updates` is exactly the set
of moves of the other entries: an entry that went from `a` to `b ≠ a` has `updates[a] = b`, an
entry that stayed has no key in `updates`, and every key of `updates` is the old numeric
priority of an entry other than `p`. -/
theorem reassignPriorities_updates_exact (cfg : AssignerConfig) (pa : priorityAssigner)
    (target : Nat) (p : Priority) (r : Assignment) (hwf : pa.WellFormed)
    (hp : pa.priorityMap p = none) (hr : pa.reassignPriorities cfg target p = .ok r) :
    r.assigner.priorityMap p = some r.ofPriority ∧
    (∀ q a, q ≠ p → pa.priorityMap q = some a →
      ∃ b, r.assigner.priorityMap q = some b ∧
        (a ≠ b → r.updates.lookup a = some b) ∧ (a = b → r.updates.lookup a = none)) ∧
    (∀ k v, r.updates.lookup k = some v → ∃ q, q ≠ p ∧ pa.priorityMap q = some k) := by
  have hnp := (WellFormed_priorityMap_none_iff hwf p).1 hp
  rcases reassignPriorities_cases cfg pa target p with ⟨he, -, -⟩ |
    ⟨g, he, -, htg, -, hfree, hocc⟩ | ⟨g, he, -, htg, -, hfree, hocc⟩
  · rw [he] at hr; cases hr
  · rw [he] at hr
    cases hr
    obtain ⟨hwf', hcl⟩ := siftUp_spec hwf hp htg hfree hocc
    have hlook : ∀ x, (pa.siftUp target g p).updates.lookup x =
        if target ≤ x ∧ x < target + (g - target) then some (x + 1) else none :=
      fun x => lookup_range_map (· + 1) (g - target) target x
    refine ⟨?_, fun q a hq ha => ?_, fun k v hk => ?_⟩
    · rw [hwf'.inverse, hcl]
      exact if_pos rfl
    · have hoa := (hwf.inverse q a).1 ha
      by_cases hrun : target ≤ a ∧ a < g
      · refine ⟨a + 1, ?_, fun _ => ?_, fun h => by omega⟩
        · rw [hwf'.inverse, hcl, if_neg (by omega), if_pos (by omega)]
          simpa using hoa
        · rw [hlook, if_pos (by omega)]
      · have hag : a ≠ g := fun h => by rw [h, hfree] at hoa; cases hoa
        refine ⟨a, ?_, fun h => absurd rfl h, fun _ => ?_⟩
        · rw [hwf'.inverse, hcl, if_neg (by omega), if_neg (by omega)]
          exact hoa
        · rw [hlook, if_neg (by omega)]
    · rw [hlook] at hk
      by_cases hrun : target ≤ k ∧ k < target + (g - target)
      · obtain ⟨q, hq⟩ := Option.isSome_iff_exists.1 (hocc k hrun.1 (by omega))
        exact ⟨q, fun h => hnp k (h ▸ hq), (hwf.inverse q k).2 hq⟩
      · rw [if_neg hrun] at hk; cases hk
  · rw [he] at hr
    cases hr
    obtain ⟨hwf', hcl⟩ := siftDown_spec hwf hp htg hfree hocc
    have hlook : ∀ x, (pa.siftDown target g p).updates.lookup x =
        if g + 1 ≤ x ∧ x < g + 1 + (target - 1 - g) then some (x - 1) else none :=
      fun x => lookup_range_map (· - 1) (target - 1 - g) (g + 1) x
    refine ⟨?_, fun q a hq ha => ?_, fun k v hk => ?_⟩
    · rw [hwf'.inverse, hcl]
      exact if_pos (by show target - 1 + 1 = target; omega)
    · have hoa := (hwf.inverse q a).1 ha
      by_cases hrun : g < a ∧ a + 1 ≤ target
      · refine ⟨a - 1, ?_, fun _ => ?_, fun h => by omega⟩
        · rw [hwf'.inverse, hcl, if_neg (by omega), if_pos (by omega),
            show a - 1 + 1 = a by omega]
          exact hoa
        · rw [hlook, if_pos (by omega)]
      · have hag : a ≠ g := fun h => by rw [h, hfree] at hoa; cases hoa
        refine ⟨a, ?_, fun h => absurd rfl h, fun _ => ?_⟩
        · rw [hwf'.inverse, hcl, if_neg (by omega), if_neg (by omega)]
          exact hoa
        · rw [hlook, if_neg (by omega)]
    · rw [hlook] at hk
      by_cases hrun : g + 1 ≤ k ∧ k < g + 1 + (target - 1 - g)
      · obtain ⟨q, hq⟩ := Option.isSome_iff_exists.1 (hocc k (by omega) (by omega))
        exact ⟨q, fun h => hnp k (h ▸ hq), (hwf.inverse q k).2 hq⟩
      · rw [if_neg hrun] at hk; cases hk

/-- C7, witness: the first step of the case "sift-based-on-cost" of `TestReassignPriorities`. -/
theorem reassignPriorities_updates_exact_witness :
    (assignerOf [(10000, p110), (9999, p1121), (9998, p1131)]).WellFormed ∧
    (assignerOf [(10000, p110), (9999, p1121), (9998, p1131)]).priorityMap p1130 = none ∧
    (assignerOf [(10000, p110), (9999, p1121), (9998, p1131)]).reassignPriorities
      (seedConfig 0) 9999 p1130 =
      .ok ((assignerOf [(10000, p110), (9999, p1121), (9998, p1131)]).siftDown 9999 9997 p1130) ∧
    ((assignerOf [(10000, p110), (9999, p1121), (9998, p1131)]).siftDown 9999 9997
      p1130).assigner.priorityMap p1130 = some 9998 :=
  ⟨WellFormed_assignerOf _ (by decide) (by decide!), by decide!, by rfl,
    (reassignPriorities_updates_exact (seedConfig 0)
      (assignerOf [(10000, p110), (9999, p1121), (9998, p1131)]) 9999 p1130 _
      (WellFormed_assignerOf _ (by decide) (by decide!)) (by decide!) (by rfl)).1⟩

/-! ## Priority assigner: the walk of `getInsertionPoint` -/

theorem find?_pairwise {r : Nat → Nat → Prop} (hasym : ∀ a b, r a b → ¬ r b a)
    (P : Nat → Bool) : ∀ (l : List Nat), l.Pairwise r →
    (∀ h, l.find? P = some h → h ∈ l ∧ P h = true ∧ ∀ m ∈ l, r m h → P m = false) ∧
    (l.find? P = none → ∀ m ∈ l, P m = false) := by
  intro l
  induction l with
  | nil => intro _; simp
  | cons a rest ih =>
    intro hl
    obtain ⟨hhead, htail⟩ := List.pairwise_cons.1 hl
    obtain ⟨ih1, ih2⟩ := ih htail
    by_cases hP : P a = true
    · refine ⟨fun h hh => ?_, fun hn => ?_⟩
      · simp only [List.find?_cons, hP] at hh
        cases hh
        refine ⟨List.mem_cons_self _ _, hP, fun m hm hr => ?_⟩
        rcases List.mem_cons.1 hm with rfl | hm'
        · exact absurd hr (hasym _ _ hr)
        · exact absurd (hhead m hm') (hasym _ _ hr)
      · simp [List.find?_cons, hP] at hn
    · have hP' : P a = false := by simpa using hP
      refine ⟨fun h hh => ?_, fun hn m hm => ?_⟩
      · simp only [List.find?_cons, hP'] at hh
        obtain ⟨h1, h2, h3⟩ := ih1 h hh
        refine ⟨List.mem_cons_of_mem _ h1, h2, fun m hm hr => ?_⟩
        rcases List.mem_cons.1 hm with rfl | hm'
        · exact hP'
        · exact h3 m hm' hr
      · simp only [List.find?_cons, hP'] at hn
        rcases List.mem_cons.1 hm with rfl | hm'
        · exact hP'
        · exact ih2 hn m hm'

/-- The neighbours found by the walk, on a consistent assigner in which `p` is not assigned. -/
theorem neighbours_of_walk {pa : priorityAssigner} (hwf : pa.WellFormed) {p : Priority}
    (hp : pa.priorityMap p = none) :
    Neighbours pa p (pa.sortedOFPriorities.reverse.find? (pa.holdsLower p))
      (pa.sortedOFPriorities.find? (pa.holdsHigher p)) := by
  have hnp := (WellFormed_priorityMap_none_iff hwf p).1 hp
  have hmemsome : ∀ m q, pa.ofPriorityMap m = some q → m ∈ pa.sortedOFPriorities :=
    fun m q hq => (hwf.mem m).2 (by rw [hq]; rfl)
  have htot : ∀ m q, pa.ofPriorityMap m = some q → q.lexLt p ∨ p.lexLt q := by
    intro m q hq
    rcases Priority.lexLt_total q p with h | h | h
    · exact Or.inl h
    · exact absurd (h ▸ hq) (hnp m)
    · exact Or.inr h
  have hH : ∀ m q, pa.ofPriorityMap m = some q → pa.holdsHigher p m = false → p.lexLt q := by
    intro m q hq hf
    rcases htot m q hq with h | h
    · simp [priorityAssigner.holdsHigher, hq, h] at hf
    · exact h
  have hL : ∀ m q, pa.ofPriorityMap m = some q → pa.holdsLower p m = false → q.lexLt p := by
    intro m q hq hf
    rcases htot m q hq with h | h
    · exact h
    · simp [priorityAssigner.holdsLower, hq, h] at hf
  obtain ⟨hi1, hi2⟩ := find?_pairwise (r := (· < ·)) (fun a b hab => by omega)
    (pa.holdsHigher p) pa.sortedOFPriorities hwf.sorted
  have hrev : pa.sortedOFPriorities.reverse.Pairwise (fun a b => b < a) :=
    List.pairwise_reverse.2 hwf.sorted
  obtain ⟨lo1, lo2⟩ := find?_pairwise (r := fun a b => b < a) (fun a b hab => by omega)
    (pa.holdsLower p) pa.sortedOFPriorities.reverse hrev
  refine ⟨fun h hh => ?_, fun hn m q hq => ?_, fun l hl => ?_, fun hn m q hq => ?_⟩
  · obtain ⟨h1, h2, h3⟩ := hi1 h hh
    refine ⟨?_, fun m q hq hm => hH m q hq (h3 m (hmemsome m q hq) hm)⟩
    cases hq : pa.ofPriorityMap h with
    | none => simp [priorityAssigner.holdsHigher, hq] at h2
    | some q => exact ⟨q, rfl, by simpa [priorityAssigner.holdsHigher, hq] using h2⟩
  · exact hH m q hq (hi2 hn m (hmemsome m q hq))
  · obtain ⟨h1, h2, h3⟩ := lo1 l hl
    refine ⟨?_, fun m q hq hm =>
      hL m q hq (h3 m (List.mem_reverse.2 (hmemsome m q hq)) hm)⟩
    cases hq : pa.ofPriorityMap l with
    | none => simp [priorityAssigner.holdsLower, hq] at h2
    | some q => exact ⟨q, rfl, by simpa [priorityAssigner.holdsLower, hq] using h2⟩
  · exact hL m q hq (lo2 hn m (List.mem_reverse.2 (hmemsome m q hq)))

/-- There is no entry strictly between the two neighbours. -/
theorem Neighbours.free_between {pa : priorityAssigner} {p : Priority} {l h : Nat}
    (hN : Neighbours pa p (some l) (some h)) {m : Nat} (h1 : l < m) (h2 : m < h) :
    pa.ofPriorityMap m = none := by
  cases hq : pa.ofPriorityMap m with
  | none => rfl
  | some q =>
    exact absurd ((hN.lo_some l rfl).2 m q hq h1)
      (Priority.lexLt_asymm ((hN.hi_some h rfl).2 m q hq h2))

/-- The outcomes of `getInsertionPoint` on a consistent assigner in which `p` is not
assigned. -/
theorem getInsertionPoint_cases (cfg : AssignerConfig) {pa : priorityAssigner}
    (hwf : pa.WellFormed) {p : Priority} (hp : pa.priorityMap p = none) :
    ∃ lo hi, Neighbours pa p lo hi ∧
      ((pa.getInsertionPoint cfg p =
          (cfg.initialOFPriorityFunc p cfg.isSingleTier, false) ∧
        pa.ofPriorityMap (cfg.initialOFPriorityFunc p cfg.isSingleTier) = none ∧
        (∀ l, lo = some l → l < cfg.initialOFPriorityFunc p cfg.isSingleTier) ∧
        (∀ h, hi = some h → cfg.initialOFPriorityFunc p cfg.isSingleTier < h)) ∨
      (∃ l, lo = some l ∧ hi = none ∧
        pa.getInsertionPoint cfg p = (min (l + 1) (cfg.PolicyTopPriority + 1), false)) ∨
      (∃ h, lo = none ∧ hi = some h ∧ cfg.PolicyBottomPriority < h ∧
        pa.getInsertionPoint cfg p = (h - 1, false)) ∨
      (∃ h, lo = none ∧ hi = some h ∧ h ≤ cfg.PolicyBottomPriority ∧
        pa.getInsertionPoint cfg p = (h, true)) ∨
      (∃ l h, lo = some l ∧ hi = some h ∧ l + 1 < h ∧
        (pa.getInsertionPoint cfg p = (l + 1, false) ∨
          pa.getInsertionPoint cfg p = (h - 1, false))) ∨
      (∃ l h, lo = some l ∧ hi = some h ∧ ¬ l + 1 < h ∧
        pa.getInsertionPoint cfg p = (h, true))) := by
  have hN := neighbours_of_walk hwf hp
  refine ⟨_, _, hN, ?_⟩
  unfold priorityAssigner.getInsertionPoint
  simp only [Option.mem_def]
  by_cases hseed : (pa.ofPriorityMap (cfg.initialOFPriorityFunc p cfg.isSingleTier)).isNone ∧
      (∀ l, pa.sortedOFPriorities.reverse.find? (pa.holdsLower p) = some l →
        l < cfg.initialOFPriorityFunc p cfg.isSingleTier) ∧
      (∀ h, pa.sortedOFPriorities.find? (pa.holdsHigher p) = some h →
        cfg.initialOFPriorityFunc p cfg.isSingleTier < h)
  · left
    rw [if_pos hseed]
    exact ⟨rfl, by simpa using hseed.1, hseed.2.1, hseed.2.2⟩
  · right
    rw [if_neg hseed]
    cases hlo : pa.sortedOFPriorities.reverse.find? (pa.holdsLower p) with
    | none =>
      cases hhi : pa.sortedOFPriorities.find? (pa.holdsHigher p) with
      | none =>
        exfalso
        apply hseed
        rw [hlo, hhi]
        refine ⟨?_, by simp, by simp⟩
        cases hq : pa.ofPriorityMap (cfg.initialOFPriorityFunc p cfg.isSingleTier) with
        | none => rfl
        | some q =>
          exact absurd (hN.lo_none hlo _ q hq) (Priority.lexLt_asymm (hN.hi_none hhi _ q hq))
      | some h =>
        by_cases hb : cfg.PolicyBottomPriority < h
        · right; left
          exact ⟨h, rfl, rfl, hb, by simp only [if_pos hb]⟩
        · right; right; left
          exact ⟨h, rfl, rfl, by omega, by simp only [if_neg hb]⟩
    | some l =>
      cases hhi : pa.sortedOFPriorities.find? (pa.holdsHigher p) with
      | none => left; exact ⟨l, rfl, rfl, rfl⟩
      | some h =>
        right; right; right
        by_cases hgap : l + 1 < h
        · left
          refine ⟨l, h, rfl, rfl, hgap, ?_⟩
          by_cases hs : cfg.initialOFPriorityFunc p cfg.isSingleTier ≤ l
          · left; simp only [if_pos hs, if_pos hgap]
          · right; simp only [if_neg hs, if_pos hgap]
        · right
          refine ⟨l, h, rfl, rfl, hgap, ?_⟩
          by_cases hs : cfg.initialOFPriorityFunc p cfg.isSingleTier ≤ l
          · simp only [if_pos hs, if_neg hgap]
          · simp only [if_neg hs, if_neg hgap]

/-- An insertion point reported as not occupied and not above the range is free. -/
theorem getInsertionPoint_free (cfg : AssignerConfig) {pa : priorityAssigner}
    (hwf : pa.WellFormed) {p : Priority} (hp : pa.priorityMap p = none)
    (hocc : (pa.getInsertionPoint cfg p).2 = false)
    (htop : (pa.getInsertionPoint cfg p).1 ≤ cfg.PolicyTopPriority) :
    pa.ofPriorityMap (pa.getInsertionPoint cfg p).1 = none := by
  obtain ⟨lo, hi, hN, hc⟩ := getInsertionPoint_cases cfg hwf hp
  rcases hc with ⟨he, hfree, -, -⟩ | ⟨l, hl, hh, he⟩ | ⟨h, hl, hh, hb, he⟩ | ⟨h, hl, hh, hb, he⟩ |
    ⟨l, h, hl, hh, hgap, he | he⟩ | ⟨l, h, hl, hh, hgap, he⟩
  · rw [he]; exact hfree
  · rw [he] at htop ⊢
    simp only at htop ⊢
    have hmin : min (l + 1) (cfg.PolicyTopPriority + 1) = l + 1 := by omega
    rw [hmin]
    cases hq : pa.ofPriorityMap (l + 1) with
    | none => rfl
    | some q =>
      exact absurd ((hN.lo_some l hl).2 _ q hq (by omega))
        (Priority.lexLt_asymm (hN.hi_none hh _ q hq))
  · rw [he]
    simp only
    cases hq : pa.ofPriorityMap (h - 1) with
    | none => rfl
    | some q =>
      exact absurd (hN.lo_none hl _ q hq)
        (Priority.lexLt_asymm ((hN.hi_some h hh).2 _ q hq (by omega)))
  · rw [he] at hocc; simp at hocc
  · rw [he]; subst hl; subst hh
    exact hN.free_between (by omega) hgap
  · rw [he]; subst hl; subst hh
    exact hN.free_between (by omega) (by omega)
  · rw [he] at hocc; simp at hocc

/-- The two ways in which `GetOFPriority` treats a priority that is not assigned. -/
theorem GetOFPriority_cases (cfg : AssignerConfig) (pa : priorityAssigner) (p : Priority)
    (hp : pa.priorityMap p = none) :
    ((pa.getInsertionPoint cfg p).2 = false ∧
      cfg.PolicyBottomPriority ≤ (pa.getInsertionPoint cfg p).1 ∧
      (pa.getInsertionPoint cfg p).1 ≤ cfg.PolicyTopPriority ∧
      pa.GetOFPriority cfg p = .ok
        { ofPriority := (pa.getInsertionPoint cfg p).1, updates := [],
          revert := fun s => s.Release (pa.getInsertionPoint cfg p).1,
          assigner := pa.updatePriorityAssignment (pa.getInsertionPoint cfg p).1 p }) ∨
    (¬ ((pa.getInsertionPoint cfg p).2 = false ∧
        cfg.PolicyBottomPriority ≤ (pa.getInsertionPoint cfg p).1 ∧
        (pa.getInsertionPoint cfg p).1 ≤ cfg.PolicyTopPriority) ∧
      pa.GetOFPriority cfg p =
        pa.reassignPriorities cfg (pa.getInsertionPoint cfg p).1 p) := by
  unfold priorityAssigner.GetOFPriority
  simp only [hp]
  by_cases h : (pa.getInsertionPoint cfg p).2 = false ∧
      cfg.PolicyBottomPriority ≤ (pa.getInsertionPoint cfg p).1 ∧
      (pa.getInsertionPoint cfg p).1 ≤ cfg.PolicyTopPriority
  · left; exact ⟨h.1, h.2.1, h.2.2, by rw [if_pos h]⟩
  · right; exact ⟨h, by rw [if_neg h]⟩

theorem Release_updatePriorityAssignment {pa : priorityAssigner} (hwf : pa.WellFormed)
    {n : Nat} {p : Priority} (hn : pa.ofPriorityMap n = none) (hp : pa.priorityMap p = none) :
    (pa.updatePriorityAssignment n p).Release n = pa := by
  apply priorityAssigner.WellFormed.eq_of_ofPriorityMap
    ((hwf.updatePriorityAssignment hn hp).Release n) hwf
  intro m
  rw [Release_ofPriorityMap, updatePriorityAssignment_ofPriorityMap]
  by_cases hm : m = n
  · subst hm; simp [hn]
  · simp [Function.update_noteq hm]

/-- Calling `GetOFPriority` and then the revert function gives back the assigner. -/
theorem assignerReverted_GetOFPriority (cfg : AssignerConfig) {pa : priorityAssigner}
    (hwf : pa.WellFormed) {p : Priority} (hp : pa.priorityMap p = none) :
    assignerReverted pa (pa.GetOFPriority cfg p) = pa := by
  rcases GetOFPriority_cases cfg pa p hp with ⟨hocc, -, htop, he⟩ | ⟨-, he⟩
  · rw [he]
    simp only [assignerReverted]
    exact Release_updatePriorityAssignment hwf (getInsertionPoint_free cfg hwf hp hocc htop) hp
  · rw [he]
    rcases reassignPriorities_cases cfg pa (pa.getInsertionPoint cfg p).1 p with ⟨hr, -, -⟩ |
      ⟨g, hr, -, htg, -, hfree, hoc⟩ | ⟨g, hr, -, htg, -, hfree, hoc⟩
    · rw [hr]; rfl
    · rw [hr]; exact siftUp_revert hwf hp htg hfree hoc
    · rw [hr]; exact siftDown_revert hwf hp htg hfree hoc

/-- C5: on an assigner whose two maps are inverse of each other and whose sorted list is the
strictly ascending list of the numeric priorities in use, for a priority `p` that is not
assigned, calling `GetOFPriority p` and then the returned revert function leaves `priorityMap`,
`ofPriorityMap` and `sortedOFPriorities` equal to their values before the call (a failed call
returns no revert function and changes nothing). -/
theorem GetOFPriority_revert_restores (cfg : AssignerConfig) (pa : priorityAssigner)
    (p : Priority) (hwf : pa.WellFormed) (hp : pa.priorityMap p = none) :
    (assignerReverted pa (pa.GetOFPriority cfg p)).priorityMap = pa.priorityMap ∧
    (assignerReverted pa (pa.GetOFPriority cfg p)).ofPriorityMap = pa.ofPriorityMap ∧
    (assignerReverted pa (pa.GetOFPriority cfg p)).sortedOFPriorities =
      pa.sortedOFPriorities := by
  rw [assignerReverted_GetOFPriority cfg hwf hp]
  exact ⟨rfl, rfl, rfl⟩

/-- C5, witness: the case "multiple-updates-up" of `TestRevertUpdates`. -/
theorem GetOFPriority_revert_restores_witness :
    (assignerOf [(9999, p1120), (9998, p1121), (9997, p1130), (9996, p1140), (9995, p1141),
      (9994, p1160), (9993, p1161)]).WellFormed ∧
    (assignerOf [(9999, p1120), (9998, p1121), (9997, p1130), (9996, p1140), (9995, p1141),
      (9994, p1160), (9993, p1161)]).priorityMap p1131 = none ∧
    (assignerReverted
      (assignerOf [(9999, p1120), (9998, p1121), (9997, p1130), (9996, p1140), (9995, p1141),
        (9994, p1160), (9993, p1161)])
      ((assignerOf [(9999, p1120), (9998, p1121), (9997, p1130), (9996, p1140), (9995, p1141),
        (9994, p1160), (9993, p1161)]).GetOFPriority (seedConfig 9997) p1131)).sortedOFPriorities
      = (assignerOf [(9999, p1120), (9998, p1121), (9997, p1130), (9996, p1140), (9995, p1141),
        (9994, p1160), (9993, p1161)]).sortedOFPriorities :=
  ⟨WellFormed_assignerOf _ (by decide) (by decide!), by decide!,
    (GetOFPriority_revert_restores (seedConfig 9997) _ p1131
      (WellFormed_assignerOf _ (by decide) (by decide!)) (by decide!)).2.2⟩

/-! ## Priority assigner: an assignment keeps the invariants -/

/-- The insertion point separates the entries above `p` from those below `p`. -/
theorem getInsertionPoint_separates (cfg : AssignerConfig) {pa : priorityAssigner}
    (hwf : pa.WellFormed) (hord : pa.Ordered) (hrange : pa.InRange cfg) {p : Priority}
    (hp : pa.priorityMap p = none) : pa.Separates p (pa.getInsertionPoint cfg p).1 := by
  obtain ⟨lo, hi, hN, hc⟩ := getInsertionPoint_cases cfg hwf hp
  rcases hc with ⟨he, hfree, hl, hh⟩ | ⟨l, hl, hh, he⟩ | ⟨h, hl, hh, hb, he⟩ |
    ⟨h, hl, hh, hb, he⟩ | ⟨l, h, hl, hh, hgap, he | he⟩ | ⟨l, h, hl, hh, hgap, he⟩ <;>
    rw [he] <;> simp only <;> refine ⟨fun n q hq hn => ?_, fun n q hq hn => ?_⟩
  · have hne : n ≠ cfg.initialOFPriorityFunc p cfg.isSingleTier := fun h => by
      rw [h, hfree] at hq; cases hq
    cases hlo : lo with
    | none => exact hN.lo_none hlo n q hq
    | some l => exact (hN.lo_some l hlo).2 n q hq (by have := hl l hlo; omega)
  · cases hhi : hi with
    | none => exact hN.hi_none hhi n q hq
    | some h => exact (hN.hi_some h hhi).2 n q hq (by have := hh h hhi; omega)
  · have hnr := (hrange n (by rw [hq]; rfl)).2
    exact (hN.lo_some l hl).2 n q hq (by omega)
  · exact hN.hi_none hh n q hq
  · exact hN.lo_none hl n q hq
  · exact (hN.hi_some h hh).2 n q hq (by omega)
  · exact hN.lo_none hl n q hq
  · exact (hN.hi_some h hh).2 n q hq hn
  · exact (hN.lo_some l hl).2 n q hq (by omega)
  · exact (hN.hi_some h hh).2 n q hq (by omega)
  · exact (hN.lo_some l hl).2 n q hq (by omega)
  · exact (hN.hi_some h hh).2 n q hq (by omega)
  · obtain ⟨ql, hql, hpl⟩ := (hN.lo_some l hl).1
    obtain ⟨qh, hqh, hph⟩ := (hN.hi_some h hh).1
    have hlh : l < h := by
      by_contra hcon
      rcases Nat.lt_or_ge h l with hlt | hge
      · exact Priority.lexLt_asymm (hord h l qh ql hqh hql hlt) (Priority.lexLt_trans hph hpl)
      · have : h = l := by omega
        subst this
        rw [hql] at hqh
        cases hqh
        exact Priority.lexLt_asymm hpl hph
    exact (hN.lo_some l hl).2 n q hq (by omega)
  · exact (hN.hi_some h hh).2 n q hq hn

/-- With seeds in the range and entries in the range, the insertion point is at least the
bottom of the range and at most one above its top. -/
theorem getInsertionPoint_bounds (cfg : AssignerConfig) {pa : priorityAssigner}
    (hwf : pa.WellFormed) (hrange : pa.InRange cfg) (hseed : cfg.SeedInRange) {p : Priority}
    (hp : pa.priorityMap p = none) :
    cfg.PolicyBottomPriority ≤ (pa.getInsertionPoint cfg p).1 ∧
    (pa.getInsertionPoint cfg p).1 ≤ cfg.PolicyTopPriority + 1 := by
  obtain ⟨lo, hi, hN, hc⟩ := getInsertionPoint_cases cfg hwf hp
  have hlo : ∀ l, lo = some l → cfg.PolicyBottomPriority ≤ l ∧ l ≤ cfg.PolicyTopPriority :=
    fun l hl => by
      obtain ⟨q, hq, -⟩ := (hN.lo_some l hl).1
      exact hrange l (by rw [hq]; rfl)
  have hhi : ∀ h, hi = some h → cfg.PolicyBottomPriority ≤ h ∧ h ≤ cfg.PolicyTopPriority :=
    fun h hh => by
      obtain ⟨q, hq, -⟩ := (hN.hi_some h hh).1
      exact hrange h (by rw [hq]; rfl)
  rcases hc with ⟨he, -, -, -⟩ | ⟨l, hl, hh, he⟩ | ⟨h, hl, hh, hb, he⟩ |
    ⟨h, hl, hh, hb, he⟩ | ⟨l, h, hl, hh, hgap, he | he⟩ | ⟨l, h, hl, hh, hgap, he⟩ <;>
    rw [he] <;> simp only
  · have := hseed p cfg.isSingleTier; omega
  · have := hlo l hl; omega
  · have := hhi h hh; omega
  · have := hhi h hh; omega
  · have := hlo l hl; have := hhi h hh; omega
  · have := hlo l hl; have := hhi h hh; omega
  · have := hhi h hh; omega

/-- Order is kept when the new map is the old one re-indexed by an increasing function, with
`p` put at a numeric priority that the separator condition allows. -/
theorem ordered_of_embedding {pa pa' : priorityAssigner} {p : Priority} {tp sep : Nat}
    (src : Nat → Nat) (hord : pa.Ordered) (hsep : pa.Separates p sep)
    (hsrc : ∀ n, n ≠ tp → pa'.ofPriorityMap n = pa.ofPriorityMap (src n))
    (htp : pa'.ofPriorityMap tp = some p)
    (hmono : ∀ a b, a ≠ tp → b ≠ tp → a < b → src a < src b)
    (hhi : ∀ n, tp < n → sep ≤ src n) (hlo : ∀ n, n < tp → src n < sep) : pa'.Ordered := by
  intro a b q r hq hr hab
  by_cases ha : a = tp
  · subst ha
    rw [htp] at hq
    cases hq
    rw [hsrc b (by omega)] at hr
    exact hsep.1 _ r hr (hhi b hab)
  · by_cases hb : b = tp
    · subst hb
      rw [htp] at hr
      cases hr
      rw [hsrc a ha] at hq
      exact hsep.2 _ q hq (hlo a hab)
    · rw [hsrc a ha] at hq
      rw [hsrc b hb] at hr
      exact hord _ _ q r hq hr (hmono a b ha hb hab)

/-- The set of assigned priorities grows by exactly `p`. -/
theorem unassigned_of_embedding {pa pa' : priorityAssigner} {p : Priority} {tp : Nat}
    (src : Nat → Nat) (hwf : pa.WellFormed) (hwf' : pa'.WellFormed)
    (hsrc : ∀ n, n ≠ tp → pa'.ofPriorityMap n = pa.ofPriorityMap (src n))
    (htp : pa'.ofPriorityMap tp = some p)
    (hsurj : ∀ m, (pa.ofPriorityMap m).isSome → ∃ n, n ≠ tp ∧ src n = m) (q : Priority) :
    pa'.priorityMap q = none ↔ pa.priorityMap q = none ∧ q ≠ p := by
  rw [WellFormed_priorityMap_none_iff hwf', WellFormed_priorityMap_none_iff hwf]
  constructor
  · intro h
    refine ⟨fun m hm => ?_, fun hqp => h tp (hqp ▸ htp)⟩
    obtain ⟨n, hn, hnm⟩ := hsurj m (by rw [hm]; rfl)
    exact h n (by rw [hsrc n hn, hnm]; exact hm)
  · rintro ⟨h, hqp⟩ n hn
    by_cases hnt : n = tp
    · subst hnt
      rw [htp] at hn
      cases hn
      exact hqp rfl
    · rw [hsrc n hnt] at hn
      exact h _ hn

/-- When exactly one more numeric priority is in use, the sorted list is one longer. -/
theorem length_of_mem_iff {pa pa' : priorityAssigner} (hwf : pa.WellFormed)
    (hwf' : pa'.WellFormed) {g : Nat} (hg : pa.ofPriorityMap g = none)
    (hmem : ∀ n, (pa'.ofPriorityMap n).isSome ↔ (pa.ofPriorityMap n).isSome ∨ n = g) :
    pa'.sortedOFPriorities.length = pa.sortedOFPriorities.length + 1 := by
  have hgn : g ∉ pa.sortedOFPriorities := by rw [hwf.mem, hg]; simp
  have hperm : pa'.sortedOFPriorities.Perm (g :: pa.sortedOFPriorities) := by
    refine (List.perm_ext_iff_of_nodup hwf'.sorted.nodup
      (List.nodup_cons.2 ⟨hgn, hwf.sorted.nodup⟩)).2 (fun n => ?_)
    rw [hwf'.mem, hmem, List.mem_cons, hwf.mem]
    tauto
  rw [hperm.length_eq, List.length_cons]

theorem inserted_direct (cfg : AssignerConfig) {pa : priorityAssigner} (hwf : pa.WellFormed)
    (hord : pa.Ordered) (hrange : pa.InRange cfg) {p : Priority} {n : Nat}
    (hp : pa.priorityMap p = none) (hn : pa.ofPriorityMap n = none)
    (hb : cfg.PolicyBottomPriority ≤ n) (ht : n ≤ cfg.PolicyTopPriority)
    (hsep : pa.Separates p n) : Inserted cfg pa p (pa.updatePriorityAssignment n p) := by
  have hwf' := hwf.updatePriorityAssignment hn hp
  have hsrc : ∀ m, m ≠ n → (pa.updatePriorityAssignment n p).ofPriorityMap m =
      pa.ofPriorityMap (id m) := fun m hm => by
    rw [updatePriorityAssignment_ofPriorityMap, Function.update_noteq hm]; rfl
  have htp : (pa.updatePriorityAssignment n p).ofPriorityMap n = some p := by
    rw [updatePriorityAssignment_ofPriorityMap, Function.update_same]
  have hmem : ∀ m, ((pa.updatePriorityAssignment n p).ofPriorityMap m).isSome ↔
      (pa.ofPriorityMap m).isSome ∨ m = n := fun m => by
    by_cases hm : m = n
    · subst hm; simp [htp]
    · rw [hsrc m hm]; simp [hm]
  refine ⟨hwf', ordered_of_embedding id hord hsep hsrc htp (fun a b _ _ h => h)
    (fun m hm => by simp only [id]; omega) (fun m hm => hm), fun m hm => ?_,
    length_of_mem_iff hwf hwf' hn hmem,
    unassigned_of_embedding id hwf hwf' hsrc htp (fun m hm => ⟨m, fun h => ?_, rfl⟩)⟩
  · rcases (hmem m).1 hm with h | h
    · exact hrange m h
    · subst h; exact ⟨hb, ht⟩
  · rw [h, hn] at hm; simp at hm

theorem inserted_siftUp (cfg : AssignerConfig) {pa : priorityAssigner} (hwf : pa.WellFormed)
    (hord : pa.Ordered) (hrange : pa.InRange cfg) {p : Priority} {t g : Nat}
    (hp : pa.priorityMap p = none) (hb : cfg.PolicyBottomPriority ≤ t) (htg : t ≤ g)
    (hgt : g ≤ cfg.PolicyTopPriority) (hfree : pa.ofPriorityMap g = none)
    (hocc : ∀ m, t ≤ m → m < g → (pa.ofPriorityMap m).isSome) (hsep : pa.Separates p t) :
    Inserted cfg pa p (pa.siftUp t g p).assigner := by
  obtain ⟨hwf', hcl⟩ := siftUp_spec hwf hp htg hfree hocc
  have hsrc : ∀ n, n ≠ t → (pa.siftUp t g p).assigner.ofPriorityMap n =
      pa.ofPriorityMap (if t < n ∧ n ≤ g then n - 1 else n) := fun n hn => by
    rw [hcl n, if_neg hn]
    split_ifs <;> rfl
  have htp : (pa.siftUp t g p).assigner.ofPriorityMap t = some p := by
    rw [hcl t, if_pos rfl]
  have hmem : ∀ n, ((pa.siftUp t g p).assigner.ofPriorityMap n).isSome ↔
      (pa.ofPriorityMap n).isSome ∨ n = g := fun n => by
    by_cases hn : n = t
    · subst hn
      rw [htp]
      by_cases hng : n = g
      · simp [hng]
      · simp [hocc n (le_refl _) (by omega)]
    · rw [hcl n, if_neg hn]
      by_cases h1 : t < n ∧ n ≤ g
      · rw [if_pos h1]
        have h2 := hocc (n - 1) (by omega) (by omega)
        by_cases hng : n = g
        · simp [h2, hng.symm]
        · simp [h2, hocc n (by omega) (by omega)]
      · rw [if_neg h1]
        have hng : n ≠ g := by omega
        simp [hng]
  refine ⟨hwf', ordered_of_embedding _ hord hsep hsrc htp (fun a b ha hb' hab => ?_)
    (fun n hn => ?_) (fun n hn => ?_), fun n hn => ?_,
    length_of_mem_iff hwf hwf' hfree hmem,
    unassigned_of_embedding _ hwf hwf' hsrc htp (fun m hm => ?_)⟩
  · split_ifs <;> omega
  · split_ifs <;> omega
  · split_ifs <;> omega
  · rcases (hmem n).1 hn with h | h
    · exact hrange n h
    · subst h; exact ⟨by omega, hgt⟩
  · have hmg : m ≠ g := fun h => by rw [h, hfree] at hm; simp at hm
    by_cases h1 : t ≤ m ∧ m < g
    · exact ⟨m + 1, by omega, by rw [if_pos (by omega)]; omega⟩
    · exact ⟨m, by omega, by rw [if_neg (by omega)]⟩

theorem inserted_siftDown (cfg : AssignerConfig) {pa : priorityAssigner} (hwf : pa.WellFormed)
    (hord : pa.Ordered) (hrange : pa.InRange cfg) {p : Priority} {t g : Nat}
    (hp : pa.priorityMap p = none) (ht : t ≤ cfg.PolicyTopPriority + 1) (htg : g + 1 ≤ t)
    (hgb : cfg.PolicyBottomPriority ≤ g) (hfree : pa.ofPriorityMap g = none)
    (hocc : ∀ m, g < m → m + 1 ≤ t → (pa.ofPriorityMap m).isSome) (hsep : pa.Separates p t) :
    Inserted cfg pa p (pa.siftDown t g p).assigner := by
  obtain ⟨hwf', hcl⟩ := siftDown_spec hwf hp htg hfree hocc
  have hsrc : ∀ n, n ≠ t - 1 → (pa.siftDown t g p).assigner.ofPriorityMap n =
      pa.ofPriorityMap (if g ≤ n ∧ n + 1 < t then n + 1 else n) := fun n hn => by
    rw [hcl n, if_neg (by omega)]
    split_ifs <;> rfl
  have htp : (pa.siftDown t g p).assigner.ofPriorityMap (t - 1) = some p := by
    rw [hcl (t - 1), if_pos (by omega)]
  have hmem : ∀ n, ((pa.siftDown t g p).assigner.ofPriorityMap n).isSome ↔
      (pa.ofPriorityMap n).isSome ∨ n = g := fun n => by
    by_cases hn : n = t - 1
    · subst hn
      rw [htp]
      by_cases hng : t - 1 = g
      · simp [hng]
      · simp [hocc (t - 1) (by omega) (by omega)]
    · rw [hcl n, if_neg (by omega)]
      by_cases h1 : g ≤ n ∧ n + 1 < t
      · rw [if_pos h1]
        have h2 := hocc (n + 1) (by omega) (by omega)
        by_cases hng : n = g
        · simp [h2, hng.symm]
        · simp [h2, hocc n (by omega) (by omega)]
      · rw [if_neg h1]
        have hng : n ≠ g := by omega
        simp [hng]
  refine ⟨hwf', ordered_of_embedding _ hord hsep hsrc htp (fun a b ha hb' hab => ?_)
    (fun n hn => ?_) (fun n hn => ?_), fun n hn => ?_,
    length_of_mem_iff hwf hwf' hfree hmem,
    unassigned_of_embedding _ hwf hwf' hsrc htp (fun m hm => ?_)⟩
  · split_ifs <;> omega
  · split_ifs <;> omega
  · split_ifs <;> omega
  · rcases (hmem n).1 hn with h | h
    · exact hrange n h
    · subst h; exact ⟨hgb, by omega⟩
  · have hmg : m ≠ g := fun h => by rw [h, hfree] at hm; simp at hm
    by_cases h1 : g < m ∧ m + 1 ≤ t
    · exact ⟨m - 1, by omega, by rw [if_pos (by omega)]; omega⟩
    · exact ⟨m, by omega, by rw [if_neg (by omega)]⟩

/-- A successful `GetOFPriority` of a priority that is not assigned keeps the invariants and
assigns exactly that priority. -/
theorem GetOFPriority_inserted (cfg : AssignerConfig) {pa : priorityAssigner}
    (hwf : pa.WellFormed) (hord : pa.Ordered) (hrange : pa.InRange cfg) {p : Priority}
    (hp : pa.priorityMap p = none) {r : Assignment} (hr : pa.GetOFPriority cfg p = .ok r) :
    Inserted cfg pa p r.assigner := by
  have hsep := getInsertionPoint_separates cfg hwf hord hrange hp
  rcases GetOFPriority_cases cfg pa p hp with ⟨hocc, hb, htop, he⟩ | ⟨-, he⟩
  · rw [he] at hr
    cases hr
    exact inserted_direct cfg hwf hord hrange hp
      (getInsertionPoint_free cfg hwf hp hocc htop) hb htop hsep
  · rw [he] at hr
    rcases reassignPriorities_cases cfg pa (pa.getInsertionPoint cfg p).1 p with ⟨hr', -, -⟩ |
      ⟨g, hr', hb, htg, hgt, hfree, hoc⟩ | ⟨g, hr', ht, htg, hgb, hfree, hoc⟩
    · rw [hr'] at hr; cases hr
    · rw [hr'] at hr; cases hr
      exact inserted_siftUp cfg hwf hord hrange hp hb htg hgt hfree hoc hsep
    · rw [hr'] at hr; cases hr
      exact inserted_siftDown cfg hwf hord hrange hp ht htg hgb hfree hoc hsep

/-- The three invariants after a successful `GetOFPriority`, for any priority. -/
theorem GetOFPriority_invariants (cfg : AssignerConfig) {pa : priorityAssigner}
    (hwf : pa.WellFormed) (hord : pa.Ordered) (hrange : pa.InRange cfg) {p : Priority}
    {r : Assignment} (hr : pa.GetOFPriority cfg p = .ok r) :
    r.assigner.WellFormed ∧ r.assigner.Ordered ∧ r.assigner.InRange cfg := by
  cases hp : pa.priorityMap p with
  | none =>
    have h := GetOFPriority_inserted cfg hwf hord hrange hp hr
    exact ⟨h.wellFormed, h.ordered, h.inRange⟩
  | some n =>
    simp only [priorityAssigner.GetOFPriority, hp] at hr
    cases hr
    exact ⟨hwf, hord, hrange⟩

theorem RegisterPriorities_invariants (cfg : AssignerConfig) (batch : List Priority) :
    ∀ {pa pa' : priorityAssigner}, pa.WellFormed → pa.Ordered → pa.InRange cfg →
    pa.RegisterPriorities cfg batch = .ok pa' →
    pa'.WellFormed ∧ pa'.Ordered ∧ pa'.InRange cfg := by
  induction batch with
  | nil =>
    intro pa pa' hwf hord hrange h
    simp only [priorityAssigner.RegisterPriorities] at h
    cases h
    exact ⟨hwf, hord, hrange⟩
  | cons p rest ih =>
    intro pa pa' hwf hord hrange h
    simp only [priorityAssigner.RegisterPriorities] at h
    cases hr : pa.GetOFPriority cfg p with
    | error e => rw [hr] at h; cases h
    | ok r =>
      rw [hr] at h
      obtain ⟨h1, h2, h3⟩ := GetOFPriority_invariants cfg hwf hord hrange hr
      exact ih h1 h2 h3 h

theorem Release_invariants (cfg : AssignerConfig) {pa : priorityAssigner}
    (hwf : pa.WellFormed) (hord : pa.Ordered) (hrange : pa.InRange cfg) (n : Nat) :
    (pa.Release n).WellFormed ∧ (pa.Release n).Ordered ∧ (pa.Release n).InRange cfg := by
  have hsub : ∀ m q, (pa.Release n).ofPriorityMap m = some q → pa.ofPriorityMap m = some q := by
    intro m q hq
    rw [Release_ofPriorityMap] at hq
    by_cases hm : m = n
    · subst hm; simp at hq
    · rwa [Function.update_noteq hm] at hq
  refine ⟨hwf.Release n, fun a b q r hq hr hab => hord a b q r (hsub a q hq) (hsub b r hr) hab,
    fun m hm => ?_⟩
  obtain ⟨q, hq⟩ := Option.isSome_iff_exists.1 hm
  exact hrange m (by rw [hsub m q hq]; rfl)

/-- Every reachable assigner satisfies the three invariants. -/
theorem Reachable.invariants {cfg : AssignerConfig} {pa : priorityAssigner}
    (h : Reachable cfg pa) : pa.WellFormed ∧ pa.Ordered ∧ pa.InRange cfg := by
  induction h with
  | init =>
    exact ⟨WellFormed_new, fun a b q r hq => by simp [newPriorityAssigner] at hq,
      fun n hn => by simp [newPriorityAssigner] at hn⟩
  | registerPriorities batch _ hreg ih =>
    exact RegisterPriorities_invariants cfg batch ih.1 ih.2.1 ih.2.2 hreg
  | getOFPriority p r _ hget ih => exact GetOFPriority_invariants cfg ih.1 ih.2.1 ih.2.2 hget
  | release n _ ih => exact Release_invariants cfg ih.1 ih.2.1 ih.2.2 n

/-! ## Priority assigner: order of the assigned priorities -/

theorem reachable_registered (cfg : AssignerConfig) (batch : List Priority) :
    Reachable cfg (registered cfg batch) := by
  unfold registered
  cases h : newPriorityAssigner.RegisterPriorities cfg batch with
  | error e => exact Reachable.init
  | ok pa => exact Reachable.registerPriorities batch Reachable.init h

/-- C4 (as stated, refuted): after registering `p110` and `p1120` with the seed 10000, as in the
case "stepped-on-toes-lower" of `TestGetInsertionPoint`, `p110` is lexicographically smaller
than `p1120` and holds the greater numeric priority. -/
theorem order_not_preserved_as_stated :
    Reachable (seedConfig 10000) (registered (seedConfig 10000) [p110, p1120]) ∧
    (registered (seedConfig 10000) [p110, p1120]).priorityMap p110 = some 10000 ∧
    (registered (seedConfig 10000) [p110, p1120]).priorityMap p1120 = some 9999 ∧
    p110.lexLt p1120 ∧
    ¬ (registered (seedConfig 10000) [p110, p1120]).OrderPreservedAsStated := by
  have h1 : (registered (seedConfig 10000) [p110, p1120]).priorityMap p110 = some 10000 := by
    decide!
  have h2 : (registered (seedConfig 10000) [p110, p1120]).priorityMap p1120 = some 9999 := by
    decide!
  have h3 : p110.lexLt p1120 := by decide!
  refine ⟨reachable_registered _ _, h1, h2, h3, fun h => ?_⟩
  have := (h p110 p1120 10000 9999 h1 h2).1 h3
  omega

/-- C4 (amended): in every assigner state reachable from the empty assigner by
`RegisterPriorities`, `GetOFPriority` and `Release`, for any two assigned logical priorities
`p` and `q`: `p < q` in the lexicographic order if and only if
`priorityMap[q] < priorityMap[p]`. -/
theorem reachable_order_reversed (cfg : AssignerConfig) (pa : priorityAssigner)
    (p q : Priority) (a b : Nat) (h : Reachable cfg pa) (hp : pa.priorityMap p = some a)
    (hq : pa.priorityMap q = some b) : p.lexLt q ↔ b < a := by
  obtain ⟨hwf, hord, -⟩ := h.invariants
  have hoa := (hwf.inverse p a).1 hp
  have hob := (hwf.inverse q b).1 hq
  constructor
  · intro hlt
    rcases Nat.lt_trichotomy a b with hab | hab | hab
    · exact absurd (hord a b p q hoa hob hab) (Priority.lexLt_asymm hlt)
    · subst hab
      rw [hoa] at hob
      cases hob
      exact absurd hlt (Priority.lexLt_irrefl p)
    · exact hab
  · intro hba
    exact hord b a q p hob hoa hba

/-- C4 (amended), witness: the two priorities of the counterexample. -/
theorem reachable_order_reversed_witness :
    Reachable (seedConfig 10000) (registered (seedConfig 10000) [p110, p1120]) ∧
    (registered (seedConfig 10000) [p110, p1120]).priorityMap p110 = some 10000 ∧
    (registered (seedConfig 10000) [p110, p1120]).priorityMap p1120 = some 9999 ∧
    (p110.lexLt p1120 ↔ 9999 < 10000) :=
  ⟨reachable_registered _ _, by decide!, by decide!,
    reachable_order_reversed (seedConfig 10000) (registered (seedConfig 10000) [p110, p1120])
      p110 p1120 10000 9999 (reachable_registered _ _) (by decide!) (by decide!)⟩

/-! ## Priority assigner: capacity -/

theorem mem_range_capacity (cfg : AssignerConfig)
    (hBT : cfg.PolicyBottomPriority ≤ cfg.PolicyTopPriority) (n : Nat) :
    n ∈ List.range' cfg.PolicyBottomPriority cfg.capacity ↔
      cfg.PolicyBottomPriority ≤ n ∧ n ≤ cfg.PolicyTopPriority := by
  simp only [List.mem_range'_1, AssignerConfig.capacity]
  omega

/-- Below capacity, a numeric priority of the range is free. -/
theorem exists_free_of_length_lt (cfg : AssignerConfig) {pa : priorityAssigner}
    (hwf : pa.WellFormed) (hBT : cfg.PolicyBottomPriority ≤ cfg.PolicyTopPriority)
    (hlen : pa.sortedOFPriorities.length < cfg.capacity) :
    ∃ n, cfg.PolicyBottomPriority ≤ n ∧ n ≤ cfg.PolicyTopPriority ∧
      pa.ofPriorityMap n = none := by
  by_contra hcon
  have hsub : List.range' cfg.PolicyBottomPriority cfg.capacity ⊆ pa.sortedOFPriorities := by
    intro n hn
    rw [mem_range_capacity cfg hBT] at hn
    rw [hwf.mem]
    cases hq : pa.ofPriorityMap n with
    | none => exact absurd ⟨n, hn.1, hn.2, hq⟩ hcon
    | some q => rfl
  have := (List.subperm_of_subset (List.nodup_range' _ _) hsub).length_le
  rw [List.length_range'] at this
  omega

/-- At capacity, every numeric priority of the range is in use. -/
theorem full_of_length_eq (cfg : AssignerConfig) {pa : priorityAssigner}
    (hwf : pa.WellFormed) (hrange : pa.InRange cfg)
    (hBT : cfg.PolicyBottomPriority ≤ cfg.PolicyTopPriority)
    (hlen : pa.sortedOFPriorities.length = cfg.capacity) (n : Nat)
    (hb : cfg.PolicyBottomPriority ≤ n) (ht : n ≤ cfg.PolicyTopPriority) :
    (pa.ofPriorityMap n).isSome := by
  have hsub : pa.sortedOFPriorities ⊆ List.range' cfg.PolicyBottomPriority cfg.capacity := by
    intro m hm
    rw [mem_range_capacity cfg hBT]
    exact hrange m ((hwf.mem m).1 hm)
  have hsp := List.subperm_of_subset hwf.sorted.nodup hsub
  have hperm := hsp.perm_of_length_le (by rw [List.length_range', hlen])
  rw [← hwf.mem]
  exact hperm.mem_iff.2 ((mem_range_capacity cfg hBT n).2 ⟨hb, ht⟩)

/-- While a numeric priority of the range is free, `GetOFPriority` succeeds. -/
theorem GetOFPriority_succeeds (cfg : AssignerConfig) {pa : priorityAssigner}
    (hwf : pa.WellFormed) (hrange : pa.InRange cfg) (hseed : cfg.SeedInRange) {p : Priority}
    (hp : pa.priorityMap p = none)
    (hfree : ∃ n, cfg.PolicyBottomPriority ≤ n ∧ n ≤ cfg.PolicyTopPriority ∧
      pa.ofPriorityMap n = none) :
    ∃ r, pa.GetOFPriority cfg p = .ok r := by
  rcases GetOFPriority_cases cfg pa p hp with ⟨-, -, -, he⟩ | ⟨-, he⟩
  · exact ⟨_, he⟩
  · rw [he]
    obtain ⟨hb, ht⟩ := getInsertionPoint_bounds cfg hwf hrange hseed hp
    rcases reassignPriorities_cases cfg pa (pa.getInsertionPoint cfg p).1 p with
      ⟨-, hup, hdown⟩ | ⟨g, hr, -⟩ | ⟨g, hr, -⟩
    · exfalso
      obtain ⟨n, hn1, hn2, hn3⟩ := hfree
      by_cases hcmp : (pa.getInsertionPoint cfg p).1 ≤ n
      · have := hup hb n hcmp hn2
        rw [hn3] at this; simp at this
      · have := hdown ht n hn1 (by omega)
        rw [hn3] at this; simp at this
    · exact ⟨_, hr⟩
    · exact ⟨_, hr⟩

/-- When every numeric priority of the range is in use, `GetOFPriority` of a priority that is
not assigned fails with `OutOfSpace`. -/
theorem GetOFPriority_full (cfg : AssignerConfig) {pa : priorityAssigner}
    (hwf : pa.WellFormed) {p : Priority} (hp : pa.priorityMap p = none)
    (hfull : ∀ n, cfg.PolicyBottomPriority ≤ n → n ≤ cfg.PolicyTopPriority →
      (pa.ofPriorityMap n).isSome) :
    pa.GetOFPriority cfg p = .error .OutOfSpace := by
  rcases GetOFPriority_cases cfg pa p hp with ⟨hocc, hb, ht, -⟩ | ⟨-, he⟩
  · have h1 := getInsertionPoint_free cfg hwf hp hocc ht
    have h2 := hfull _ hb ht
    rw [h1] at h2; simp at h2
  · rw [he]
    rcases reassignPriorities_cases cfg pa (pa.getInsertionPoint cfg p).1 p with
      ⟨hr, -, -⟩ | ⟨g, -, hb, htg, hgt, hfree, -⟩ | ⟨g, -, ht, htg, hgb, hfree, -⟩
    · exact hr
    · have h2 := hfull g (by omega) hgt
      rw [hfree] at h2; simp at h2
    · have h2 := hfull g hgb (by omega)
      rw [hfree] at h2; simp at h2

theorem RegisterPriorities_succeeds (cfg : AssignerConfig)
    (hBT : cfg.PolicyBottomPriority ≤ cfg.PolicyTopPriority) (hseed : cfg.SeedInRange)
    (batch : List Priority) : ∀ {pa : priorityAssigner}, pa.WellFormed → pa.Ordered →
    pa.InRange cfg → batch.Nodup → (∀ p ∈ batch, pa.priorityMap p = none) →
    pa.sortedOFPriorities.length + batch.length ≤ cfg.capacity →
    ∃ pa', pa.RegisterPriorities cfg batch = .ok pa' ∧
      pa'.sortedOFPriorities.length = pa.sortedOFPriorities.length + batch.length ∧
      pa'.WellFormed ∧ pa'.InRange cfg := by
  induction batch with
  | nil =>
    intro pa hwf _ hrange _ _ _
    exact ⟨pa, rfl, by simp, hwf, hrange⟩
  | cons p rest ih =>
    intro pa hwf hord hrange hnd hun hlen
    obtain ⟨hpn, hnd'⟩ := List.nodup_cons.1 hnd
    have hp := hun p (List.mem_cons_self _ _)
    simp only [List.length_cons] at hlen
    obtain ⟨r, hr⟩ := GetOFPriority_succeeds cfg hwf hrange hseed hp
      (exists_free_of_length_lt cfg hwf hBT (by omega))
    have hins := GetOFPriority_inserted cfg hwf hord hrange hp hr
    obtain ⟨pa', hreg, hl, hwf', hrange'⟩ := ih hins.wellFormed hins.ordered hins.inRange hnd'
      (fun q hq => (hins.unassigned q).2
        ⟨hun q (List.mem_cons_of_mem _ hq), fun h => hpn (h ▸ hq)⟩)
      (by rw [hins.length]; omega)
    refine ⟨pa', ?_, ?_, hwf', hrange'⟩
    · simp only [priorityAssigner.RegisterPriorities, hr]
      exact hreg
    · rw [hl, hins.length, List.length_cons]; omega

/-- C6: starting from an empty assigner, `RegisterPriorities` on a batch of exactly `capacity`
distinct logical priorities succeeds; in the resulting state `GetOFPriority` of any priority
that is not assigned returns `OutOfSpace` and leaves the assigner unchanged. -/
theorem register_capacity_then_out_of_space (cfg : AssignerConfig) (batch : List Priority)
    (hBT : cfg.PolicyBottomPriority ≤ cfg.PolicyTopPriority) (hseed : cfg.SeedInRange)
    (hnd : batch.Nodup) (hlen : batch.length = cfg.capacity) :
    ∃ pa, newPriorityAssigner.RegisterPriorities cfg batch = .ok pa ∧
      ∀ p, pa.priorityMap p = none →
        pa.GetOFPriority cfg p = .error .OutOfSpace ∧
        assignerAfter pa (pa.GetOFPriority cfg p) = pa := by
  obtain ⟨hwf0, hord0, hrange0⟩ := (@Reachable.init cfg).invariants
  obtain ⟨pa, hreg, hl, hwf, hrange⟩ := RegisterPriorities_succeeds cfg hBT hseed batch hwf0
    hord0 hrange0 hnd (fun p _ => rfl) (by simp [newPriorityAssigner, hlen])
  refine ⟨pa, hreg, fun p hp => ?_⟩
  have hfull := full_of_length_eq cfg hwf hrange hBT
    (by rw [hl, hlen]; simp [newPriorityAssigner])
  have herr := GetOFPriority_full cfg hwf hp hfull
  exact ⟨herr, by rw [herr]; rfl⟩

theorem smallConfig_seedInRange : smallConfig.SeedInRange := fun _ _ => by
  simp [smallConfig]

/-- C6, witness: a range of three numeric priorities and a batch of three priorities. -/
theorem register_capacity_then_out_of_space_witness :
    smallConfig.PolicyBottomPriority ≤ smallConfig.PolicyTopPriority ∧
    smallConfig.SeedInRange ∧ [p110, p1120, p1121].Nodup ∧
    [p110, p1120, p1121].length = smallConfig.capacity ∧
    ∃ pa, newPriorityAssigner.RegisterPriorities smallConfig [p110, p1120, p1121] = .ok pa ∧
      ∀ p, pa.priorityMap p = none →
        pa.GetOFPriority smallConfig p = .error .OutOfSpace ∧
        assignerAfter pa (pa.GetOFPriority smallConfig p) = pa :=
  ⟨by decide, smallConfig_seedInRange, by decide!, by decide,
    register_capacity_then_out_of_space smallConfig [p110, p1120, p1121] (by decide)
      smallConfig_seedInRange (by decide!) (by decide)⟩

/-! ## syncProxyRules before the trackers are synced -/

/-- C8: when the Endpoints tracker or the Service tracker is not synced, `syncProxyRules` returns
without issuing any call to the OpenFlow client, without touching either change tracker, and
leaves `serviceMap`, `endpointsMap`, `serviceInstalledMap`, `endpointInstalledMap` and
`serviceStringMap` unchanged. -/
theorem syncProxyRules_not_initialized {τE τS : Type} (ops : ChangeTrackers τE τS)
    (c : OFClient) (equal : ServiceInfo → ServiceInfo → Bool)
    (rangeInstalled rangeServices : Proxier → List ServicePortName) (s : SyncState τE τS)
    (h : ops.endpointsSynced s.endpointsChanges = false ∨
      ops.serviceSynced s.serviceChanges = false) :
    (syncProxyRules ops c equal rangeInstalled rangeServices s).panicked = false ∧
    newEvents s.proxier
      (syncProxyRules ops c equal rangeInstalled rangeServices s).state.proxier = [] ∧
    (syncProxyRules ops c equal rangeInstalled rangeServices s).state.endpointsChanges =
      s.endpointsChanges ∧
    (syncProxyRules ops c equal rangeInstalled rangeServices s).state.serviceChanges =
      s.serviceChanges ∧
    (syncProxyRules ops c equal rangeInstalled rangeServices s).state.proxier.serviceMap =
      s.proxier.serviceMap ∧
    (syncProxyRules ops c equal rangeInstalled rangeServices s).state.proxier.endpointsMap =
      s.proxier.endpointsMap ∧
    (syncProxyRules ops c equal rangeInstalled rangeServices s).state.proxier.serviceInstalledMap
      = s.proxier.serviceInstalledMap ∧
    (syncProxyRules ops c equal rangeInstalled rangeServices s).state.proxier.endpointInstalledMap
      = s.proxier.endpointInstalledMap ∧
    (syncProxyRules ops c equal rangeInstalled rangeServices s).state.proxier.serviceStringMap
      = s.proxier.serviceStringMap := by
  have hinit : isInitialized ops s = false := by
    unfold isInitialized
    rcases h with h | h <;> simp [h]
  have hres : syncProxyRules ops c equal rangeInstalled rangeServices s =
      { state := s, panicked := false } := by
    unfold syncProxyRules
    simp [hinit]
  rw [hres]
  exact ⟨rfl, by simp [newEvents], rfl, rfl, rfl, rfl, rfl, rfl, rfl⟩

/-- C8, witness: a new service is pending, the Service tracker is synced and the Endpoints
tracker is not. -/
theorem syncProxyRules_not_initialized_witness :
    (flagTrackers.endpointsSynced false = false ∨ flagTrackers.serviceSynced true = false) ∧
    newEvents freshState
      (syncProxyRules flagTrackers okClient equalAll (fun _ => []) (fun _ => [svcB])
        { proxier := freshState, endpointsChanges := false, serviceChanges := true }).state.proxier
      = [] :=
  ⟨Or.inl rfl,
    (syncProxyRules_not_initialized flagTrackers okClient equalAll (fun _ => [])
      (fun _ => [svcB])
      { proxier := freshState, endpointsChanges := false, serviceChanges := true }
      (Or.inl rfl)).2.1⟩

/-! ## installServices: a service that gains an endpoint -/

theorem eventsFor_append (svc : ServicePortName) (l1 l2 : List OFEvent) :
    eventsFor svc (l1 ++ l2) = eventsFor svc l1 ++ eventsFor svc l2 := by
  simp [eventsFor]

theorem eventsFor_eq_nil {svc : ServicePortName} {l : List OFEvent}
    (h : ∀ e ∈ l, e.svc ≠ svc) : eventsFor svc l = [] := by
  simp only [eventsFor, List.filter_eq_nil_iff]
  intro e he
  simpa using h e he

theorem eventsFor_eq_self {svc : ServicePortName} {l : List OFEvent}
    (h : ∀ e ∈ l, e.svc = svc) : eventsFor svc l = l := by
  simp only [eventsFor, List.filter_eq_self]
  intro e he
  simpa using h e he

/-- A run over services none of which has a nil set in `endpointInstalledMap` returns. -/
theorem installServices_returns (c : OFClient) (equal : ServiceInfo → ServiceInfo → Bool)
    (order : List ServicePortName) : ∀ (p : Proxier), order.Nodup →
    (∀ k ∈ order, p.endpointInstalledMap k ≠ some none) →
    ∃ q, installServices c equal p order = .returned q := by
  induction order with
  | nil => intro p _ _; exact ⟨p, rfl⟩
  | cons k rest ih =>
    intro p hnd hnil
    obtain ⟨hk, hnd'⟩ := List.nodup_cons.1 hnd
    have hstep := installService_frame c equal (fun j => j = k) p k rfl
    simp only [installServices]
    cases hr : installService c equal p k with
    | panicked p1 =>
      exfalso
      cases hsi : p.serviceMap k with
      | none => simp [installService, hsi] at hr
      | some si =>
        rcases installService_cases c equal p k si hsi with ⟨-, h⟩ | ⟨eps, -, -, hn, -⟩ |
          ⟨eps, m, -, -, -, -, h⟩ | ⟨eps, m, -, -, -, -, h⟩
        · rw [h] at hr; cases hr
        · exact hnil k (List.mem_cons_self _ _) hn
        · rw [h] at hr; cases hr
        · rw [h] at hr; cases hr
    | returned p1 =>
      rw [hr] at hstep
      refine ih p1 hnd' (fun j hj => ?_)
      have hj' := hstep.endpointInstalled j (fun h => hk (h ▸ hj))
      simp only [Run.state] at hj'
      rw [hj']
      exact hnil j (List.mem_cons_of_mem _ hj)

/-- A run that cannot panic reaches `svc` in a state `p0` and afterwards leaves what the
iteration of `svc` did untouched. -/
theorem installServices_reaches (c : OFClient) (equal : ServiceInfo → ServiceInfo → Bool)
    (order : List ServicePortName) (p : Proxier) (svc : ServicePortName)
    (hnd : order.Nodup) (hmem : svc ∈ order)
    (hnil : ∀ k ∈ order, p.endpointInstalledMap k ≠ some none) :
    ∃ p0, InstallFrame (fun j => j ∈ order ∧ j ≠ svc) p p0 ∧
      InstallFrame (fun j => j ∈ order ∧ j ≠ svc) (installService c equal p0 svc).state
        (installServices c equal p order).state := by
  obtain ⟨pre, post, rfl⟩ := List.append_of_mem hmem
  have hpre : svc ∉ pre := fun h =>
    (List.nodup_append.1 hnd).2.2 h (List.mem_cons_self _ _)
  have hpost : svc ∉ post := (List.nodup_cons.1 (List.nodup_append.1 hnd).2.1).1
  have hPre : ∀ k ∈ pre, (fun j => j ∈ pre ++ svc :: post ∧ j ≠ svc) k := fun k hk =>
    ⟨List.mem_append_left _ hk, fun h => hpre (h ▸ hk)⟩
  have hPost : ∀ k ∈ post, (fun j => j ∈ pre ++ svc :: post ∧ j ≠ svc) k := fun k hk =>
    ⟨List.mem_append_right _ (List.mem_cons_of_mem _ hk), fun h => hpost (h ▸ hk)⟩
  have h1 := installServices_frame c equal _ pre p hPre
  obtain ⟨q, hq⟩ := installServices_returns c equal pre p (List.nodup_append.1 hnd).1
    (fun k hk => hnil k (List.mem_append_left _ hk))
  rw [installServices_append, hq]
  rw [hq] at h1
  refine ⟨q, h1, ?_⟩
  simp only [installServices]
  cases hs : installService c equal q svc with
  | panicked q1 => exact InstallFrame.refl _ _
  | returned q1 => exact installServices_frame c equal _ post q1 hPost

/-- C9 (as stated, refuted): `svcA` is installed with an Equal `ServiceInfo`, `ep0` is recorded
and `ep1` is new; every call succeeds.  `installServices` calls `InstallEndpointFlows` with both
endpoints, not only with the new one, and it calls `InstallServiceFlows` for the service. -/
theorem installServices_new_endpoint_reinstalls :
    grownState.serviceInstalledMap svcA = some infoPlain ∧
    grownState.serviceMap svcA = some infoPlain ∧
    equalAll infoPlain infoPlain = true ∧
    endpointRecorded grownState svcA ep0 ∧ ¬ endpointRecorded grownState svcA ep1 ∧
    grownState.endpointsMap svcA = some [ep0, ep1] ∧
    newEvents grownState (installServices okClient equalAll grownState [svcA]).state =
      [{ svc := svcA, call := .InstallEndpointFlows .TCP [ep0, ep1], ok := true },
       { svc := svcA, call := .InstallServiceGroup 1 false [ep0, ep1], ok := true },
       { svc := svcA, call := .InstallServiceFlows 1 "10.0.0.1" 80 .TCP 0, ok := true }] := by
  refine ⟨by decide, by decide, by decide, ⟨_, rfl, by decide⟩, ?_, by decide, by decide⟩
  rintro ⟨m, hm, hmem⟩
  have : m = {ep0.String} := by
    have h : grownState.endpointInstalledMap svcA = some (some {ep0.String}) := rfl
    rw [h] at hm
    exact (Option.some.inj (Option.some.inj hm)).symm
  subst this
  revert hmem
  decide

/-- C9 (amended): when `svc` is installed with a `ServiceInfo` Equal to the desired one, its set
in `endpointInstalledMap` is a non-nil map and one desired endpoint is not recorded in it, and
no visited service has a nil set (so that the run does not panic), the calls that
`installServices` issues for `svc` are `InstallEndpointFlows` exactly once, with the list of all
desired endpoints of the service, then `InstallServiceGroup` when that succeeded, then
`InstallServiceFlows` when both succeeded (followed by the calls for the ingress addresses when
it succeeded too): the service flows are installed again. -/
theorem installServices_new_endpoint_calls (c : OFClient)
    (equal : ServiceInfo → ServiceInfo → Bool) (p : Proxier) (order : List ServicePortName)
    (svc : ServicePortName) (svcInfo installed : ServiceInfo) (eps : List Endpoint)
    (m : Finset String) (enew : Endpoint)
    (hnd : order.Nodup) (hmem : svc ∈ order)
    (hnil : ∀ k ∈ order, p.endpointInstalledMap k ≠ some none)
    (hsvc : p.serviceMap svc = some svcInfo)
    (_hinst : p.serviceInstalledMap svc = some installed)
    (_hequal : equal installed svcInfo = true)
    (heps : p.endpointsMap svc = some eps)
    (hrec : p.endpointInstalledMap svc = some (some m))
    (hnew : enew ∈ eps) (hnotrec : enew.String ∉ m) :
    ∃ g, ∃ own,
      eventsFor svc (newEvents p (installServices c equal p order).state) = own ∧
      (own = [installEndpointFlowsEvent svc svcInfo eps false] ∨
       own = [installEndpointFlowsEvent svc svcInfo eps true,
              installServiceGroupEvent svc svcInfo g eps false] ∨
       own = [installEndpointFlowsEvent svc svcInfo eps true,
              installServiceGroupEvent svc svcInfo g eps true,
              installServiceFlowsEvent svc svcInfo g false] ∨
       ∃ lb : List OFEvent,
        (∀ e ∈ lb, e.svc = svc ∧ e.call.isInstallLoadBalancerServiceFlows = true) ∧
        own = [installEndpointFlowsEvent svc svcInfo eps true,
               installServiceGroupEvent svc svcInfo g eps true,
               installServiceFlowsEvent svc svcInfo g true] ++ lb) := by
  have hself : ¬ (fun j => j ∈ order ∧ j ≠ svc) svc := fun h => h.2 rfl
  obtain ⟨p0, hF1, hF2⟩ := installServices_reaches c equal order p svc hnd hmem hnil
  have hsvc0 : p0.serviceMap svc = some svcInfo := by rw [hF1.serviceMap]; exact hsvc
  have heps0 : p0.endpointsMap svc = some eps := by rw [hF1.endpointsMap]; exact heps
  have hrec0 : p0.endpointInstalledMap svc = some (some m) := by
    rw [hF1.endpointInstalled svc hself]; exact hrec
  have hN : needsUpdate equal p0 svc svcInfo eps :=
    Or.inr ⟨enew, hnew, fun ⟨m', hm', hin⟩ => by
      rw [hrec0] at hm'
      cases hm'
      exact hnotrec hin⟩
  have hne : eps ≠ [] := List.ne_nil_of_mem hnew
  obtain ⟨n1, hn1, ht1⟩ := hF1.log
  obtain ⟨n2, hn2, ht2⟩ := hF2.log
  have hkey : ∀ own : List OFEvent, (∀ e ∈ own, e.svc = svc) →
      (installService c equal p0 svc).state.ofLog = p0.ofLog ++ own →
      eventsFor svc (newEvents p (installServices c equal p order).state) = own := by
    intro own htag hown
    have hlog : (installServices c equal p order).state.ofLog =
        p.ofLog ++ (n1 ++ (own ++ n2)) := by rw [hn2, hown, hn1]; simp
    rw [newEvents_of_append hlog, eventsFor_append, eventsFor_append,
      eventsFor_eq_nil (fun e he => (ht1 e he).2), eventsFor_eq_nil (fun e he => (ht2 e he).2),
      eventsFor_eq_self htag]
    simp
  refine ⟨(p0.groupCounter.Get svc).1, ?_⟩
  rcases installService_cases c equal p0 svc svcInfo hsvc0 with ⟨h1 | h1, -⟩ |
    ⟨eps', h1, -, h2, -⟩ | ⟨eps', m', h1, -, -, h2, -⟩ | ⟨eps', m', h1, -, -, -, hr⟩
  · rw [heps0] at h1; cases h1
  · rw [heps0] at h1; cases h1; exact absurd rfl hne
  · rw [hrec0] at h2; cases h2
  · rw [heps0] at h1; cases h1; exact absurd hN h2
  · rw [heps0] at h1
    cases h1
    rcases programService_cases c
      ((p0.withGroupCounter (p0.groupCounter.Get svc).2).withEndpointInstalled svc
        (some (some (m' ∪ (eps.map Endpoint.String).toFinset)))) svc svcInfo
      (p0.groupCounter.Get svc).1 eps with hq | hq | hq | ⟨lb, hlb, hq⟩
    · refine ⟨_, hkey _ ?_ (by rw [hr, hq]; rfl), Or.inl rfl⟩
      simp [installEndpointFlowsEvent]
    · refine ⟨_, hkey _ ?_ (by rw [hr, hq]; rfl), Or.inr (Or.inl rfl)⟩
      simp [installEndpointFlowsEvent, installServiceGroupEvent]
    · refine ⟨_, hkey _ ?_ (by rw [hr, hq]; rfl), Or.inr (Or.inr (Or.inl rfl))⟩
      simp [installEndpointFlowsEvent, installServiceGroupEvent, installServiceFlowsEvent]
    · refine ⟨_, hkey _ ?_ (by rw [hr, hq]; rfl), Or.inr (Or.inr (Or.inr ⟨lb, hlb, rfl⟩))⟩
      intro e he
      simp only [List.cons_append, List.nil_append, List.mem_cons] at he
      rcases he with rfl | rfl | rfl | he
      · rfl
      · rfl
      · rfl
      · exact (hlb e he).1

/-! ## removeStaleServices: the order of the calls -/

theorem RemoveFrame.same (ks : ServicePortName → Prop) (p : Proxier) : RemoveFrame ks p p :=
  ⟨rfl, rfl, fun _ _ => rfl, fun _ h => h, fun _ _ => rfl, ⟨[], by simp, by simp⟩⟩

theorem RemoveFrame.andThen {ks : ServicePortName → Prop} {p q r : Proxier}
    (h1 : RemoveFrame ks p q) (h2 : RemoveFrame ks q r) : RemoveFrame ks p r := by
  obtain ⟨n1, hn1, ht1⟩ := h1.log
  obtain ⟨n2, hn2, ht2⟩ := h2.log
  refine ⟨h2.serviceMap.trans h1.serviceMap, h2.endpointsMap.trans h1.endpointsMap,
    fun j hj => (h2.installed j hj).trans (h1.installed j hj),
    fun s hs => h2.strings s (h1.strings s hs),
    fun j hj => (h2.groups j hj).trans (h1.groups j hj),
    ⟨n1 ++ n2, by rw [hn2, hn1, List.append_assoc], ?_⟩⟩
  intro e he
  rcases List.mem_append.1 he with h | h
  · exact ht1 e h
  · exact ht2 e h

theorem RemoveFrame.ofLogged (ks : ServicePortName → Prop) (p : Proxier) (l : List OFEvent)
    (hl : ∀ e ∈ l, ks e.svc) : RemoveFrame ks p (p.logged l) :=
  ⟨rfl, rfl, fun _ _ => rfl, fun _ h => h, fun _ _ => rfl, ⟨l, rfl, hl⟩⟩

theorem Get_groupMap_of_ne (g : GroupCounter) {j k : ServicePortName} (h : j ≠ k) :
    (g.Get k).2.groupMap j = g.groupMap j := by
  unfold GroupCounter.Get
  cases hk : g.groupMap k with
  | some id => rfl
  | none =>
    cases hr : g.recycled with
    | nil => simp [Function.update_noteq h]
    | cons id rest => simp [Function.update_noteq h]

theorem Recycle_groupMap_of_ne (g : GroupCounter) {j k : ServicePortName} (h : j ≠ k) :
    (g.Recycle k).groupMap j = g.groupMap j := by
  unfold GroupCounter.Recycle
  cases hk : g.groupMap k with
  | some id => simp [Function.update_noteq h]
  | none => rfl

theorem Recycle_groupMap_self (g : GroupCounter) (k : ServicePortName) :
    (g.Recycle k).groupMap k = none := by
  unfold GroupCounter.Recycle
  cases hk : g.groupMap k with
  | some id => simp
  | none => exact hk

theorem Get_fst_of_some (g : GroupCounter) {k : ServicePortName} {id : Nat}
    (h : g.groupMap k = some id) : (g.Get k).1 = id := by
  simp [GroupCounter.Get, h]

theorem uninstallIngressFlows_eq (c : OFClient) (k : ServicePortName) (si : ServiceInfo)
    (l : List String) : ∀ (p : Proxier), ∃ evs : List OFEvent, (∀ e ∈ evs, e.svc = k) ∧
      uninstallIngressFlows c k si p l = p.logged evs := by
  induction l with
  | nil => intro p; exact ⟨[], by simp, by simp [uninstallIngressFlows, Proxier.logged]⟩
  | cons a rest ih =>
    intro p
    by_cases ha : a = ""
    · simpa [uninstallIngressFlows, ha] using ih p
    · obtain ⟨evs, hevs, heq⟩ := ih (p.ofCall c k
        (.UninstallServiceFlows (ParseIP a) (uint16 si.Port) si.OFProtocol)).2
      refine ⟨⟨k, .UninstallServiceFlows (ParseIP a) (uint16 si.Port) si.OFProtocol,
        (p.ofCall c k (.UninstallServiceFlows (ParseIP a) (uint16 si.Port) si.OFProtocol)).1⟩
        :: evs, ?_, ?_⟩
      · intro e he
        rcases List.mem_cons.1 he with rfl | h
        · rfl
        · exact hevs e h
      · simp only [uninstallIngressFlows, ha, ne_eq, not_false_eq_true, if_true]
        rw [heq, ofCall_snd]
        simp [Proxier.logged]

theorem uninstallServiceEndpoints_eq (c : OFClient) (k : ServicePortName) (si : ServiceInfo)
    (l : List Endpoint) : ∀ (p : Proxier), ∃ evs : List OFEvent, (∀ e ∈ evs, e.svc = k) ∧
      uninstallServiceEndpoints c k si p l = p.logged evs := by
  induction l with
  | nil => intro p; exact ⟨[], by simp, by simp [uninstallServiceEndpoints, Proxier.logged]⟩
  | cons a rest ih =>
    intro p
    obtain ⟨evs, hevs, heq⟩ := ih (p.ofCall c k (.UninstallEndpointFlows si.OFProtocol a)).2
    refine ⟨⟨k, .UninstallEndpointFlows si.OFProtocol a,
      (p.ofCall c k (.UninstallEndpointFlows si.OFProtocol a)).1⟩ :: evs, ?_, ?_⟩
    · intro e he
      rcases List.mem_cons.1 he with rfl | h
      · rfl
      · exact hevs e h
    · simp only [uninstallServiceEndpoints]
      rw [heq, ofCall_snd]
      simp [Proxier.logged]

theorem removeServiceGroup_frame (c : OFClient) (ks : ServicePortName → Prop) (p : Proxier)
    (k : ServicePortName) (hk : ks k) (si : ServiceInfo) :
    RemoveFrame ks p (removeServiceGroup c p k si) := by
  have hne : ∀ j, ¬ ks j → j ≠ k := fun j hj h => hj (h ▸ hk)
  unfold removeServiceGroup
  simp only
  split
  · refine ⟨rfl, rfl, fun j hj => ?_, fun s hs => ?_, fun j hj => ?_, ⟨_, rfl, ?_⟩⟩
    · simp [Proxier.deleteServiceByIP, Proxier.ofCall, Function.update_noteq (hne j hj)]
    · simp only [Proxier.deleteServiceByIP, Proxier.ofCall]
      by_cases h : s = si.String
      · subst h; simp
      · simpa [Function.update_noteq h] using hs
    · simp only [Proxier.deleteServiceByIP, Proxier.ofCall]
      rw [Recycle_groupMap_of_ne _ (hne j hj), Get_groupMap_of_ne _ (hne j hj)]
    · simp [hk]
  · refine ⟨rfl, rfl, fun j _ => rfl, fun s hs => hs, fun j hj => ?_, ⟨_, rfl, ?_⟩⟩
    · simp only [Proxier.ofCall]
      exact Get_groupMap_of_ne _ (hne j hj)
    · simp [hk]

theorem removeStaleService_frame (c : OFClient) (ks : ServicePortName → Prop) (p : Proxier)
    (k : ServicePortName) (hk : ks k) : RemoveFrame ks p (removeStaleService c p k) := by
  unfold removeStaleService
  cases hsi : p.serviceInstalledMap k with
  | none => exact RemoveFrame.same ks p
  | some si =>
    simp only
    split
    · exact RemoveFrame.same ks p
    · split
      · obtain ⟨e1, he1, h1⟩ := uninstallIngressFlows_eq c k si si.LoadBalancerIPStrings
          (p.ofCall c k
            (.UninstallServiceFlows si.ClusterIP (uint16 si.Port) si.OFProtocol)).2
        rw [h1]
        obtain ⟨e2, he2, h2⟩ := uninstallServiceEndpoints_eq c k si
          ((((p.ofCall c k (.UninstallServiceFlows si.ClusterIP (uint16 si.Port)
            si.OFProtocol)).2.logged e1).endpointsMap k).getD [])
          ((p.ofCall c k (.UninstallServiceFlows si.ClusterIP (uint16 si.Port)
            si.OFProtocol)).2.logged e1)
        rw [h2]
        refine RemoveFrame.andThen ?_ (removeServiceGroup_frame c ks _ k hk si)
        rw [ofCall_snd]
        refine (RemoveFrame.andThen (q := p.logged _) (RemoveFrame.ofLogged ks p _ ?_)
          (RemoveFrame.ofLogged ks _ e1 (fun e he => by rw [he1 e he]; exact hk))).andThen
          (RemoveFrame.ofLogged ks _ e2 (fun e he => by rw [he2 e he]; exact hk))
        simp [hk]
      · rw [ofCall_snd]
        exact RemoveFrame.ofLogged ks p _ (by simp [hk])

theorem removeStaleServices_frame (c : OFClient) (ks : ServicePortName → Prop)
    (order : List ServicePortName) : ∀ (p : Proxier), (∀ k ∈ order, ks k) →
    RemoveFrame ks p (removeStaleServices c p order) := by
  induction order with
  | nil => intro p _; exact RemoveFrame.same ks p
  | cons k rest ih =>
    intro p hks
    simp only [removeStaleServices, List.foldl_cons]
    exact (removeStaleService_frame c ks p k (hks k (List.mem_cons_self _ _))).andThen
      (ih _ (fun j hj => hks j (List.mem_cons_of_mem _ hj)))

theorem ofCall_ok (c : OFClient) (hc : ∀ h call, c h call = true) (p : Proxier)
    (k : ServicePortName) (call : OFCall) :
    p.ofCall c k call = (true, p.logged [{ svc := k, call := call, ok := true }]) := by
  simp [Proxier.ofCall, Proxier.logged, hc]

theorem uninstallIngressFlows_ok (c : OFClient) (hc : ∀ h call, c h call = true)
    (k : ServicePortName) (si : ServiceInfo) (l : List String) : ∀ (p : Proxier),
    uninstallIngressFlows c k si p l =
      p.logged ((l.filter (fun i => decide (i ≠ ""))).map (fun i =>
        { svc := k, call := .UninstallServiceFlows (ParseIP i) (uint16 si.Port) si.OFProtocol,
          ok := true })) := by
  induction l with
  | nil => intro p; simp [uninstallIngressFlows, Proxier.logged]
  | cons a rest ih =>
    intro p
    by_cases ha : a = ""
    · simp [uninstallIngressFlows, ha, ih]
    · simp only [uninstallIngressFlows, ha, ne_eq, not_false_eq_true, if_true, ofCall_ok c hc,
        ih, logged_logged]
      simp [ha]

theorem uninstallServiceEndpoints_ok (c : OFClient) (hc : ∀ h call, c h call = true)
    (k : ServicePortName) (si : ServiceInfo) (l : List Endpoint) : ∀ (p : Proxier),
    uninstallServiceEndpoints c k si p l =
      p.logged (l.map (fun e =>
        { svc := k, call := .UninstallEndpointFlows si.OFProtocol e, ok := true })) := by
  induction l with
  | nil => intro p; simp [uninstallServiceEndpoints, Proxier.logged]
  | cons a rest ih =>
    intro p
    simp only [uninstallServiceEndpoints, ofCall_ok c hc, ih, logged_logged]
    simp

/-- The iteration of `removeStaleServices` for a stale service when every call succeeds. -/
theorem removeStaleService_ok (c : OFClient) (hc : ∀ h call, c h call = true) (p : Proxier)
    (k : ServicePortName) (si : ServiceInfo) (hinst : p.serviceInstalledMap k = some si)
    (hnot : p.serviceMap k = none) :
    removeStaleService c p k =
      ((p.logged (removalEvents k si si.LoadBalancerIPStrings ((p.endpointsMap k).getD [])
        (p.groupCounter.Get k).1)).withGroupCounter (p.groupCounter.Get k).2).withRemoved k si := by
  unfold removeStaleService
  simp only [hinst, hnot, Option.isSome_none, Bool.false_eq_true, if_false, ofCall_ok c hc,
    if_true, uninstallIngressFlows_ok c hc, uninstallServiceEndpoints_ok c hc, logged_logged]
  unfold removeServiceGroup
  simp only [ofCall_ok c hc, if_true]
  simp [Proxier.logged, Proxier.withRemoved, Proxier.withGroupCounter,
    Proxier.deleteServiceByIP, removalEvents]

/-- C10 (as stated, refuted): the stale service `svcA` has one ingress address and two
endpoints and every call succeeds; `removeStaleServices` uninstalls the service flows of the
ClusterIP and of the ingress address first and the endpoint flows after them. -/
theorem removeStaleServices_service_flows_first :
    staleState.serviceInstalledMap svcA = some infoLB ∧
    staleState.serviceMap svcA = none ∧
    staleState.endpointsMap svcA = some [ep0, ep1] ∧
    newEvents staleState (removeStaleServices okClient staleState [svcA]) =
      [{ svc := svcA, call := .UninstallServiceFlows "10.0.0.1" 80 .TCP, ok := true },
       { svc := svcA, call := .UninstallServiceFlows "192.0.2.1" 80 .TCP, ok := true },
       { svc := svcA, call := .UninstallEndpointFlows .TCP ep0, ok := true },
       { svc := svcA, call := .UninstallEndpointFlows .TCP ep1, ok := true },
       { svc := svcA, call := .UninstallServiceGroup 1, ok := true }] := by
  refine ⟨?_, ?_, ?_, ?_⟩ <;> decide

/-- C10 (amended): for an installed service that is absent from `serviceMap`, has one non-empty
LoadBalancer ingress address and at least one endpoint in `endpointsMap`, when every call
succeeds the calls that `removeStaleServices` issues for it are, in this order,
`UninstallServiceFlows` for the ClusterIP, `UninstallServiceFlows` for the ingress address,
`UninstallEndpointFlows` for each of its endpoints, and `UninstallServiceGroup` for its group
identifier; after the run the service is gone from `serviceInstalledMap`, its reverse-index
entry is deleted and its group identifier is released. -/
theorem removeStaleServices_call_order (c : OFClient) (p : Proxier)
    (order : List ServicePortName) (svc : ServicePortName) (svcInfo : ServiceInfo)
    (ingress : String) (eps : List Endpoint)
    (hc : ∀ h call, c h call = true) (hnd : order.Nodup) (hmem : svc ∈ order)
    (hinst : p.serviceInstalledMap svc = some svcInfo) (hnot : p.serviceMap svc = none)
    (hlb : svcInfo.LoadBalancerIPStrings = [ingress]) (hing : ingress ≠ "")
    (heps : p.endpointsMap svc = some eps) (_hne : eps ≠ []) :
    ∃ g, (∀ g0, p.groupCounter.groupMap svc = some g0 → g = g0) ∧
      eventsFor svc (newEvents p (removeStaleServices c p order)) =
        [{ svc := svc
           call := .UninstallServiceFlows svcInfo.ClusterIP (uint16 svcInfo.Port)
             svcInfo.OFProtocol
           ok := true },
         { svc := svc
           call := .UninstallServiceFlows (ParseIP ingress) (uint16 svcInfo.Port)
             svcInfo.OFProtocol
           ok := true }] ++
        eps.map (fun e =>
          { svc := svc, call := .UninstallEndpointFlows svcInfo.OFProtocol e, ok := true }) ++
        [{ svc := svc, call := .UninstallServiceGroup g, ok := true }] ∧
      (removeStaleServices c p order).serviceInstalledMap svc = none ∧
      (removeStaleServices c p order).serviceStringMap svcInfo.String = none ∧
      (removeStaleServices c p order).groupCounter.groupMap svc = none := by
  have hself : ¬ (fun j => j ∈ order ∧ j ≠ svc) svc := fun h => h.2 rfl
  obtain ⟨pre, post, rfl⟩ := List.append_of_mem hmem
  have hpre : svc ∉ pre := fun h =>
    (List.nodup_append.1 hnd).2.2 h (List.mem_cons_self _ _)
  have hpost : svc ∉ post := (List.nodup_cons.1 (List.nodup_append.1 hnd).2.1).1
  have hPre : ∀ k ∈ pre, (fun j => j ∈ pre ++ svc :: post ∧ j ≠ svc) k := fun k hk =>
    ⟨List.mem_append_left _ hk, fun h => hpre (h ▸ hk)⟩
  have hPost : ∀ k ∈ post, (fun j => j ∈ pre ++ svc :: post ∧ j ≠ svc) k := fun k hk =>
    ⟨List.mem_append_right _ (List.mem_cons_of_mem _ hk), fun h => hpost (h ▸ hk)⟩
  have hF1 := removeStaleServices_frame c _ pre p hPre
  have hF2 := removeStaleServices_frame c _ post
    (removeStaleService c (removeStaleServices c p pre) svc) hPost
  have hfinal : removeStaleServices c p (pre ++ svc :: post) =
      removeStaleServices c (removeStaleService c (removeStaleServices c p pre) svc) post := by
    simp [removeStaleServices, List.foldl_append]
  rw [hfinal]
  have hinst0 : (removeStaleServices c p pre).serviceInstalledMap svc = some svcInfo := by
    rw [hF1.installed svc hself]; exact hinst
  have hnot0 : (removeStaleServices c p pre).serviceMap svc = none := by
    rw [hF1.serviceMap]; exact hnot
  have heps0 : (removeStaleServices c p pre).endpointsMap svc = some eps := by
    rw [hF1.endpointsMap]; exact heps
  have hown := removeStaleService_ok c hc (removeStaleServices c p pre) svc svcInfo hinst0 hnot0
  rw [hown] at hF2 ⊢
  obtain ⟨n1, hn1, ht1⟩ := hF1.log
  obtain ⟨n2, hn2, ht2⟩ := hF2.log
  refine ⟨((removeStaleServices c p pre).groupCounter.Get svc).1, fun g0 hg0 => ?_, ?_, ?_, ?_, ?_⟩
  · exact Get_fst_of_some _ (by rw [hF1.groups svc hself]; exact hg0)
  · have hlog : (removeStaleServices c
        ((((removeStaleServices c p pre).logged (removalEvents svc svcInfo
          svcInfo.LoadBalancerIPStrings (((removeStaleServices c p pre).endpointsMap svc).getD [])
          ((removeStaleServices c p pre).groupCounter.Get svc).1)).withGroupCounter
          ((removeStaleServices c p pre).groupCounter.Get svc).2).withRemoved svc svcInfo)
        post).ofLog = p.ofLog ++ (n1 ++ (removalEvents svc svcInfo [ingress] eps
          ((removeStaleServices c p pre).groupCounter.Get svc).1 ++ n2)) := by
      rw [hn2]
      simp [Proxier.withRemoved, Proxier.withGroupCounter, Proxier.logged, hn1, heps0, hlb]
    rw [newEvents_of_append hlog, eventsFor_append, eventsFor_append,
      eventsFor_eq_nil (fun e he => (ht1 e he).2), eventsFor_eq_nil (fun e he => (ht2 e he).2),
      eventsFor_eq_self (by
        intro e he
        simp only [removalEvents, List.mem_append, List.mem_map, List.mem_singleton,
          List.mem_filter] at he
        rcases he with ((rfl | ⟨i, -, rfl⟩) | ⟨x, -, rfl⟩) | rfl <;> rfl)]
    simp [removalEvents, hing]
  · rw [hF2.installed svc hself]
    simp [Proxier.withRemoved]
  · exact hF2.strings _ (by simp [Proxier.withRemoved])
  · rw [hF2.groups svc hself]
    simp only [Proxier.withRemoved]
    exact Recycle_groupMap_self _ _

/-- C10 (amended), witness: the stale service of the counterexample. -/
theorem removeStaleServices_call_order_witness :
    (∀ h call, okClient h call = true) ∧ [svcA].Nodup ∧ svcA ∈ [svcA] ∧
    staleState.serviceInstalledMap svcA = some infoLB ∧ staleState.serviceMap svcA = none ∧
    infoLB.LoadBalancerIPStrings = ["192.0.2.1"] ∧ ("192.0.2.1" : String) ≠ "" ∧
    staleState.endpointsMap svcA = some [ep0, ep1] ∧ [ep0, ep1] ≠ [] ∧
    ∃ g, (∀ g0, staleState.groupCounter.groupMap svcA = some g0 → g = g0) ∧
      eventsFor svcA (newEvents staleState (removeStaleServices okClient staleState [svcA])) =
        [{ svc := svcA
           call := .UninstallServiceFlows infoLB.ClusterIP (uint16 infoLB.Port) infoLB.OFProtocol
           ok := true },
         { svc := svcA
           call := .UninstallServiceFlows (ParseIP "192.0.2.1") (uint16 infoLB.Port)
             infoLB.OFProtocol
           ok := true }] ++
        [ep0, ep1].map (fun e =>
          { svc := svcA, call := .UninstallEndpointFlows infoLB.OFProtocol e, ok := true }) ++
        [{ svc := svcA, call := .UninstallServiceGroup g, ok := true }] ∧
      (removeStaleServices okClient staleState [svcA]).serviceInstalledMap svcA = none ∧
      (removeStaleServices okClient staleState [svcA]).serviceStringMap infoLB.String = none ∧
      (removeStaleServices okClient staleState [svcA]).groupCounter.groupMap svcA = none :=
  ⟨fun _ _ => rfl, by decide, by decide, by decide, by decide, by decide, by decide, by decide,
    by decide,
    removeStaleServices_call_order okClient staleState [svcA] svcA infoLB "192.0.2.1" [ep0, ep1]
      (fun _ _ => rfl) (by decide) (by decide) (by decide) (by decide) (by decide) (by decide)
      (by decide) (by decide)⟩

/-- C9 (amended), witness: the service of the counterexample. -/
theorem installServices_new_endpoint_calls_witness :
    [svcA].Nodup ∧ svcA ∈ [svcA] ∧
    grownState.serviceMap svcA = some infoPlain ∧
    grownState.serviceInstalledMap svcA = some infoPlain ∧
    equalAll infoPlain infoPlain = true ∧
    grownState.endpointsMap svcA = some [ep0, ep1] ∧
    grownState.endpointInstalledMap svcA = some (some {ep0.String}) ∧
    ep1 ∈ [ep0, ep1] ∧ ep1.String ∉ ({ep0.String} : Finset String) ∧
    ∃ g, ∃ own,
      eventsFor svcA (newEvents grownState
        (installServices okClient equalAll grownState [svcA]).state) = own ∧
      (own = [installEndpointFlowsEvent svcA infoPlain [ep0, ep1] false] ∨
       own = [installEndpointFlowsEvent svcA infoPlain [ep0, ep1] true,
              installServiceGroupEvent svcA infoPlain g [ep0, ep1] false] ∨
       own = [installEndpointFlowsEvent svcA infoPlain [ep0, ep1] true,
              installServiceGroupEvent svcA infoPlain g [ep0, ep1] true,
              installServiceFlowsEvent svcA infoPlain g false] ∨
       ∃ lb : List OFEvent,
        (∀ e ∈ lb, e.svc = svcA ∧ e.call.isInstallLoadBalancerServiceFlows = true) ∧
        own = [installEndpointFlowsEvent svcA infoPlain [ep0, ep1] true,
               installServiceGroupEvent svcA infoPlain g [ep0, ep1] true,
               installServiceFlowsEvent svcA infoPlain g true] ++ lb) :=
  ⟨by decide, by decide, by decide, by decide, by decide, by decide, rfl, by decide, by decide,
    installServices_new_endpoint_calls okClient equalAll grownState [svcA] svcA infoPlain
      infoPlain [ep0, ep1] {ep0.String} ep1 (by decide) (by decide)
      (fun k hk => by
        have hk' : k = svcA := by simpa using hk
        subst hk'
        intro h
        have h' : grownState.endpointInstalledMap svcA = some (some {ep0.String}) := rfl
        rw [h'] at h
        cases h)
      (by decide) (by decide) (by decide) (by decide) rfl (by decide) (by decide)⟩

/-! ## Further checks of the models -/

/-- Scenario "in-order insertions" of the specification: with the seed 10000, `p110`, `p1120`
and `p1121` get 10000, 9999 and 9998. -/
theorem test_in_order_insertions :
    (registered (seedConfig 10000) [p110, p1120, p1121]).priorityMap p110 = some 10000 ∧
    (registered (seedConfig 10000) [p110, p1120, p1121]).priorityMap p1120 = some 9999 ∧
    (registered (seedConfig 10000) [p110, p1120, p1121]).priorityMap p1121 = some 9998 ∧
    (registered (seedConfig 10000) [p110, p1120, p1121]).sortedOFPriorities
      = [9998, 9999, 10000] := by
  refine ⟨?_, ?_, ?_, ?_⟩ <;> decide!

/-- Once both trackers are synced, `syncProxyRules` programs a new service. -/
theorem test_syncProxyRules_initialized :
    (syncProxyRules flagTrackers okClient equalAll (fun _ => []) (fun _ => [svcB])
      syncedFresh).panicked = false ∧
    newEvents freshState
      (syncProxyRules flagTrackers okClient equalAll (fun _ => []) (fun _ => [svcB])
        syncedFresh).state.proxier =
      [{ svc := svcB, call := .InstallEndpointFlows .TCP [ep2], ok := true },
       { svc := svcB, call := .InstallServiceGroup 1 false [ep2], ok := true },
       { svc := svcB, call := .InstallServiceFlows 1 "10.0.0.1" 80 .TCP 0, ok := true }] ∧
    (syncProxyRules flagTrackers okClient equalAll (fun _ => []) (fun _ => [svcB])
      syncedFresh).state.proxier.serviceInstalledMap svcB = some infoPlain ∧
    (syncProxyRules flagTrackers okClient equalAll (fun _ => []) (fun _ => [svcB])
      syncedFresh).state.proxier.GetServiceByIP "10.0.0.1:80/TCP" = some svcB := by
  refine ⟨?_, ?_, ?_, ?_⟩ <;> decide

/-! ## installServices: services that need no update -/

/-- The programming of a service when every call succeeds. -/
theorem programService_ok (c : OFClient) (hc : ∀ h call, c h call = true) (p : Proxier)
    (k : ServicePortName) (si : ServiceInfo) (g : Nat) (eps : List Endpoint) :
    ∃ lb : List OFEvent,
      programService c p k si g eps =
        (p.logged ([installEndpointFlowsEvent k si eps true,
          installServiceGroupEvent k si g eps true,
          installServiceFlowsEvent k si g true] ++ lb)).withInstalled k si := by
  unfold programService
  simp only [ofCall_ok c hc, if_true, logged_logged]
  obtain ⟨lb, -, heq⟩ := installIngressFlows_eq c k g si
    (p.logged ([{ svc := k, call := .InstallEndpointFlows si.OFProtocol eps, ok := true }] ++
      [{ svc := k
         call := .InstallServiceGroup g (decide (si.StickyMaxAgeSeconds ≠ 0)) eps
         ok := true }] ++
      [{ svc := k
         call := .InstallServiceFlows g si.ClusterIP (uint16 si.Port) si.OFProtocol
           (uint16 si.StickyMaxAgeSeconds)
         ok := true }]))
    si.LoadBalancerIPStrings
  refine ⟨lb, ?_⟩
  rw [heq]
  simp [Proxier.logged, Proxier.withInstalled, Proxier.addServiceByIP, installEndpointFlowsEvent,
    installServiceGroupEvent, installServiceFlowsEvent]

/-- A service that is installed with an equal `ServiceInfo` and has every endpoint recorded needs
no update. -/
theorem not_needsUpdate_of_settled (equal : ServiceInfo → ServiceInfo → Bool) (p : Proxier)
    (k : ServicePortName) (si inst : ServiceInfo) (eps : List Endpoint)
    (hinst : p.serviceInstalledMap k = some inst) (heq : equal inst si = true)
    (hrec : ∀ e ∈ eps, endpointRecorded p k e) : ¬ needsUpdate equal p k si eps := by
  rintro (h | ⟨e, he, hn⟩)
  · simp [serviceChanged, hinst, heq] at h
  · exact hn (hrec e he)

/-- The iteration of `installServices` for a service that needs no update only touches the group
counter. -/
theorem installService_of_not_needsUpdate (c : OFClient)
    (equal : ServiceInfo → ServiceInfo → Bool) (p : Proxier) (k : ServicePortName)
    (si : ServiceInfo) (eps : List Endpoint) (hsi : p.serviceMap k = some si)
    (heps : p.endpointsMap k = some eps) (hne : eps ≠ [])
    (hN : ¬ needsUpdate equal p k si eps) :
    installService c equal p k = .returned (p.withGroupCounter (p.groupCounter.Get k).2) := by
  rcases installService_cases c equal p k si hsi with ⟨-, h⟩ | ⟨eps1, hE, -, hI, -⟩ |
    ⟨eps1, m, -, -, -, -, h⟩ | ⟨eps1, m, hE, -, -, hN1, -⟩
  · exact h
  · exfalso
    obtain ⟨e, he⟩ := List.exists_mem_of_ne_nil eps hne
    exact hN (Or.inr ⟨e, he, by simp [endpointRecorded, hI]⟩)
  · exact h
  · exfalso
    rw [heps] at hE
    cases hE
    exact hN hN1

/-- A run of `installServices` leaves a service that needs no update to the iterations of the other
services. -/
theorem installServices_settled_frame (c : OFClient) (equal : ServiceInfo → ServiceInfo → Bool)
    (p : Proxier) (order : List ServicePortName) (svc : ServicePortName) (si : ServiceInfo)
    (eps : List Endpoint) (hnd : order.Nodup) (hmem : svc ∈ order)
    (hsi : p.serviceMap svc = some si) (heps : p.endpointsMap svc = some eps) (hne : eps ≠ [])
    (hN : ¬ needsUpdate equal p svc si eps) :
    InstallFrame (fun j => j ∈ order ∧ j ≠ svc) p (installServices c equal p order).state := by
  have hself : ¬ (fun j => j ∈ order ∧ j ≠ svc) svc := fun h => h.2 rfl
  rcases installServices_local c equal order p svc hnd hmem with h | ⟨p0, h1, h2⟩
  · exact h
  · have hN0 : ¬ needsUpdate equal p0 svc si eps := fun h =>
      hN ((needsUpdate_congr equal p p0 svc si eps (h1.installed svc hself)
        (h1.endpointInstalled svc hself)).1 h)
    have hstep := installService_of_not_needsUpdate c equal p0 svc si eps
      (by rw [h1.serviceMap]; exact hsi) (by rw [h1.endpointsMap]; exact heps) hne hN0
    rw [hstep] at h2
    exact (h1.trans (InstallFrame.withGroupCounter _ p0 _)).trans h2

/-- After an iteration of `installServices` in which every call succeeded and that returned, the
service needs no update. -/
theorem installService_settles (c : OFClient) (hc : ∀ h call, c h call = true)
    (equal : ServiceInfo → ServiceInfo → Bool) (hrefl : ∀ si, equal si si = true)
    (p q : Proxier) (k : ServicePortName) (si : ServiceInfo) (eps : List Endpoint)
    (hsi : p.serviceMap k = some si) (heps : p.endpointsMap k = some eps) (hne : eps ≠ [])
    (hret : installService c equal p k = .returned q) :
    ¬ needsUpdate equal q k si eps := by
  rcases installService_cases c equal p k si hsi with ⟨hE, h⟩ | ⟨eps1, -, -, -, h⟩ |
    ⟨eps1, m, hE, -, -, hN, h⟩ | ⟨eps1, m, hE, -, -, -, h⟩
  · rcases hE with hE | hE
    · rw [heps] at hE; cases hE
    · rw [heps] at hE
      cases hE
      exact absurd rfl hne
  · rw [hret] at h; cases h
  · rw [hret] at h
    cases h
    rw [heps] at hE
    cases hE
    exact hN
  · rw [hret] at h
    cases h
    rw [heps] at hE
    cases hE
    obtain ⟨lb, hq⟩ := programService_ok c hc
      ((p.withGroupCounter (p.groupCounter.Get k).2).withEndpointInstalled k
        (some (some (m ∪ (eps.map Endpoint.String).toFinset)))) k si (p.groupCounter.Get k).1 eps
    rw [hq]
    rintro (h | ⟨e, he, hn⟩)
    · simp [serviceChanged, Proxier.withInstalled, hrefl] at h
    · apply hn
      refine ⟨m ∪ (eps.map Endpoint.String).toFinset, ?_, ?_⟩
      · simp [Proxier.withInstalled, Proxier.logged, Proxier.withEndpointInstalled]
      · simp only [Finset.mem_union, List.mem_toFinset, List.mem_map]
        exact Or.inr ⟨e, he, rfl⟩

/-- After a run of `installServices` in which every call succeeded and that returned, no visited
service with an endpoint needs an update. -/
theorem installServices_settles (c : OFClient) (hc : ∀ h call, c h call = true)
    (equal : ServiceInfo → ServiceInfo → Bool) (hrefl : ∀ si, equal si si = true)
    (order : List ServicePortName) : ∀ (p q : Proxier), order.Nodup →
    installServices c equal p order = .returned q →
    ∀ k ∈ order, ∀ si eps, p.serviceMap k = some si → p.endpointsMap k = some eps → eps ≠ [] →
      ¬ needsUpdate equal q k si eps := by
  induction order with
  | nil => intro p q _ _ k hk; cases hk
  | cons j rest ih =>
    intro p q hnd hret k hk si eps hsi heps hne
    simp only [installServices] at hret
    cases hstep : installService c equal p j with
    | panicked p1 => rw [hstep] at hret; cases hret
    | returned p1 =>
      rw [hstep] at hret
      simp only at hret
      have hnd1 := List.nodup_cons.1 hnd
      have hF := installService_frame c equal (fun w => w = j) p j rfl
      rw [hstep] at hF
      simp only [Run.state] at hF
      by_cases hkj : k = j
      · subst hkj
        have hown := installService_settles c hc equal hrefl p p1 k si eps hsi heps hne hstep
        have hR := installServices_frame c equal (fun w => w ∈ rest) rest p1 (fun w hw => hw)
        rw [hret] at hR
        simp only [Run.state] at hR
        intro h
        exact hown ((needsUpdate_congr equal p1 q k si eps (hR.installed k hnd1.1)
          (hR.endpointInstalled k hnd1.1)).1 h)
      · have hk1 : k ∈ rest := by
          rcases List.mem_cons.1 hk with h | h
          · exact absurd h hkj
          · exact h
        exact ih p1 q hnd1.2 hret k hk1 si eps (by rw [hF.serviceMap]; exact hsi)
          (by rw [hF.endpointsMap]; exact heps) hne

/-- A run of `installServices` over services none of which needs an update returns, issues no
call and only touches the group counter. -/
theorem installServices_of_settled (c : OFClient) (equal : ServiceInfo → ServiceInfo → Bool)
    (order : List ServicePortName) : ∀ (q : Proxier),
    (∀ k ∈ order, ∀ si eps, q.serviceMap k = some si → q.endpointsMap k = some eps → eps ≠ [] →
      ¬ needsUpdate equal q k si eps) →
    ∃ g, installServices c equal q order = .returned (q.withGroupCounter g) := by
  induction order with
  | nil => intro q _; exact ⟨q.groupCounter, rfl⟩
  | cons j rest ih =>
    intro q hq
    have hrest : ∀ g, ∃ g1,
        installServices c equal (q.withGroupCounter g) rest = .returned (q.withGroupCounter g1) := by
      intro g
      obtain ⟨g1, hg1⟩ := ih (q.withGroupCounter g) (fun k hk si eps hsi heps hne h =>
        hq k (List.mem_cons_of_mem _ hk) si eps hsi heps hne
          ((needsUpdate_congr equal q (q.withGroupCounter g) k si eps rfl rfl).1 h))
      exact ⟨g1, hg1⟩
    simp only [installServices]
    cases hsi : q.serviceMap j with
    | none =>
      have hstep : installService c equal q j = .returned q := by
        simp only [installService, hsi]
      rw [hstep]
      exact hrest q.groupCounter
    | some si =>
      rcases installService_cases c equal q j si hsi with ⟨-, h⟩ | ⟨eps, hE, hne, hI, -⟩ |
        ⟨eps, m, -, -, -, -, h⟩ | ⟨eps, m, hE, hne, -, hN, -⟩
      · rw [h]; exact hrest _
      · exfalso
        obtain ⟨e, he⟩ := List.exists_mem_of_ne_nil eps hne
        exact hq j (List.mem_cons_self _ _) si eps hsi hE hne
          (Or.inr ⟨e, he, by simp [endpointRecorded, hI]⟩)
      · rw [h]; exact hrest _
      · exact absurd hN (hq j (List.mem_cons_self _ _) si eps hsi hE hne)

/-- C11 (as stated, refuted): `svcA` is installed with an equal `ServiceInfo` and its only endpoint
is recorded, and no call is issued for it; yet its reverse-index entry is not left unchanged,
because the new service `svcB` shares ClusterIP:Port/Proto and overwrites it in the same run. -/
theorem installServices_settled_reverse_index_overwritten :
    settledCollidingState.serviceMap svcA = some infoPlain ∧
    settledCollidingState.endpointsMap svcA = some [ep0] ∧
    settledCollidingState.serviceInstalledMap svcA = some infoPlain ∧
    equalAll infoPlain infoPlain = true ∧
    (∀ e ∈ [ep0], endpointRecorded settledCollidingState svcA e) ∧
    eventsFor svcA (newEvents settledCollidingState
      (installServices okClient equalAll settledCollidingState [svcA, svcB]).state) = [] ∧
    settledCollidingState.serviceStringMap infoPlain.String = some svcA ∧
    (installServices okClient equalAll settledCollidingState [svcA, svcB]).state.serviceStringMap
      infoPlain.String = some svcB := by
  refine ⟨by decide, by decide, by decide, by decide, ?_, by decide, by decide, by decide⟩
  intro e he
  have he' : e = ep0 := by simpa using he
  subst he'
  exact ⟨_, rfl, by decide⟩

/-- C11 (amended): a service of `serviceMap` with at least one endpoint that is installed with a
`ServiceInfo` equal to the current one and has every endpoint recorded in
`endpointInstalledMap[svc]` gets no call in a run of `installServices`, and its entries of
`serviceInstalledMap` and `endpointInstalledMap` are unchanged; its reverse-index entry at
`svcInfo.String()` is unchanged provided no other visited service has the same string.  When
`Equal` is reflexive, a second run right after a run in which every call succeeded and that
returned, over services visited by the first run in any order and with any outcome of the calls,
returns, issues no call at all and changes nothing but the group counter. -/
theorem installServices_settled_untouched (c : OFClient)
    (equal : ServiceInfo → ServiceInfo → Bool) (p : Proxier) (order : List ServicePortName)
    (hnd : order.Nodup) :
    (∀ (svc : ServicePortName) (svcInfo installedInfo : ServiceInfo) (eps : List Endpoint),
      svc ∈ order → p.serviceMap svc = some svcInfo →
      p.endpointsMap svc = some eps → eps ≠ [] →
      p.serviceInstalledMap svc = some installedInfo → equal installedInfo svcInfo = true →
      (∀ e ∈ eps, endpointRecorded p svc e) →
      eventsFor svc (newEvents p (installServices c equal p order).state) = [] ∧
      (installServices c equal p order).state.serviceInstalledMap svc =
        p.serviceInstalledMap svc ∧
      (installServices c equal p order).state.endpointInstalledMap svc =
        p.endpointInstalledMap svc ∧
      ((∀ w ∈ order, w ≠ svc → ∀ wi, p.serviceMap w = some wi → wi.String ≠ svcInfo.String) →
        (installServices c equal p order).state.serviceStringMap svcInfo.String =
          p.serviceStringMap svcInfo.String)) ∧
    (∀ (q : Proxier) (c2 : OFClient) (order2 : List ServicePortName),
      (∀ h call, c h call = true) → (∀ si, equal si si = true) →
      installServices c equal p order = .returned q → (∀ k ∈ order2, k ∈ order) →
      (∃ g, installServices c2 equal q order2 = .returned (q.withGroupCounter g)) ∧
      newEvents q (installServices c2 equal q order2).state = []) := by
  constructor
  · intro svc svcInfo installedInfo eps hmem hsi heps hne hinst heq hrec
    have hself : ¬ (fun j => j ∈ order ∧ j ≠ svc) svc := fun h => h.2 rfl
    have hF := installServices_settled_frame c equal p order svc svcInfo eps hnd hmem hsi heps hne
      (not_needsUpdate_of_settled equal p svc svcInfo installedInfo eps hinst heq hrec)
    obtain ⟨new, hnew, ht⟩ := hF.log
    refine ⟨?_, hF.installed svc hself, hF.endpointInstalled svc hself, fun hcol => ?_⟩
    · rw [newEvents_of_append hnew]
      exact eventsFor_eq_nil (fun e he => (ht e he).2)
    · exact hF.strings _ (fun w hw wi hwi => hcol w hw.1 hw.2 wi hwi)
  · intro q c2 order2 hc hrefl hret hsub
    have hF := installServices_frame c equal (fun j => j ∈ order) order p (fun _ h => h)
    rw [hret] at hF
    simp only [Run.state] at hF
    obtain ⟨g, hg⟩ := installServices_of_settled c2 equal order2 q
      (fun k hk si eps hsi heps hne =>
        installServices_settles c hc equal hrefl order p q hnd hret k (hsub k hk) si eps
          (by rw [← hF.serviceMap]; exact hsi) (by rw [← hF.endpointsMap]; exact heps) hne)
    refine ⟨⟨g, hg⟩, ?_⟩
    rw [hg]
    simp [Run.state, newEvents, Proxier.withGroupCounter]

/-- C11 (amended), witness: in `mixedState` the installed service `svcA` is left alone while
`svcB` is installed, and a second run in the opposite order issues no call. -/
theorem installServices_settled_untouched_witness :
    [svcA, svcB].Nodup ∧
    (eventsFor svcA (newEvents mixedState
        (installServices okClient equalAll mixedState [svcA, svcB]).state) = [] ∧
      (installServices okClient equalAll mixedState [svcA, svcB]).state.serviceInstalledMap svcA =
        mixedState.serviceInstalledMap svcA ∧
      (installServices okClient equalAll mixedState [svcA, svcB]).state.endpointInstalledMap svcA =
        mixedState.endpointInstalledMap svcA ∧
      (installServices okClient equalAll mixedState [svcA, svcB]).state.serviceStringMap
        infoPlain.String = mixedState.serviceStringMap infoPlain.String) ∧
    (∃ g, installServices failEndpointsClient equalAll
        (installServices okClient equalAll mixedState [svcA, svcB]).state [svcB, svcA] =
        .returned ((installServices okClient equalAll mixedState [svcA, svcB]).state.withGroupCounter
          g)) ∧
    newEvents (installServices okClient equalAll mixedState [svcA, svcB]).state
      (installServices failEndpointsClient equalAll
        (installServices okClient equalAll mixedState [svcA, svcB]).state [svcB, svcA]).state = [] :=
  ⟨by decide,
    (fun h => ⟨h.1, h.2.1, h.2.2.1, h.2.2.2 (fun w hw hne wi hwi => by
      have hw' : w = svcB := by
        rcases List.mem_cons.1 hw with h1 | h1
        · exact absurd h1 hne
        · simpa using h1
      subst hw'
      have hwi' : wi = infoOther := by
        have h2 : mixedState.serviceMap svcB = some infoOther := by decide
        rw [h2] at hwi
        exact (Option.some.inj hwi).symm
      subst hwi'
      decide)⟩)
      ((installServices_settled_untouched okClient equalAll mixedState [svcA, svcB]
        (by decide)).1 svcA infoPlain infoPlain [ep0] (by decide) (by decide) (by decide)
        (by decide) (by decide) (by decide) (fun e he => by
          have he' : e = ep0 := by simpa using he
          subst he'
          exact ⟨_, rfl, by decide⟩)),
    ((installServices_settled_untouched okClient equalAll mixedState [svcA, svcB]
      (by decide)).2 (installServices okClient equalAll mixedState [svcA, svcB]).state
      failEndpointsClient [svcB, svcA] (fun _ _ => rfl) (fun si => by simp [equalAll]) rfl
      (by decide)).1,
    ((installServices_settled_untouched okClient equalAll mixedState [svcA, svcB]
      (by decide)).2 (installServices okClient equalAll mixedState [svcA, svcB]).state
      failEndpointsClient [svcB, svcA] (fun _ _ => rfl) (fun si => by simp [equalAll]) rfl
      (by decide)).2⟩

/-! ## removeStaleEndpoints -/

theorem entrySet_erasedEntry (v : Option (Option (Finset String))) (done : List Endpoint) :
    entrySet (erasedEntry v done) = entrySet v \ endpointStrings done := by
  unfold erasedEntry
  by_cases hd : done = []
  · simp [hd, endpointStrings]
  · by_cases he : entrySet v \ endpointStrings done = ∅
    · rw [if_neg hd, if_pos he, he]; rfl
    · rw [if_neg hd, if_neg he]; rfl

theorem endpointStrings_append (a b : List Endpoint) :
    endpointStrings (a ++ b) = endpointStrings a ∪ endpointStrings b := by
  simp [endpointStrings, List.toFinset_append]

theorem erasedEntry_append (v : Option (Option (Finset String))) (d1 d2 : List Endpoint) :
    erasedEntry (erasedEntry v d1) d2 = erasedEntry v (d1 ++ d2) := by
  by_cases h2 : d2 = []
  · subst h2; simp [erasedEntry]
  by_cases h1 : d1 = []
  · subst h1; simp [erasedEntry]
  have h12 : d1 ++ d2 ≠ [] := by simp [h1]
  have hset : entrySet (erasedEntry v d1) \ endpointStrings d2 =
      entrySet v \ endpointStrings (d1 ++ d2) := by
    rw [entrySet_erasedEntry, endpointStrings_append, sdiff_sdiff_left]
    rfl
  have hl : erasedEntry (erasedEntry v d1) d2 =
      if entrySet (erasedEntry v d1) \ endpointStrings d2 = ∅ then none
      else some (some (entrySet (erasedEntry v d1) \ endpointStrings d2)) := by
    rw [erasedEntry.eq_1 (erasedEntry v d1) d2, if_neg h2]
  have hr : erasedEntry v (d1 ++ d2) =
      if entrySet v \ endpointStrings (d1 ++ d2) = ∅ then none
      else some (some (entrySet v \ endpointStrings (d1 ++ d2))) := by
    rw [erasedEntry.eq_1 v (d1 ++ d2), if_neg h12]
  rw [hl, hr, hset]

theorem uninstalledEndpoints_append (a b : List OFEvent) (k : ServicePortName) :
    uninstalledEndpoints (a ++ b) k = uninstalledEndpoints a k ++ uninstalledEndpoints b k := by
  simp [uninstalledEndpoints, List.filterMap_append]

theorem uninstalledEndpoints_eq_nil (l : List OFEvent) (k : ServicePortName)
    (h : ∀ e ∈ l, e.svc ≠ k) : uninstalledEndpoints l k = [] := by
  induction l with
  | nil => rfl
  | cons a rest ih =>
    have ha : a.svc ≠ k := h a (List.mem_cons_self _ _)
    have hrest := ih (fun e he => h e (List.mem_cons_of_mem _ he))
    unfold uninstalledEndpoints at hrest ⊢
    rw [List.filterMap_cons]
    cases hcall : a.call <;> simp [ha, hrest]

theorem mem_uninstalledEndpoints {l : List OFEvent} {k : ServicePortName} {x : Endpoint} :
    x ∈ uninstalledEndpoints l k ↔
      ∃ e ∈ l, ∃ b, e.call = .UninstallEndpointFlows b x ∧ e.svc = k ∧ e.ok = true := by
  unfold uninstalledEndpoints
  rw [List.mem_filterMap]
  constructor
  · rintro ⟨e, he, h⟩
    cases hcall : e.call <;> rw [hcall] at h <;> simp at h
    obtain ⟨⟨h1, h2⟩, h3⟩ := h
    subst h3
    exact ⟨e, he, _, hcall, h1, h2⟩
  · rintro ⟨e, he, b, hcall, h1, h2⟩
    exact ⟨e, he, by rw [hcall]; simp [h1, h2]⟩

/-- One iteration of the inner loop of `removeStaleEndpoints`. -/
theorem removeStaleEndpoint_eq (c : OFClient) (k : ServicePortName) (p : Proxier)
    (e : Endpoint) :
    ∃ ok : Bool,
      removeStaleEndpoint c k p e =
        (p.logged [{ svc := k, call := .UninstallEndpointFlows (bindingProtocolOf k) e,
                     ok := ok }]).withEndpointInstalled k
          (erasedEntry (p.endpointInstalledMap k) (if ok = true then [e] else [])) := by
  obtain ⟨b, hb⟩ : ∃ b, p.ofCall c k (.UninstallEndpointFlows (bindingProtocolOf k) e) =
      (b, p.logged [{ svc := k, call := .UninstallEndpointFlows (bindingProtocolOf k) e,
                      ok := b }]) := ⟨_, rfl⟩
  refine ⟨b, ?_⟩
  unfold removeStaleEndpoint
  simp only [hb]
  cases b
  · simp [erasedEntry, Proxier.withEndpointInstalled, Proxier.logged]
  · simp only [if_true]
    have hlog : ∀ l, (p.logged l).endpointInstalledMap = p.endpointInstalledMap := fun _ => rfl
    cases hv : p.endpointInstalledMap k with
    | none =>
      simp only [hlog, hv]
      simp [erasedEntry, entrySet, Proxier.withEndpointInstalled, Proxier.logged, ← hv]
    | some v =>
      cases v with
      | none =>
        simp only [hlog, hv]
        simp [erasedEntry, entrySet, Proxier.withEndpointInstalled, Proxier.logged]
      | some m =>
        simp only [hlog, hv]
        have hm : entrySet (some (some m)) \ endpointStrings [e] = m.erase e.String := by
          simp [entrySet, endpointStrings, Finset.sdiff_singleton_eq_erase]
        by_cases hc0 : (m.erase e.String).card = 0
        · have : m.erase e.String = ∅ := Finset.card_eq_zero.1 hc0
          simp only [hc0, if_true]
          simp [erasedEntry, hm, this, Proxier.withEndpointInstalled, Proxier.logged]
        · have : m.erase e.String ≠ ∅ := fun h => hc0 (Finset.card_eq_zero.2 h)
          simp only [hc0, if_false]
          simp [erasedEntry, hm, this, Proxier.withEndpointInstalled, Proxier.logged]

/-- The inner loop of `removeStaleEndpoints` for one service: one call per stale endpoint, in
order, and the entry of the service without the strings of the endpoints whose call succeeded. -/
theorem removeStaleEndpoint_foldl (c : OFClient) (k : ServicePortName) (eps : List Endpoint) :
    ∀ (p : Proxier), ∃ evs : List OFEvent,
      (∀ e ∈ evs, e.svc = k) ∧
      evs.map (fun e => e.call) =
        eps.map (fun e => OFCall.UninstallEndpointFlows (bindingProtocolOf k) e) ∧
      eps.foldl (removeStaleEndpoint c k) p =
        (p.logged evs).withEndpointInstalled k
          (erasedEntry (p.endpointInstalledMap k) (uninstalledEndpoints evs k)) := by
  induction eps with
  | nil =>
    intro p
    refine ⟨[], by simp, by simp, ?_⟩
    simp [uninstalledEndpoints, erasedEntry, Proxier.withEndpointInstalled, Proxier.logged]
  | cons e rest ih =>
    intro p
    obtain ⟨ok, hstep⟩ := removeStaleEndpoint_eq c k p e
    obtain ⟨evs, htag, hcalls, hfold⟩ := ih (removeStaleEndpoint c k p e)
    refine ⟨{ svc := k, call := .UninstallEndpointFlows (bindingProtocolOf k) e, ok := ok } :: evs,
      ?_, ?_, ?_⟩
    · intro x hx
      rcases List.mem_cons.1 hx with rfl | h
      · rfl
      · exact htag x h
    · simp [hcalls]
    · have hone : uninstalledEndpoints
          ({ svc := k, call := .UninstallEndpointFlows (bindingProtocolOf k) e, ok := ok } :: evs)
          k = (if ok = true then [e] else []) ++ uninstalledEndpoints evs k := by
        cases ok <;> simp [uninstalledEndpoints]
      rw [List.foldl_cons, hfold, hone, ← erasedEntry_append, hstep]
      simp [Proxier.withEndpointInstalled, Proxier.logged]

theorem removeStaleEndpoints_frame (c : OFClient) (ks : ServicePortName → Prop)
    (stale : List (ServicePortName × List Endpoint)) : ∀ (p : Proxier),
    (∀ kv ∈ stale, ks kv.1) → InstallFrame ks p (removeStaleEndpoints c p stale) := by
  induction stale with
  | nil => intro p _; exact InstallFrame.refl ks p
  | cons kv rest ih =>
    intro p hks
    simp only [removeStaleEndpoints, List.foldl_cons]
    obtain ⟨evs, htag, -, hfold⟩ := removeStaleEndpoint_foldl c kv.1 kv.2 p
    have hk := hks kv (List.mem_cons_self _ _)
    have h1 : InstallFrame ks p (kv.2.foldl (removeStaleEndpoint c kv.1) p) := by
      rw [hfold]
      exact (InstallFrame.logged ks p evs (fun e he => by rw [htag e he]; exact hk)).trans
        (InstallFrame.withEndpointInstalled ks _ kv.1 hk _)
    exact h1.trans (ih _ (fun j hj => hks j (List.mem_cons_of_mem _ hj)))

/-- C12: for every state and every `staleEndpoints` argument (a map, so each service occurs once),
`removeStaleEndpoints` issues for each service `svc` of the argument one call
`UninstallEndpointFlows` per stale endpoint, and afterwards the set `endpointInstalledMap[svc]` is
its previous set minus the identity strings of the stale endpoints whose call succeeded; when at
least one call succeeded for `svc` and the resulting set is empty the key `svc` is absent from
`endpointInstalledMap`, and when none succeeded the entry is untouched; a stale endpoint whose
call failed stays recorded if it was (the stale endpoints of a service being keyed by identity);
entries of services that are not in `staleEndpoints` are unchanged. -/
theorem removeStaleEndpoints_recorded (c : OFClient) (p : Proxier)
    (staleEndpoints : List (ServicePortName × List Endpoint))
    (hnd : (staleEndpoints.map Prod.fst).Nodup) :
    (∀ (svc : ServicePortName) (eps : List Endpoint), (svc, eps) ∈ staleEndpoints →
      (eventsFor svc (newEvents p (removeStaleEndpoints c p staleEndpoints))).map
          (fun e => e.call) =
        eps.map (fun e => OFCall.UninstallEndpointFlows (bindingProtocolOf svc) e) ∧
      recordedSet (removeStaleEndpoints c p staleEndpoints) svc =
        recordedSet p svc \
          uninstalledStrings (newEvents p (removeStaleEndpoints c p staleEndpoints)) svc ∧
      (uninstalledEndpoints (newEvents p (removeStaleEndpoints c p staleEndpoints)) svc ≠ [] →
        recordedSet (removeStaleEndpoints c p staleEndpoints) svc = ∅ →
        (removeStaleEndpoints c p staleEndpoints).endpointInstalledMap svc = none) ∧
      (uninstalledEndpoints (newEvents p (removeStaleEndpoints c p staleEndpoints)) svc = [] →
        (removeStaleEndpoints c p staleEndpoints).endpointInstalledMap svc =
          p.endpointInstalledMap svc) ∧
      ((eps.map Endpoint.String).Nodup → ∀ e ∈ eps,
        uninstallEndpointFlowsEvent svc e false ∈
          newEvents p (removeStaleEndpoints c p staleEndpoints) →
        e.String ∈ recordedSet p svc →
        e.String ∈ recordedSet (removeStaleEndpoints c p staleEndpoints) svc)) ∧
    (∀ svc, svc ∉ staleEndpoints.map Prod.fst →
      (removeStaleEndpoints c p staleEndpoints).endpointInstalledMap svc =
        p.endpointInstalledMap svc) := by
  constructor
  · intro svc eps hmem
    have hself : ¬ (fun j => j ≠ svc) svc := fun h => h rfl
    obtain ⟨pre, post, rfl⟩ := List.append_of_mem hmem
    rw [List.map_append, List.map_cons] at hnd
    have hpre : ∀ kv ∈ pre, kv.1 ≠ svc := fun kv hkv h =>
      (List.nodup_append.1 hnd).2.2 (List.mem_map_of_mem Prod.fst hkv)
        (by rw [h]; exact List.mem_cons_self _ _)
    have hpost : ∀ kv ∈ post, kv.1 ≠ svc := fun kv hkv h =>
      (List.nodup_cons.1 (List.nodup_append.1 hnd).2.1).1
        (by
          have hm := List.mem_map_of_mem Prod.fst hkv
          rw [h] at hm
          exact hm)
    have hF1 := removeStaleEndpoints_frame c (fun j => j ≠ svc) pre p hpre
    obtain ⟨evs, htag, hcalls, hfold⟩ :=
      removeStaleEndpoint_foldl c svc eps (removeStaleEndpoints c p pre)
    have hF2 := removeStaleEndpoints_frame c (fun j => j ≠ svc) post
      (eps.foldl (removeStaleEndpoint c svc) (removeStaleEndpoints c p pre)) hpost
    have hfinal : removeStaleEndpoints c p (pre ++ (svc, eps) :: post) =
        removeStaleEndpoints c
          (eps.foldl (removeStaleEndpoint c svc) (removeStaleEndpoints c p pre)) post := by
      simp [removeStaleEndpoints, List.foldl_append]
    rw [hfinal]
    obtain ⟨n1, hn1, ht1⟩ := hF1.log
    obtain ⟨n2, hn2, ht2⟩ := hF2.log
    have hlog : (removeStaleEndpoints c
          (eps.foldl (removeStaleEndpoint c svc) (removeStaleEndpoints c p pre)) post).ofLog =
        p.ofLog ++ (n1 ++ (evs ++ n2)) := by
      rw [hn2, hfold]
      simp [Proxier.withEndpointInstalled, Proxier.logged, hn1]
    have hnew := newEvents_of_append hlog
    have hU : uninstalledEndpoints (n1 ++ (evs ++ n2)) svc = uninstalledEndpoints evs svc := by
      rw [uninstalledEndpoints_append, uninstalledEndpoints_append,
        uninstalledEndpoints_eq_nil n1 svc ht1, uninstalledEndpoints_eq_nil n2 svc ht2]
      simp
    have hentry : (removeStaleEndpoints c
          (eps.foldl (removeStaleEndpoint c svc) (removeStaleEndpoints c p pre))
          post).endpointInstalledMap svc =
        erasedEntry (p.endpointInstalledMap svc) (uninstalledEndpoints evs svc) := by
      rw [hF2.endpointInstalled svc hself, hfold, ← hF1.endpointInstalled svc hself]
      simp [Proxier.withEndpointInstalled, Proxier.logged]
    have hset : recordedSet (removeStaleEndpoints c
          (eps.foldl (removeStaleEndpoint c svc) (removeStaleEndpoints c p pre)) post) svc =
        recordedSet p svc \ endpointStrings (uninstalledEndpoints evs svc) := by
      unfold recordedSet
      rw [hentry, entrySet_erasedEntry]
    rw [hnew]
    unfold uninstalledStrings
    rw [hU]
    refine ⟨?_, hset, ?_, ?_, ?_⟩
    · rw [eventsFor_append, eventsFor_append, eventsFor_eq_nil ht1, eventsFor_eq_nil ht2,
        eventsFor_eq_self htag]
      simpa using hcalls
    · intro hsome hempty
      rw [hentry, erasedEntry.eq_1, if_neg hsome]
      rw [hset] at hempty
      exact if_pos hempty
    · intro hnone
      rw [hentry, hnone]
      rfl
    · intro hstr e he hfail hrec
      rw [hset, Finset.mem_sdiff]
      refine ⟨hrec, fun hin => ?_⟩
      have hfail1 : uninstallEndpointFlowsEvent svc e false ∈ evs := by
        rcases List.mem_append.1 hfail with h | h
        · exact absurd rfl (ht1 _ h)
        · rcases List.mem_append.1 h with h | h
          · exact h
          · exact absurd rfl (ht2 _ h)
      simp only [endpointStrings, List.mem_toFinset, List.mem_map] at hin
      obtain ⟨x, hx, hxe⟩ := hin
      obtain ⟨ev, hev, b, hcall, -, hok⟩ := mem_uninstalledEndpoints.1 hx
      have hcm : ev.call ∈ evs.map (fun e => e.call) := List.mem_map_of_mem _ hev
      rw [hcalls, List.mem_map] at hcm
      obtain ⟨y, hy, hyc⟩ := hcm
      rw [hcall] at hyc
      have hyx : y = x := by
        injection hyc
      have hye : y = e := List.inj_on_of_nodup_map hstr hy he (by rw [hyx]; exact hxe)
      have hcall1 : ev.call = OFCall.UninstallEndpointFlows (bindingProtocolOf svc) e := by
        rw [hcall, ← hyc, hye]
      have hinj : Function.Injective
          (fun e => OFCall.UninstallEndpointFlows (bindingProtocolOf svc) e) := by
        intro a b hab
        cases hab
        rfl
      have hndc : (evs.map (fun e => e.call)).Nodup := by
        rw [hcalls]
        exact (List.Nodup.of_map _ hstr).map hinj
      have hsame : ev = uninstallEndpointFlowsEvent svc e false :=
        List.inj_on_of_nodup_map hndc hev hfail1 hcall1
      rw [hsame] at hok
      cases hok
  · intro svc hsvc
    exact (removeStaleEndpoints_frame c (fun j => j ∈ staleEndpoints.map Prod.fst) staleEndpoints p
      (fun kv hkv => List.mem_map_of_mem Prod.fst hkv)).endpointInstalled svc hsvc

/-- C12, witness: uninstalling `ep0` fails and the other calls succeed; `svcA` keeps `ep0` and
`ep2` recorded, and the key of `svcB`, whose only recorded endpoint was uninstalled, is gone. -/
theorem removeStaleEndpoints_recorded_witness :
    (staleEndpointsArg.map Prod.fst).Nodup ∧
    (eventsFor svcA (newEvents staleEndpointsState
        (removeStaleEndpoints failUninstallEndpointClient staleEndpointsState
          staleEndpointsArg))).map (fun e => e.call) =
      [ep0, ep1].map (fun e => OFCall.UninstallEndpointFlows (bindingProtocolOf svcA) e) ∧
    recordedSet (removeStaleEndpoints failUninstallEndpointClient staleEndpointsState
        staleEndpointsArg) svcA =
      recordedSet staleEndpointsState svcA \
        uninstalledStrings (newEvents staleEndpointsState
          (removeStaleEndpoints failUninstallEndpointClient staleEndpointsState
            staleEndpointsArg)) svcA ∧
    ep0.String ∈ recordedSet (removeStaleEndpoints failUninstallEndpointClient staleEndpointsState
        staleEndpointsArg) svcA ∧
    (removeStaleEndpoints failUninstallEndpointClient staleEndpointsState
      staleEndpointsArg).endpointInstalledMap svcB = none :=
  ⟨by decide,
    ((removeStaleEndpoints_recorded failUninstallEndpointClient staleEndpointsState
      staleEndpointsArg (by decide)).1 svcA [ep0, ep1] (by decide)).1,
    ((removeStaleEndpoints_recorded failUninstallEndpointClient staleEndpointsState
      staleEndpointsArg (by decide)).1 svcA [ep0, ep1] (by decide)).2.1,
    ((removeStaleEndpoints_recorded failUninstallEndpointClient staleEndpointsState
      staleEndpointsArg (by decide)).1 svcA [ep0, ep1] (by decide)).2.2.2.2 (by decide) ep0
      (by decide) (by decide) (by decide),
    ((removeStaleEndpoints_recorded failUninstallEndpointClient staleEndpointsState
      staleEndpointsArg (by decide)).1 svcB [ep2] (by decide)).2.2.1 (by decide) rfl⟩

/-! ## installServices: after a failure of `InstallServiceGroup` -/

/-- What a failed `InstallServiceGroup` in the iteration of `installServices` for `k` leaves
behind: the service has endpoints and its entry of `endpointInstalledMap` is a nil map. -/
theorem installService_group_failure (c : OFClient) (equal : ServiceInfo → ServiceInfo → Bool)
    (p : Proxier) (k : ServicePortName) :
    ∃ own, (installService c equal p k).state.ofLog = p.ofLog ++ own ∧
      (failedFor own k OFCall.isInstallServiceGroup →
        (∃ si eps, p.serviceMap k = some si ∧ p.endpointsMap k = some eps ∧ eps ≠ []) ∧
        (installService c equal p k).state.endpointInstalledMap k = some none) := by
  have hno : ¬ failedFor [] k OFCall.isInstallServiceGroup := fun ⟨e, he, _⟩ => by
    simp at he
  cases hsi : p.serviceMap k with
  | none =>
    refine ⟨[], ?_, fun h => absurd h hno⟩
    simp [installService, hsi, Run.state]
  | some si =>
    rcases installService_cases c equal p k si hsi with ⟨-, hr⟩ | ⟨eps, -, -, -, hr⟩ |
        ⟨eps, m, -, -, -, -, hr⟩ | ⟨eps, m, hE, hne, -, -, hr⟩
    · exact ⟨[], by simp [hr, Run.state, Proxier.withGroupCounter], fun h => absurd h hno⟩
    · exact ⟨[], by simp [hr, Run.state, Proxier.withGroupCounter], fun h => absurd h hno⟩
    · exact ⟨[], by simp [hr, Run.state, Proxier.withGroupCounter], fun h => absurd h hno⟩
    · rw [hr]
      simp only [Run.state]
      rcases programService_cases c
        ((p.withGroupCounter (p.groupCounter.Get k).2).withEndpointInstalled k
          (some (some (m ∪ (eps.map Endpoint.String).toFinset)))) k si (p.groupCounter.Get k).1 eps
        with hq | hq | hq | ⟨lb, hlb, hq⟩ <;> rw [hq]
      · refine ⟨_, rfl, fun hf => ?_⟩
        obtain ⟨e, he, -, -, hkind⟩ := hf
        simp only [List.mem_singleton] at he
        subst he
        simp [installEndpointFlowsEvent, OFCall.isInstallServiceGroup] at hkind
      · refine ⟨_, rfl, fun _ => ⟨⟨si, eps, rfl, hE, hne⟩, ?_⟩⟩
        simp [Proxier.withEndpointInstalled]
      · refine ⟨_, rfl, fun hf => ?_⟩
        obtain ⟨e, he, -, hok, hkind⟩ := hf
        simp only [List.mem_cons, List.mem_singleton, List.not_mem_nil, or_false] at he
        rcases he with rfl | rfl | rfl
        · simp [installEndpointFlowsEvent, OFCall.isInstallServiceGroup] at hkind
        · simp [installServiceGroupEvent] at hok
        · simp [installServiceFlowsEvent, OFCall.isInstallServiceGroup] at hkind
      · refine ⟨_, rfl, fun hf => ?_⟩
        obtain ⟨e, he, -, hok, hkind⟩ := hf
        simp only [List.cons_append, List.nil_append, List.mem_cons] at he
        rcases he with rfl | rfl | rfl | he
        · simp [installEndpointFlowsEvent, OFCall.isInstallServiceGroup] at hkind
        · simp [installServiceGroupEvent] at hok
        · simp [installServiceFlowsEvent, OFCall.isInstallServiceGroup] at hkind
        · have h1 := (hlb e he).2
          cases hcall : e.call <;> rw [hcall] at h1 hkind <;>
            simp [OFCall.isInstallServiceGroup, OFCall.isInstallLoadBalancerServiceFlows]
              at h1 hkind

/-- A run of `installServices` that visits a service with endpoints whose entry of
`endpointInstalledMap` is a nil map does not return. -/
theorem installServices_panics_of_nil (c : OFClient) (equal : ServiceInfo → ServiceInfo → Bool)
    (svc : ServicePortName) (si : ServiceInfo) (eps : List Endpoint) (hne : eps ≠ [])
    (order : List ServicePortName) : ∀ (p : Proxier), svc ∈ order →
    p.serviceMap svc = some si → p.endpointsMap svc = some eps →
    p.endpointInstalledMap svc = some none →
    ∃ q, installServices c equal p order = .panicked q := by
  induction order with
  | nil => intro p h; cases h
  | cons k rest ih =>
    intro p hmem hsi heps hnil
    simp only [installServices]
    by_cases hk : k = svc
    · subst hk
      rcases installService_cases c equal p k si hsi with ⟨hE, -⟩ | ⟨eps1, -, -, -, hr⟩ |
        ⟨eps1, m, -, -, hI, -, -⟩ | ⟨eps1, m, -, -, hI, -, -⟩
      · rcases hE with hE | hE
        · rw [heps] at hE; cases hE
        · rw [heps] at hE
          cases hE
          exact absurd rfl hne
      · rw [hr]; exact ⟨_, rfl⟩
      · rw [hnil] at hI; cases hI
      · rcases hI with ⟨hI, -⟩ | hI
        · rw [hnil] at hI; cases hI
        · rw [hnil] at hI; cases hI
    · cases hstep : installService c equal p k with
      | panicked p1 => exact ⟨p1, rfl⟩
      | returned p1 =>
        have hF := installService_frame c equal (fun w => w = k) p k rfl
        rw [hstep] at hF
        simp only [Run.state] at hF
        have hmem1 : svc ∈ rest := by
          rcases List.mem_cons.1 hmem with h | h
          · exact absurd h.symm hk
          · exact h
        exact ih p1 hmem1 (by rw [hF.serviceMap]; exact hsi) (by rw [hF.endpointsMap]; exact heps)
          (by rw [hF.endpointInstalled svc (fun h => hk h.symm)]; exact hnil)

/-- The iteration of `installServices` for a service with endpoints whose entry of
`endpointInstalledMap` is a nil map panics before any call. -/
theorem installService_of_nil (c : OFClient) (equal : ServiceInfo → ServiceInfo → Bool)
    (p : Proxier) (k : ServicePortName) (si : ServiceInfo) (eps : List Endpoint)
    (hsi : p.serviceMap k = some si) (heps : p.endpointsMap k = some eps) (hne : eps ≠ [])
    (hnil : p.endpointInstalledMap k = some none) :
    installService c equal p k = .panicked (p.withGroupCounter (p.groupCounter.Get k).2) := by
  rcases installService_cases c equal p k si hsi with ⟨hE, -⟩ | ⟨eps1, -, -, -, hr⟩ |
    ⟨eps1, m, -, -, hI, -, -⟩ | ⟨eps1, m, -, -, hI, -, -⟩
  · rcases hE with hE | hE
    · rw [heps] at hE; cases hE
    · rw [heps] at hE
      cases hE
      exact absurd rfl hne
  · exact hr
  · rw [hnil] at hI; cases hI
  · rcases hI with ⟨hI, -⟩ | hI
    · rw [hnil] at hI; cases hI
    · rw [hnil] at hI; cases hI

/-- C13, in general: when `InstallServiceGroup` fails for a service during a run of
`installServices`, the run leaves a nil map in the service's entry of `endpointInstalledMap`, and
a following run that visits the service, whatever the outcome of its calls, ends in a run-time
panic, issues no call for the service and leaves its entry of `serviceInstalledMap` as it was. -/
theorem installServices_group_failure_blocks (c c2 : OFClient)
    (equal : ServiceInfo → ServiceInfo → Bool) (p : Proxier)
    (order order2 : List ServicePortName) (svc : ServicePortName)
    (hnd : order.Nodup) (hmem : svc ∈ order) (hnd2 : order2.Nodup) (hmem2 : svc ∈ order2)
    (hfail : failedFor (newEvents p (installServices c equal p order).state) svc
      OFCall.isInstallServiceGroup) :
    (installServices c equal p order).state.endpointInstalledMap svc = some none ∧
    (∃ q2, installServices c2 equal (installServices c equal p order).state order2 =
      .panicked q2) ∧
    eventsFor svc (newEvents (installServices c equal p order).state
      (installServices c2 equal (installServices c equal p order).state order2).state) = [] ∧
    (installServices c2 equal (installServices c equal p order).state
        order2).state.serviceInstalledMap svc =
      (installServices c equal p order).state.serviceInstalledMap svc := by
  have hself : ¬ (fun j => j ∈ order ∧ j ≠ svc) svc := fun h => h.2 rfl
  have hself2 : ¬ (fun j => j ∈ order2 ∧ j ≠ svc) svc := fun h => h.2 rfl
  have hfacts : ∃ si eps, (installServices c equal p order).state.serviceMap svc = some si ∧
      (installServices c equal p order).state.endpointsMap svc = some eps ∧ eps ≠ [] ∧
      (installServices c equal p order).state.endpointInstalledMap svc = some none := by
    rcases installServices_local c equal order p svc hnd hmem with h | ⟨p0, h1, h2⟩
    · exfalso
      obtain ⟨new, hnew, ht⟩ := h.log
      rw [newEvents_of_append hnew] at hfail
      obtain ⟨e, he, hs, -⟩ := hfail
      exact (ht e he).2 hs
    · obtain ⟨own, hown, himp⟩ := installService_group_failure c equal p0 svc
      obtain ⟨n1, hn1, ht1⟩ := h1.log
      obtain ⟨n2, hn2, ht2⟩ := h2.log
      have hlog : (installServices c equal p order).state.ofLog =
          p.ofLog ++ (n1 ++ (own ++ n2)) := by
        rw [hn2, hown, hn1]
        simp
      rw [newEvents_of_append hlog] at hfail
      have hownfail : failedFor own svc OFCall.isInstallServiceGroup := by
        obtain ⟨e, he, hs, hok, hkind⟩ := hfail
        rcases List.mem_append.1 he with h | h
        · exact absurd hs (ht1 e h).2
        · rcases List.mem_append.1 h with h | h
          · exact ⟨e, h, hs, hok, hkind⟩
          · exact absurd hs (ht2 e h).2
      obtain ⟨⟨si, eps, hsi0, hE0, hne⟩, hnil0⟩ := himp hownfail
      have hF := installService_frame c equal (fun w => w = svc) p0 svc rfl
      refine ⟨si, eps, ?_, ?_, hne, ?_⟩
      · rw [h2.serviceMap, hF.serviceMap]; exact hsi0
      · rw [h2.endpointsMap, hF.endpointsMap]; exact hE0
      · rw [h2.endpointInstalled svc hself]; exact hnil0
  obtain ⟨si, eps, hsi, hE, hne, hnil⟩ := hfacts
  have hframe : InstallFrame (fun j => j ∈ order2 ∧ j ≠ svc) (installServices c equal p order).state
      (installServices c2 equal (installServices c equal p order).state order2).state := by
    rcases installServices_local c2 equal order2 (installServices c equal p order).state svc
      hnd2 hmem2 with h | ⟨p0, h1, h2⟩
    · exact h
    · have hstep := installService_of_nil c2 equal p0 svc si eps
        (by rw [h1.serviceMap]; exact hsi) (by rw [h1.endpointsMap]; exact hE) hne
        (by rw [h1.endpointInstalled svc hself2]; exact hnil)
      rw [hstep] at h2
      exact (h1.trans (InstallFrame.withGroupCounter _ p0 _)).trans h2
  obtain ⟨new, hnew, ht⟩ := hframe.log
  refine ⟨hnil, installServices_panics_of_nil c2 equal svc si eps hne order2 _ hmem2 hsi hE hnil,
    ?_, hframe.installed svc hself2⟩
  rw [newEvents_of_append hnew]
  exact eventsFor_eq_nil (fun e he => (ht e he).2)

/-- C13 (code at the failing input): `InstallServiceGroup` fails for the new service `svcB` in a
first run of `installServices`, which returns and leaves a nil map in `endpointInstalledMap[svcB]`;
the following run on the same desired state, in which every call succeeds, does not complete: it
panics on the assignment into the nil map, issues no call and does not install the service. -/
theorem installServices_after_group_failure_panics :
    (installServices failGroupClient equalAll freshState [svcB]).isPanicked = false ∧
    failedFor (newEvents freshState
        (installServices failGroupClient equalAll freshState [svcB]).state)
      svcB OFCall.isInstallServiceGroup ∧
    (installServices failGroupClient equalAll freshState [svcB]).state.endpointInstalledMap svcB =
      some none ∧
    (installServices okClient equalAll
      (installServices failGroupClient equalAll freshState [svcB]).state [svcB]).isPanicked =
      true ∧
    newEvents (installServices failGroupClient equalAll freshState [svcB]).state
      (installServices okClient equalAll
        (installServices failGroupClient equalAll freshState [svcB]).state [svcB]).state = [] ∧
    (installServices okClient equalAll
      (installServices failGroupClient equalAll freshState [svcB]).state
      [svcB]).state.serviceInstalledMap svcB = none := by
  refine ⟨by decide, ⟨installServiceGroupEvent svcB infoPlain 1 [ep2] false, ?_, ?_, ?_, ?_⟩, rfl,
    by decide, by decide, by decide⟩ <;> decide

/-- The calls of `removeStaleEndpoints` on the sample state, in order, and the case of a nil map:
a successful uninstall deletes the key. -/
theorem test_removeStaleEndpoints_events :
    newEvents staleEndpointsState
      (removeStaleEndpoints failUninstallEndpointClient staleEndpointsState staleEndpointsArg) =
      [uninstallEndpointFlowsEvent svcA ep0 false, uninstallEndpointFlowsEvent svcA ep1 true,
       uninstallEndpointFlowsEvent svcB ep2 true] ∧
    (removeStaleEndpoints okClient (staleEndpointsState.withEndpointInstalled svcB (some none))
      [(svcB, [ep2])]).endpointInstalledMap svcB = none := by
  refine ⟨by decide, rfl⟩

end Antrea
